import Mathlib

/-! Stencil evaluation controller (`osd/cpuEvalStencilsController.cpp`).

A shallow embedding of `OsdCpuEvalStencilsController::_UpdateValues` and
`OsdCpuEvalStencilsController::_UpdateDerivs`.

Conventions of the embedding.

* `real` is an arbitrary semiring `R`; arithmetic is exact.
* Memory is one flat heap `Mem R = Nat → R` of `real` cells.  A `real *` is the
  index of a cell, the null pointer is `0`, and `p + n` is pointer arithmetic in
  units of `sizeof(real)`.  Control and output buffers live in the same heap, so
  aliasing between them is expressible.
* The `int` quantities that the data model constrains to be non-negative
  (descriptor fields, stencil sizes, control indices) are natural numbers;
  signed overflow is not modelled in the two passes.  The traced position pass,
  which records the addresses it touches, takes the `int` product
  `(*index)*ctrlDesc.stride` in 32 bits.
* `std::vector::at(0)` on an empty vector throws `std::out_of_range`; reading a
  table through a raw cursor past the end of its vector is undefined behaviour.
  Both are explicit error outcomes of the embedding.
-/

namespace OpenSubdiv

/-! ## Data model -/

/-- Modelled from the spec: the header `osd/vertexDescriptor.h` is not part of the
sources; the spec gives `BufferDescriptor` as `{offset, length, stride}` with
`offset >= 0` and `stride >= length >= 0`. -/
structure OsdVertexBufferDescriptor where
  offset : Nat
  length : Nat
  stride : Nat
  deriving DecidableEq, Repr

/-- Modelled from the spec: `CanEval(other)` holds when both descriptors are
non-empty (non-zero `length`) and the output length does not exceed the control
length ("equal, or output length ≤ control length"). -/
def OsdVertexBufferDescriptor.CanEval (self other : OsdVertexBufferDescriptor) : Bool :=
  decide (self.length ≠ 0) && decide (other.length ≠ 0) && decide (other.length ≤ self.length)

/-- Modelled from the spec: the header `far/stencilTables.h` is not part of the
sources; the spec gives the table as the flattened sequences `sizes[nstencils]`,
`controlIndices`, `weights`, `duWeights`, `dvWeights`. -/
structure FarStencilTables (R : Type) where
  sizes : List Nat
  controlIndices : List Nat
  weights : List R
  duWeights : List R
  dvWeights : List R

/-- Modelled from the spec: `sizes` has one entry per stencil, so the number of
stencils is the length of `sizes`. -/
def FarStencilTables.GetNumStencils {R : Type} (t : FarStencilTables R) : Nat :=
  t.sizes.length

/-- The flat heap of `real` cells. -/
abbrev Mem (R : Type) := Nat → R

/-- Store `v` in cell `a`. -/
def Mem.write {R : Type} (m : Mem R) (a : Nat) (v : R) : Mem R :=
  fun x => if x = a then v else m x

/-- The effect of `memset(p, 0, n*sizeof(real))`: the `n` cells from `p` become zero. -/
def memset {R : Type} [Zero R] (m : Mem R) (p n : Nat) : Mem R :=
  fun x => if p ≤ x ∧ x < p + n then 0 else m x

/-- The bind state `_currentBindState` of the controller, with the fields the two
methods read: four descriptors and four `real *` pointers (`0` is the null pointer).
They are the fields of the same names of `OsdCpuEvalStencilsContext`. -/
structure BindState where
  controlDataDesc : OsdVertexBufferDescriptor
  outputDataDesc : OsdVertexBufferDescriptor
  outputDuDesc : OsdVertexBufferDescriptor
  outputDvDesc : OsdVertexBufferDescriptor
  controlData : Nat
  outputData : Nat
  outputUDeriv : Nat
  outputVDeriv : Nat
  deriving DecidableEq, Repr

/-- The ways an evaluation can fail to return. -/
inductive EvalError where
  /-- The exception `std::out_of_range` thrown by `std::vector::at`. -/
  | outOfRange
  /-- A read through a table cursor past the end of the vector (undefined behaviour). -/
  | tableOverrun
  deriving DecidableEq, Repr

/-- The loop `for (int i = start; i < start + n; ++i) body`, with a body that may fail. -/
def forLoop {σ ε : Type} (body : Nat → σ → Except ε σ) : Nat → Nat → σ → Except ε σ
  | 0, _, s => .ok s
  | n + 1, i, s =>
    match body i s with
    | .ok s1 => forLoop body n (i + 1) s1
    | .error e => .error e

/-! ## Position pass -/

/-- The variables that change in the loops of `_UpdateValues`: the `out` pointer, the
common offset of the `index` and `weight` cursors (they are advanced together by
`++index, ++weight`), and the heap. -/
structure ValueState (R : Type) where
  out : Nat
  cursor : Nat
  mem : Mem R

/-- One round of `for (k ...)`: `out[k] += cv[k] * (*weight)`. -/
def accumulateBody {R : Type} [Semiring R] (cv out : Nat) (w : R) (k : Nat) (m : Mem R) :
    Except EvalError (Mem R) :=
  .ok (m.write (out + k) (m (out + k) + m (cv + k) * w))

/-- One round of `for (j ...; ++j, ++index, ++weight)`: read `*index` and `*weight`,
form `cv = ctrl + (*index)*ctrlDesc.stride`, and run the `k` loop. -/
def stencilBody {R : Type} [Semiring R] (indices : List Nat) (weights : List R)
    (ctrl cstride len : Nat) (_j : Nat) (s : ValueState R) : Except EvalError (ValueState R) :=
  match indices[s.cursor]?, weights[s.cursor]? with
  | some idx, some w =>
    match forLoop (accumulateBody (ctrl + idx * cstride) s.out w) len 0 s.mem with
    | .ok m1 => .ok ⟨s.out, s.cursor + 1, m1⟩
    | .error e => .error e
  | _, _ => .error .tableOverrun

/-- One round of `for (i ...)`: clear the vertex, run the `j` loop over `sizes[i]`
contributions, then `out += outDesc.stride`. -/
def vertexBody {R : Type} [Semiring R] (sizes indices : List Nat) (weights : List R)
    (ctrl cstride len ostride : Nat) (i : Nat) (s : ValueState R) :
    Except EvalError (ValueState R) :=
  match sizes[i]? with
  | none => .error .tableOverrun
  | some n =>
    match forLoop (stencilBody indices weights ctrl cstride len) n 0
        ⟨s.out, s.cursor, memset s.mem s.out len⟩ with
    | .ok s1 => .ok ⟨s1.out + ostride, s1.cursor, s1.mem⟩
    | .error e => .error e

/-- The resolved control pointer `_currentBindState.controlData + ctrlDesc.offset`. -/
def BindState.ctrl (bs : BindState) : Nat := bs.controlData + bs.controlDataDesc.offset

/-- The resolved output pointer `_currentBindState.outputData + outDesc.offset`. -/
def BindState.out (bs : BindState) : Nat := bs.outputData + bs.outputDataDesc.offset

/-- The resolved pointer `_currentBindState.outputUDeriv + duDesc.offset`. -/
def BindState.du (bs : BindState) : Nat := bs.outputUDeriv + bs.outputDuDesc.offset

/-- The resolved pointer `_currentBindState.outputVDeriv + dvDesc.offset`. -/
def BindState.dv (bs : BindState) : Nat := bs.outputVDeriv + bs.outputDvDesc.offset

/-- The method `OsdCpuEvalStencilsController::_UpdateValues`: the returned `int` and the
heap it leaves, or the failure. -/
def OsdCpuEvalStencilsController._UpdateValues {R : Type} [Semiring R]
    (t : FarStencilTables R) (bs : BindState) (m : Mem R) : Except EvalError (Nat × Mem R) :=
  if t.GetNumStencils = 0 then .ok (0, m)
  else if bs.controlDataDesc.CanEval bs.outputDataDesc = false then .ok (0, m)
  else if bs.ctrl = 0 ∨ bs.out = 0 then .ok (0, m)
  else if t.sizes.isEmpty ∨ t.controlIndices.isEmpty ∨ t.weights.isEmpty then
    .error .outOfRange
  else
    match forLoop (vertexBody t.sizes t.controlIndices t.weights bs.ctrl
        bs.controlDataDesc.stride bs.outputDataDesc.length bs.outputDataDesc.stride)
        t.GetNumStencils 0 ⟨bs.out, 0, m⟩ with
    | .ok s => .ok (t.GetNumStencils, s.mem)
    | .error e => .error e

/-! ## Derivative pass -/

/-- The variables that change in the loops of `_UpdateDerivs`: the `du` and `dv`
pointers, the common offset of the `index`, `duweight` and `dvweight` cursors, and the
heap. -/
structure DerivState (R : Type) where
  du : Nat
  dv : Nat
  cursor : Nat
  mem : Mem R

/-- One round of `for (k ...)`: `du[k] += cv[k] * (*duweight); dv[k] += cv[k] * (*dvweight)`. -/
def accumulateDerivBody {R : Type} [Semiring R] (cv du dv : Nat) (duw dvw : R) (k : Nat)
    (m : Mem R) : Except EvalError (Mem R) :=
  .ok ((m.write (du + k) (m (du + k) + m (cv + k) * duw)).write (dv + k)
    ((m.write (du + k) (m (du + k) + m (cv + k) * duw)) (dv + k)
      + (m.write (du + k) (m (du + k) + m (cv + k) * duw)) (cv + k) * dvw))

/-- One round of `for (j ...; ++j, ++index, ++duweight, ++dvweight)`; the `k` loop runs
to `duDesc.length` for both outputs. -/
def derivStencilBody {R : Type} [Semiring R] (indices : List Nat) (duWeights dvWeights : List R)
    (ctrl cstride dulen : Nat) (_j : Nat) (s : DerivState R) : Except EvalError (DerivState R) :=
  match indices[s.cursor]?, duWeights[s.cursor]?, dvWeights[s.cursor]? with
  | some idx, some duw, some dvw =>
    match forLoop (accumulateDerivBody (ctrl + idx * cstride) s.du s.dv duw dvw) dulen 0 s.mem with
    | .ok m1 => .ok ⟨s.du, s.dv, s.cursor + 1, m1⟩
    | .error e => .error e
  | _, _, _ => .error .tableOverrun

/-- One round of `for (i ...)`: clear `duDesc.length` cells at `du` and `dvDesc.length`
cells at `dv`, run the `j` loop, then advance `du` and `dv` by their own strides. -/
def derivVertexBody {R : Type} [Semiring R] (sizes indices : List Nat)
    (duWeights dvWeights : List R) (ctrl cstride dulen dvlen dustride dvstride : Nat)
    (i : Nat) (s : DerivState R) : Except EvalError (DerivState R) :=
  match sizes[i]? with
  | none => .error .tableOverrun
  | some n =>
    match forLoop (derivStencilBody indices duWeights dvWeights ctrl cstride dulen) n 0
        ⟨s.du, s.dv, s.cursor, memset (memset s.mem s.du dulen) s.dv dvlen⟩ with
    | .ok s1 => .ok ⟨s1.du + dustride, s1.dv + dvstride, s1.cursor, s1.mem⟩
    | .error e => .error e

/-- The method `OsdCpuEvalStencilsController::_UpdateDerivs`. -/
def OsdCpuEvalStencilsController._UpdateDerivs {R : Type} [Semiring R]
    (t : FarStencilTables R) (bs : BindState) (m : Mem R) : Except EvalError (Nat × Mem R) :=
  if t.GetNumStencils = 0 then .ok (0, m)
  else if (bs.controlDataDesc.CanEval bs.outputDuDesc
      && bs.controlDataDesc.CanEval bs.outputDvDesc) = false then .ok (0, m)
  else if bs.ctrl = 0 ∨ bs.du = 0 ∨ bs.dv = 0 then .ok (0, m)
  else if t.sizes.isEmpty ∨ t.controlIndices.isEmpty ∨ t.duWeights.isEmpty
      ∨ t.dvWeights.isEmpty then
    .error .outOfRange
  else
    match forLoop (derivVertexBody t.sizes t.controlIndices t.duWeights t.dvWeights bs.ctrl
        bs.controlDataDesc.stride bs.outputDuDesc.length bs.outputDvDesc.length
        bs.outputDuDesc.stride bs.outputDvDesc.stride)
        t.GetNumStencils 0 ⟨bs.du, bs.dv, 0, m⟩ with
    | .ok s => .ok (t.GetNumStencils, s.mem)
    | .error e => .error e

/-! ## Relations between outcomes and between cells -/

/-- Two outcomes are related when both fail the same way or both succeed with related
states. -/
def RelExcept {σ τ ε : Type} (Q : σ → τ → Prop) : Except ε σ → Except ε τ → Prop
  | .ok a, .ok b => Q a b
  | .error e1, .error e2 => e1 = e2
  | _, _ => False

/-! ## The prefix-sum definition of the spec, windows and cells -/

/-- The offset `base(i) = sizes[0] + ... + sizes[i-1]` of stencil `i` in the flattened
sequences. -/
def stencilBase (sizes : List Nat) (i : Nat) : Nat := (sizes.take i).sum

/-- The value the spec gives to component `k` of output vertex `i`: the sum over
`j < sizes[i]` of `ctrl[controlIndices[base(i)+j]*stride + k] * weights[base(i)+j]`. -/
def stencilSum {R : Type} [Semiring R] (sizes indices : List Nat) (weights : List R)
    (ctrl cstride : Nat) (m : Mem R) (i k : Nat) : R :=
  ∑ j ∈ Finset.range (sizes.getD i 0),
    m (ctrl + indices.getD (stencilBase sizes i + j) 0 * cstride + k)
      * weights.getD (stencilBase sizes i + j) 0

/-- No cell read through the control pointer (`rlen` cells of each of the first `total`
flattened control indices) is a cell of one of the `n` output windows of `wlen` cells:
the control data and the output windows do not overlap. -/
def NoOverlap (indices : List Nat) (total ctrl cstride rlen out ostride wlen n : Nat) : Prop :=
  ∀ p < total, ∀ k1 < rlen, ∀ i < n, ∀ k2 < wlen,
    ctrl + indices.getD p 0 * cstride + k1 ≠ out + i * ostride + k2

/-- No cell of the `n` windows of `alen` cells at `a + i*astride` is a cell of the `n`
windows of `blen` cells at `b + i*bstride`. -/
def WindowsApart (a astride alen b bstride blen n : Nat) : Prop :=
  ∀ i1 < n, ∀ k1 < alen, ∀ i2 < n, ∀ k2 < blen,
    a + i1 * astride + k1 ≠ b + i2 * bstride + k2

/-- In a window of a round below `n`. -/
def InWindows (out ostride len n x : Nat) : Prop :=
  ∃ i < n, out + i * ostride ≤ x ∧ x < out + i * ostride + len

/-! ## Running a pass twice -/

/-- Two outcomes of a pass are alike on a set `W` of cells: both fail the same way, or
both return the same value and, when that value is not 0, leave the same contents in
the cells of `W`. -/
def SameOn {R : Type} (W : Nat → Prop) (a b : Except EvalError (Nat × Mem R)) : Prop :=
  RelExcept (fun p q => p.1 = q.1 ∧ (p.1 ≠ 0 → ∀ x, W x → p.2 x = q.2 x)) a b

/-- The cells read through the control pointer. -/
def ControlCells (indices : List Nat) (total ctrl cstride rlen x : Nat) : Prop :=
  ∃ p < total, ∃ k < rlen, x = ctrl + indices.getD p 0 * cstride + k

/-! ## Concrete inputs -/

/-- A table of one stencil with no contribution: `Σ sizes = 0` and the flattened
sequences are empty. -/
def emptyStencilTable : FarStencilTables Int := ⟨[0], [], [], [], []⟩

/-- A table without stencils. -/
def noStencilTable : FarStencilTables Int := ⟨[], [0], [1], [1], [1]⟩

/-- Two stencils over three control vertices: `2*cv0 + 3*cv1` and `5*cv2`. -/
def twoStencilTable : FarStencilTables Int := ⟨[2, 1], [0, 1, 2], [2, 3, 5], [1, -1, 1], [0, 1, 2]⟩

/-- Tightly packed 3-component buffers at four different addresses. -/
def packedBind : BindState :=
  ⟨⟨0, 3, 3⟩, ⟨0, 3, 3⟩, ⟨0, 3, 3⟩, ⟨0, 3, 3⟩, 100, 200, 300, 400⟩

/-- A bind state whose output descriptor is empty. -/
def emptyOutputBind : BindState :=
  ⟨⟨0, 3, 3⟩, ⟨0, 0, 0⟩, ⟨0, 3, 3⟩, ⟨0, 0, 0⟩, 100, 200, 300, 400⟩

/-- The heap in which cell `x` holds the value `x`. -/
def sampleMem : Mem Int := fun x => (x : Int)

/-- Read the returned value and the listed cells after a call; `none` when the call
failed. -/
def observe (r : Except EvalError (Nat × Mem Int)) (cells : List Nat) :
    Option (Nat × List Int) :=
  match r with
  | .ok (n, m) => some (n, cells.map m)
  | .error _ => none

/-- An interleaved control buffer (offset 3, length 3, stride 6) that was bound with a
null buffer: `controlData` is the null pointer. -/
def nullControlBind : BindState :=
  ⟨⟨3, 3, 6⟩, ⟨0, 3, 3⟩, ⟨0, 3, 3⟩, ⟨0, 3, 3⟩, 0, 200, 300, 400⟩

/-- An interleaved du buffer (offset 3, length 3, stride 6) that was bound with a null
buffer: `outputUDeriv` is the null pointer. -/
def nullDuBind : BindState :=
  ⟨⟨0, 3, 3⟩, ⟨0, 3, 3⟩, ⟨3, 3, 6⟩, ⟨0, 3, 3⟩, 100, 200, 0, 400⟩

/-- Control data in which every vertex is `(7, 8, 9)`, at the cells from 100. -/
def constMem : Mem Int := fun x => if 100 ≤ x then 7 + ((x - 100) % 3 : Nat) else 0

/-- The identity stencil table of the single quad: four stencils of size 1 and weight 1
with `controlIndices = [0, 1, 2, 3]`. -/
def quadTable : FarStencilTables Int := ⟨[1, 1, 1, 1], [0, 1, 2, 3], [1, 1, 1, 1], [], []⟩

/-- The table with `duWeights` in the place of `weights`. -/
def duAsWeights {R : Type} (t : FarStencilTables R) : FarStencilTables R :=
  ⟨t.sizes, t.controlIndices, t.duWeights, t.duWeights, t.dvWeights⟩

/-- The bind state with the du slot in the place of the output slot. -/
def duAsOutput (bs : BindState) : BindState :=
  ⟨bs.controlDataDesc, bs.outputDuDesc, bs.outputDuDesc, bs.outputDvDesc,
    bs.controlData, bs.outputUDeriv, bs.outputUDeriv, bs.outputVDeriv⟩

/-- One stencil over two control vertices with `duWeights = [1, -1]`. -/
def derivTable : FarStencilTables Int := ⟨[2], [0, 1], [1, 1], [1, -1], [1, 1]⟩

/-- The control points `(0,0,0)` and `(1,0,0)` in the cells `100..105`; every other
cell holds 9. -/
def twoPointMem : Mem Int := fun x =>
  if x = 103 then 1 else if 100 ≤ x ∧ x < 106 then 0 else 9

/-- A bind state whose du descriptor has length 2 and whose dv descriptor has length 3;
both pass `CanEval` against the control descriptor of length 3. -/
def mixedLengthBind : BindState :=
  ⟨⟨0, 3, 3⟩, ⟨0, 3, 3⟩, ⟨0, 2, 2⟩, ⟨0, 3, 3⟩, 100, 200, 300, 400⟩

/-- Two stencils of one contribution each: `2*cv1` and `2*cv0`. -/
def swapTable : FarStencilTables Int := ⟨[1, 1], [1, 0], [2, 2], [2, 2], [2, 2]⟩

/-- A bind state whose output buffer is the control buffer. -/
def aliasedBind : BindState :=
  ⟨⟨0, 1, 1⟩, ⟨0, 1, 1⟩, ⟨0, 1, 1⟩, ⟨0, 1, 1⟩, 100, 100, 300, 400⟩

/-- A bind state whose du descriptor (length 3) is longer than its dv descriptor
(length 2, stride 3). -/
def shortDvBind : BindState :=
  ⟨⟨0, 3, 3⟩, ⟨0, 3, 3⟩, ⟨0, 3, 3⟩, ⟨0, 2, 3⟩, 100, 200, 300, 400⟩

/-- Three stencils, the middle one with no contribution: `cv0 + cv1`, nothing, `cv2`. -/
def gapTable : FarStencilTables Int := ⟨[2, 0, 1], [0, 1, 2], [1, 1, 1], [1, 1, 1], [1, 1, 1]⟩

/-! ## Evaluation context (`osd/cpuEvalStencilsContext.h`) -/

/-- Modelled from the spec: `Reset()` is declared in `osd/vertexDescriptor.h`, which is
not part of the sources; the spec has the descriptor "reset to zero on unbind", "reset
to its empty value". -/
def OsdVertexBufferDescriptor.Reset (_self : OsdVertexBufferDescriptor) :
    OsdVertexBufferDescriptor :=
  ⟨0, 0, 0⟩

/-- The members of `OsdCpuVertexBuffer` (`osd/cpuVertexBuffer.h`); `cpuBuffer` is the
`real *` it owns. -/
structure OsdCpuVertexBuffer where
  numElements : Nat
  numVertices : Nat
  cpuBuffer : Nat
  deriving DecidableEq, Repr

/-- Modelled from the spec: the body of `BindCpuBuffer` is not part of the sources; the
header documents it as "Returns the address of CPU buffer". -/
def OsdCpuVertexBuffer.BindCpuBuffer (self : OsdCpuVertexBuffer) : Nat := self.cpuBuffer

/-- The members of `OsdCpuEvalStencilsContext` (named without the leading underscore):
the stencil table it was created for, four descriptors and four `real *` pointers. -/
structure OsdCpuEvalStencilsContext (R : Type) where
  stencils : FarStencilTables R
  controlDataDesc : OsdVertexBufferDescriptor
  outputDataDesc : OsdVertexBufferDescriptor
  outputDuDesc : OsdVertexBufferDescriptor
  outputDvDesc : OsdVertexBufferDescriptor
  controlData : Nat
  outputData : Nat
  outputUDeriv : Nat
  outputVDeriv : Nat

/-- The result of `buf ? buf->BindCpuBuffer() : 0` for a `VERTEX_BUFFER *` that is
either null (`none`) or points to a buffer. -/
def bindPointer (buf : Option OsdCpuVertexBuffer) : Nat :=
  match buf with
  | some b => b.BindCpuBuffer
  | none => 0

/-- The method `BindControlData`. -/
def OsdCpuEvalStencilsContext.BindControlData {R : Type} (self : OsdCpuEvalStencilsContext R)
    (controlDataDesc : OsdVertexBufferDescriptor) (controlData : Option OsdCpuVertexBuffer) :
    OsdCpuEvalStencilsContext R :=
  ⟨self.stencils, controlDataDesc, self.outputDataDesc, self.outputDuDesc, self.outputDvDesc,
    bindPointer controlData, self.outputData, self.outputUDeriv, self.outputVDeriv⟩

/-- The method `BindOutputData`. -/
def OsdCpuEvalStencilsContext.BindOutputData {R : Type} (self : OsdCpuEvalStencilsContext R)
    (outputDataDesc : OsdVertexBufferDescriptor) (outputData : Option OsdCpuVertexBuffer) :
    OsdCpuEvalStencilsContext R :=
  ⟨self.stencils, self.controlDataDesc, outputDataDesc, self.outputDuDesc, self.outputDvDesc,
    self.controlData, bindPointer outputData, self.outputUDeriv, self.outputVDeriv⟩

/-- The method `BindOutputDerivData`. -/
def OsdCpuEvalStencilsContext.BindOutputDerivData {R : Type}
    (self : OsdCpuEvalStencilsContext R)
    (outputDuDesc : OsdVertexBufferDescriptor) (outputDu : Option OsdCpuVertexBuffer)
    (outputDvDesc : OsdVertexBufferDescriptor) (outputDv : Option OsdCpuVertexBuffer) :
    OsdCpuEvalStencilsContext R :=
  ⟨self.stencils, self.controlDataDesc, self.outputDataDesc, outputDuDesc, outputDvDesc,
    self.controlData, self.outputData, bindPointer outputDu, bindPointer outputDv⟩

/-- The method `Unbind`: every pointer becomes 0 and every descriptor is `Reset()`. -/
def OsdCpuEvalStencilsContext.Unbind {R : Type} (self : OsdCpuEvalStencilsContext R) :
    OsdCpuEvalStencilsContext R :=
  ⟨self.stencils, self.controlDataDesc.Reset, self.outputDataDesc.Reset,
    self.outputDuDesc.Reset, self.outputDvDesc.Reset, 0, 0, 0, 0⟩

/-- The getter `GetControlData`. -/
def OsdCpuEvalStencilsContext.GetControlData {R : Type} (self : OsdCpuEvalStencilsContext R) :
    Nat := self.controlData

/-- The getter `GetOutputData`. -/
def OsdCpuEvalStencilsContext.GetOutputData {R : Type} (self : OsdCpuEvalStencilsContext R) :
    Nat := self.outputData

/-- The getter `GetOutputUDerivData`. -/
def OsdCpuEvalStencilsContext.GetOutputUDerivData {R : Type}
    (self : OsdCpuEvalStencilsContext R) : Nat := self.outputUDeriv

/-- The getter `GetOutputVDerivData`. -/
def OsdCpuEvalStencilsContext.GetOutputVDerivData {R : Type}
    (self : OsdCpuEvalStencilsContext R) : Nat := self.outputVDeriv

/-- The getter `GetControlDataDescriptor`. -/
def OsdCpuEvalStencilsContext.GetControlDataDescriptor {R : Type}
    (self : OsdCpuEvalStencilsContext R) : OsdVertexBufferDescriptor := self.controlDataDesc

/-- The getter `GetOutputDataDescriptor`. -/
def OsdCpuEvalStencilsContext.GetOutputDataDescriptor {R : Type}
    (self : OsdCpuEvalStencilsContext R) : OsdVertexBufferDescriptor := self.outputDataDesc

/-- The getter `GetDuDataDescriptor`. -/
def OsdCpuEvalStencilsContext.GetDuDataDescriptor {R : Type}
    (self : OsdCpuEvalStencilsContext R) : OsdVertexBufferDescriptor := self.outputDuDesc

/-- The getter `GetDvDataDescriptor`. -/
def OsdCpuEvalStencilsContext.GetDvDataDescriptor {R : Type}
    (self : OsdCpuEvalStencilsContext R) : OsdVertexBufferDescriptor := self.outputDvDesc

/-- The getter `GetStencilTables`. -/
def OsdCpuEvalStencilsContext.GetStencilTables {R : Type}
    (self : OsdCpuEvalStencilsContext R) : FarStencilTables R := self.stencils

/-- A bind state whose control descriptor is empty. -/
def emptyControlBind : BindState :=
  ⟨⟨0, 0, 0⟩, ⟨0, 3, 3⟩, ⟨0, 3, 3⟩, ⟨0, 3, 3⟩, 100, 200, 300, 400⟩

/-! ## Topology (`osdutil/topology.h`) -/

/-- The enumeration `OsdUtilTagData::TagType`. -/
inductive TagType where
  | CORNER
  | CREASE
  | CREASE_METHOD
  | FACE_VARYING_INTERPOLATE_BOUNDARY
  | FACE_VARYING_PROPOGATE_CORNERS
  | HOLE
  | INTERPOLATE_BOUNDARY
  | SMOOTH_TRIANGLES
  | VERTEX_EDIT
  | EDGE_EDIT
  deriving DecidableEq, Repr

/-- The members of `OsdUtilTagData`. -/
structure OsdUtilTagData (R : Type) where
  tags : List TagType
  numArgs : List Int
  intArgs : List Int
  floatArgs : List R
  stringArgs : List String

/-- The members of `OsdUtilSubdivTopology`, in the order of the class. -/
structure OsdUtilSubdivTopology (R : Type) where
  name : String
  numVertices : Int
  refinementLevel : Int
  indices : List Int
  nverts : List Int
  vvNames : List String
  fvNames : List String
  fvData : List R
  tagData : OsdUtilTagData R

/-- The loop `for (int i = start; i < start + n; ++i) v.push_back(a[i])` over an array
`a` given by its elements. -/
def pushBackLoop {α : Type} (a : Nat → α) : Nat → Nat → List α → List α
  | 0, _, v => v
  | n + 1, i, v => pushBackLoop a n (i + 1) (v ++ [a i])

/-- The method `OsdUtilSubdivTopology::AddFace`: `nverts.push_back(numVertsInFace)`, then
`indices.push_back(verts[i])` for `i` from 0 while `i < numVertsInFace`. -/
def OsdUtilSubdivTopology.AddFace {R : Type} (self : OsdUtilSubdivTopology R)
    (numVertsInFace : Int) (verts : Nat → Int) : OsdUtilSubdivTopology R :=
  ⟨self.name, self.numVertices, self.refinementLevel,
    pushBackLoop verts numVertsInFace.toNat 0 self.indices,
    self.nverts ++ [numVertsInFace],
    self.vvNames, self.fvNames, self.fvData, self.tagData⟩

/-- Modelled from the spec: the body of `OsdUtilTagData::AddCrease` is not part of the
sources.  By the spec and the comment of its declaration, the call is well formed when
`numSharpness == 1` (one sharpness for all edges) or `numSharpness == numIndices` (one
per index); it then appends one `CREASE` tag, the three counts
`(numIndices, numSharpness, 0)` and the matching slices of the argument arrays and
returns true; otherwise it returns false and changes nothing.  The counts are counts of
array elements, hence natural numbers. -/
def OsdUtilTagData.AddCrease {R : Type} (self : OsdUtilTagData R) (indices : Nat → Int)
    (numIndices : Nat) (sharpness : Nat → R) (numSharpness : Nat) :
    Bool × OsdUtilTagData R :=
  if numSharpness = 1 ∨ numSharpness = numIndices then
    (true, ⟨self.tags ++ [TagType.CREASE],
      self.numArgs ++ [(numIndices : Int), (numSharpness : Int), 0],
      pushBackLoop indices numIndices 0 self.intArgs,
      pushBackLoop sharpness numSharpness 0 self.floatArgs,
      self.stringArgs⟩)
  else (false, self)

/-- Modelled from the spec: the body of `OsdUtilSubdivTopology::IsValid` is not part of
the sources.  By the spec it re-checks the invariants of the data model without changing
the topology: every value of `indices` is in `[0, numVertices)` and
`Σ nverts == len(indices)`; it returns false with a descriptive (non-empty) message
when one of them fails.  The result is the returned flag and the message. -/
def OsdUtilSubdivTopology.IsValid {R : Type} (self : OsdUtilSubdivTopology R) :
    Bool × String :=
  if self.indices.all (fun x => decide (0 ≤ x ∧ x < self.numVertices)) = false then
    (false, "Topology has an index outside [0, numVertices)")
  else if self.nverts.sum ≠ (self.indices.length : Int) then
    (false, "The sum of nverts is not the number of indices")
  else (true, "")

/-- Modelled from the spec: the body of `OsdUtilSubdivTopology::Initialize` is not part
of the sources.  By the spec it populates the topology from the raw arrays and returns
false with a descriptive message on shape mismatch (`Σ nverts != indicesLen`).  The
arrays `nverts[numFaces]` and `indices[indicesLen]` are given as lists of those lengths.
The result is the returned flag, the message and the topology after the call. -/
def OsdUtilSubdivTopology.Initialize {R : Type} (self : OsdUtilSubdivTopology R)
    (numVertices : Int) (nverts indices : List Int) (levels : Int) :
    Bool × String × OsdUtilSubdivTopology R :=
  if nverts.sum ≠ (indices.length : Int) then
    (false, "The sum of nverts is not indicesLen", self)
  else
    (true, "", ⟨self.name, numVertices, levels, indices, nverts,
      self.vvNames, self.fvNames, self.fvData, self.tagData⟩)

/-- A topology of one quad over four vertices. -/
def quadTopology : OsdUtilSubdivTopology Int :=
  ⟨"quad", 4, 1, [0, 1, 2, 3], [4], [], [], [], ⟨[], [], [], [], []⟩⟩

/-- The quad topology with its last index replaced by 4, which is `numVertices`. -/
def tamperedTopology : OsdUtilSubdivTopology Int :=
  ⟨"quad", 4, 1, [0, 1, 2, 4], [4], [], [], [], ⟨[], [], [], [], []⟩⟩

/-- An empty topology. -/
def emptyTopology : OsdUtilSubdivTopology Int :=
  ⟨"", 0, 0, [], [], [], [], [], ⟨[], [], [], [], []⟩⟩

/-- The array `{0, 1, 2, 3, ...}`. -/
def countingArray : Nat → Int := fun i => (i : Int)

/-- The array of sharpness values `{2, 2, 2, ...}`. -/
def sharpnessArray : Nat → Int := fun _ => 2

/-- A bind state with an interleaved output layout `(offset 1, length 2, stride 4)`
and a control descriptor of length 2 in a stride of 3. -/
def interleavedBind : BindState :=
  ⟨⟨1, 2, 3⟩, ⟨1, 2, 4⟩, ⟨0, 2, 2⟩, ⟨0, 2, 2⟩, 100, 200, 300, 400⟩

/-- The heap a call leaves; the heap of zeros when the call failed. -/
def heapAfter (r : Except EvalError (Nat × Mem Int)) : Mem Int :=
  match r with
  | .ok (_, m) => m
  | .error _ => fun _ => 0

/-! ## The position pass with its heap accesses recorded -/

/-- The value of an `int` expression whose exact value is `x`: `x` brought into the
32-bit two's complement range `[-2^31, 2^31)`. -/
def wrapInt32 (x : Int) : Int := (x + 2147483648) % 4294967296 - 2147483648

/-- The pointer `cv = ctrl + (*index)*ctrlDesc.stride`.  The product is a product of two
`int`s, so it is taken in 32 bits (the overflow of a signed product is undefined
behaviour in the language; the embedding gives it the two's complement result); the sum
is pointer arithmetic.  The result is an integer: after an overflowed product it can
fall below cell 0. -/
def controlVertex (ctrl idx cstride : Nat) : Int :=
  (ctrl : Int) + wrapInt32 ((idx : Int) * (cstride : Int))

/-- A heap access of the position pass, with the address it touches: the read `cv[k]`
through the control pointer, the read of `out[k]` in `out[k] += ...`, and a write
through the output pointer (by `memset` or by `out[k] += ...`). -/
inductive Access where
  | ctrlRead (addr : Int)
  | outRead (cell : Nat)
  | outWrite (cell : Nat)
  deriving DecidableEq, Repr

/-- The variables of the loops of `_UpdateValues` together with the accesses made so
far. -/
structure TracedState (R : Type) where
  out : Nat
  cursor : Nat
  mem : Mem R
  log : List Access

/-- The state without the record of accesses. -/
def TracedState.erase {R : Type} (s : TracedState R) : ValueState R :=
  ⟨s.out, s.cursor, s.mem⟩

/-- The value read at the address `a`.  The cells of the heap are numbered from 0; an
address below 0 is outside the heap, and the value read there is taken from cell 0. -/
def Mem.readAt {R : Type} (m : Mem R) (a : Int) : R := m a.toNat

/-- The writes of `memset(out, 0, len*sizeof(real))`. -/
def memsetAccesses (out len : Nat) : List Access :=
  (List.range len).map (fun k => Access.outWrite (out + k))

/-- One round of `for (k ...)`, recording the two reads and the write of
`out[k] += cv[k] * (*weight)`. -/
def tracedAccumulateBody {R : Type} [Semiring R] (cv : Int) (out : Nat) (w : R) (k : Nat)
    (s : Mem R × List Access) : Except EvalError (Mem R × List Access) :=
  .ok (s.1.write (out + k) (s.1 (out + k) + Mem.readAt s.1 (cv + k) * w),
    s.2 ++ [Access.outRead (out + k), Access.ctrlRead (cv + k), Access.outWrite (out + k)])

/-- One round of `for (j ...)`: read `*index` and `*weight`, form `cv` with the `int`
product, and run the `k` loop with its accesses recorded. -/
def tracedStencilBody {R : Type} [Semiring R] (indices : List Nat) (weights : List R)
    (ctrl cstride len : Nat) (_j : Nat) (s : TracedState R) : Except EvalError (TracedState R) :=
  match indices[s.cursor]?, weights[s.cursor]? with
  | some idx, some w =>
    match forLoop (tracedAccumulateBody (controlVertex ctrl idx cstride) s.out w) len 0
        (s.mem, s.log) with
    | .ok r => .ok ⟨s.out, s.cursor + 1, r.1, r.2⟩
    | .error e => .error e
  | _, _ => .error .tableOverrun

/-- One round of `for (i ...)`, as `vertexBody`, with the writes of `memset` and the
accesses of its `j` loop. -/
def tracedVertexBody {R : Type} [Semiring R] (sizes indices : List Nat) (weights : List R)
    (ctrl cstride len ostride : Nat) (i : Nat) (s : TracedState R) :
    Except EvalError (TracedState R) :=
  match sizes[i]? with
  | none => .error .tableOverrun
  | some n =>
    match forLoop (tracedStencilBody indices weights ctrl cstride len) n 0
        ⟨s.out, s.cursor, memset s.mem s.out len, s.log ++ memsetAccesses s.out len⟩ with
    | .ok s1 => .ok ⟨s1.out + ostride, s1.cursor, s1.mem, s1.log⟩
    | .error e => .error e

/-- What a traced call gives back: the returned `int`, the heap, the offset of the
`index`/`weight` cursors from the start of the flattened sequences when the loop has
ended (0 when the loop did not run), and the heap accesses made. -/
structure TracedResult (R : Type) where
  ret : Nat
  mem : Mem R
  cursor : Nat
  log : List Access

/-- The method `_UpdateValues`, statement by statement as in
`OsdCpuEvalStencilsController._UpdateValues`, with the `int` product of the address of
`cv` taken in 32 bits and the heap accesses recorded. -/
def tracedUpdateValues {R : Type} [Semiring R]
    (t : FarStencilTables R) (bs : BindState) (m : Mem R) : Except EvalError (TracedResult R) :=
  if t.GetNumStencils = 0 then .ok ⟨0, m, 0, []⟩
  else if bs.controlDataDesc.CanEval bs.outputDataDesc = false then .ok ⟨0, m, 0, []⟩
  else if bs.ctrl = 0 ∨ bs.out = 0 then .ok ⟨0, m, 0, []⟩
  else if t.sizes.isEmpty ∨ t.controlIndices.isEmpty ∨ t.weights.isEmpty then
    .error .outOfRange
  else
    match forLoop (tracedVertexBody t.sizes t.controlIndices t.weights bs.ctrl
        bs.controlDataDesc.stride bs.outputDataDesc.length bs.outputDataDesc.stride)
        t.GetNumStencils 0 ⟨bs.out, 0, m, []⟩ with
    | .ok s => .ok ⟨t.GetNumStencils, s.mem, s.cursor, s.log⟩
    | .error e => .error e

/-- An access is within bounds: a read through the control pointer touches a cell of the
control buffer `[ctrlLo, ctrlLo + ctrlSize)`, and a read or write through the output
pointer touches a cell of the output buffer `[outLo, outLo + outSize)`. -/
def Access.InBounds (ctrlLo ctrlSize outLo outSize : Nat) : Access → Prop
  | .ctrlRead a => (ctrlLo : Int) ≤ a ∧ a < (ctrlLo : Int) + (ctrlSize : Int)
  | .outRead c => outLo ≤ c ∧ c < outLo + outSize
  | .outWrite c => outLo ≤ c ∧ c < outLo + outSize

/-- The accesses of the `k` loop in order: for each component `k < len` the read of
`out[k]`, the read of `cv[k]` and the write of `out[k]`. -/
def accumulateAccesses (cv : Int) (out len : Nat) : List Access :=
  (List.range len).flatMap (fun k =>
    [Access.outRead (out + k), Access.ctrlRead (cv + k), Access.outWrite (out + k)])

/-- The accesses of the `j` loop over the `n` contributions from position `c0` of the
flattened sequences, in order. -/
def stencilAccesses (indices : List Nat) (ctrl cstride len out c0 n : Nat) : List Access :=
  (List.range n).flatMap (fun j =>
    accumulateAccesses (controlVertex ctrl (indices.getD (c0 + j) 0) cstride) out len)

/-- The accesses of the `i` loop over `n` output vertices, in order: for vertex `i` the
writes of `memset` to its window and then the accesses of its `sizes[i]` contributions,
which start at position `base(i)` of the flattened sequences. -/
def positionAccesses (sizes indices : List Nat) (ctrl cstride len out0 ostride n : Nat) :
    List Access :=
  (List.range n).flatMap (fun i =>
    memsetAccesses (out0 + i * ostride) len
      ++ stencilAccesses indices ctrl cstride len (out0 + i * ostride) (stencilBase sizes i)
          (sizes.getD i 0))

/-- One stencil with one contribution of weight 1. -/
def unitTable : FarStencilTables Int := ⟨[1], [0], [1], [1], [1]⟩

/-- One-component buffers at four different addresses. -/
def unitBind : BindState :=
  ⟨⟨0, 1, 1⟩, ⟨0, 1, 1⟩, ⟨0, 1, 1⟩, ⟨0, 1, 1⟩, 100, 200, 300, 400⟩

/-- The returned value, the final cursor and the accesses of a traced call; `none` when
the call failed. -/
def observeTrace (r : Except EvalError (TracedResult Int)) :
    Option (Nat × Nat × List Access) :=
  match r with
  | .ok x => some (x.ret, x.cursor, x.log)
  | .error _ => none

/-- One stencil whose only control index is 32768. -/
def farIndexTable : FarStencilTables Int := ⟨[1], [32768], [1], [1], [1]⟩

/-- A control descriptor of stride 65536 and a control buffer at cell 100, which for
32769 control vertices ends at cell `100 + 32769 * 65536`; the output buffers lie
behind it. -/
def wideStrideBind : BindState :=
  ⟨⟨0, 1, 65536⟩, ⟨0, 1, 1⟩, ⟨0, 1, 1⟩, ⟨0, 1, 1⟩, 100, 3000000000, 3000000100,
    3000000200⟩

/-- Three stencils of one contribution of weight 1 each, output vertex `i` taking
control vertex `i + 1` (and the last one control vertex 0). -/
def rotateTable : FarStencilTables Int := ⟨[1, 1, 1], [1, 2, 0], [1, 1, 1], [1, 1, 1], [1, 1, 1]⟩

/-! ## Linear combinations of heaps -/

/-- The heap whose cell `x` holds `a * m1 x + b * m2 x`. -/
def Mem.combine {R : Type} [Semiring R] (a b : R) (m1 m2 : Mem R) : Mem R :=
  fun x => a * m1 x + b * m2 x

/-- Two loop states of the position pass with their heaps combined; the pointer and the
cursor are those of the first. -/
def ValueState.combine {R : Type} [Semiring R] (a b : R) (s1 s2 : ValueState R) :
    ValueState R :=
  ⟨s1.out, s1.cursor, Mem.combine a b s1.mem s2.mem⟩

/-- A heap whose cells below 200 hold 0 and whose cell `x >= 200` holds `x`. -/
def zeroControlMem : Mem Int := fun x => if x < 200 then 0 else (x : Int)

/-- The heap `3 * sampleMem + constMem`. -/
def blendMem : Mem Int := fun x => 3 * sampleMem x + constMem x

open OsdCpuEvalStencilsController

/-! ## Loop rules -/

/-- Total-correctness rule: when every round inside the range succeeds and keeps the
invariant, the loop succeeds and the invariant holds at the end. -/
theorem forLoop_total {σ ε : Type} (body : Nat → σ → Except ε σ) (I : Nat → σ → Prop)
    (hi : Nat)
    (hstep : ∀ i s, i < hi → I i s → ∃ s1, body i s = .ok s1 ∧ I (i + 1) s1) :
    ∀ n i s, i + n ≤ hi → I i s → ∃ s1, forLoop body n i s = .ok s1 ∧ I (i + n) s1 := by
  intro n
  induction n with
  | zero => intro i s _ h; exact ⟨s, rfl, h⟩
  | succ n ih =>
    intro i s hle h
    obtain ⟨s1, hb, h1⟩ := hstep i s (by omega) h
    obtain ⟨s2, hl, h2⟩ := ih (i + 1) s1 (by omega) h1
    refine ⟨s2, ?_, ?_⟩
    · simp only [forLoop, hb]; exact hl
    · have e : i + (n + 1) = i + 1 + n := by omega
      rw [e]; exact h2

/-- Partial-correctness rule: when every successful round keeps the invariant, a
successful loop ends in the invariant. -/
theorem forLoop_partial {σ ε : Type} (body : Nat → σ → Except ε σ) (I : Nat → σ → Prop)
    (hi : Nat)
    (hstep : ∀ i s s1, i < hi → I i s → body i s = .ok s1 → I (i + 1) s1) :
    ∀ n i s s1, i + n ≤ hi → I i s → forLoop body n i s = .ok s1 → I (i + n) s1 := by
  intro n
  induction n with
  | zero =>
    intro i s s1 _ h hl
    simp only [forLoop, Except.ok.injEq] at hl
    subst hl; exact h
  | succ n ih =>
    intro i s s1 hle h hl
    simp only [forLoop] at hl
    cases hb : body i s with
    | error e => rw [hb] at hl; simp at hl
    | ok s2 =>
      rw [hb] at hl
      have e : i + (n + 1) = i + 1 + n := by omega
      rw [e]
      exact ih (i + 1) s2 s1 (by omega) (hstep i s s2 (by omega) h hb) hl

/-- Relational rule: two loops whose rounds keep a relation between their states end
related. -/
theorem forLoop_rel {σ τ ε : Type} (b1 : Nat → σ → Except ε σ) (b2 : Nat → τ → Except ε τ)
    (Q : Nat → σ → τ → Prop) (hi : Nat)
    (hstep : ∀ i s t, i < hi → Q i s t → RelExcept (Q (i + 1)) (b1 i s) (b2 i t)) :
    ∀ n i s t, i + n ≤ hi → Q i s t →
      RelExcept (Q (i + n)) (forLoop b1 n i s) (forLoop b2 n i t) := by
  intro n
  induction n with
  | zero => intro i s t _ h; exact h
  | succ n ih =>
    intro i s t hle h
    have hs := hstep i s t (by omega) h
    simp only [forLoop]
    cases h1 : b1 i s with
    | error e1 =>
      cases h2 : b2 i t with
      | error e2 => rw [h1, h2] at hs; exact hs
      | ok t1 => rw [h1, h2] at hs; exact hs.elim
    | ok s1 =>
      cases h2 : b2 i t with
      | error e2 => rw [h1, h2] at hs; exact hs.elim
      | ok t1 =>
        rw [h1, h2] at hs
        have e : i + (n + 1) = i + 1 + n := by omega
        rw [e]
        exact ih (i + 1) s1 t1 (by omega) hs

theorem stencilBase_zero (sizes : List Nat) : stencilBase sizes 0 = 0 := by
  simp [stencilBase]

theorem stencilBase_succ (sizes : List Nat) (i : Nat) (h : i < sizes.length) :
    stencilBase sizes (i + 1) = stencilBase sizes i + sizes.getD i 0 := by
  induction sizes generalizing i with
  | nil => simp at h
  | cons a l ih =>
    cases i with
    | zero => simp [stencilBase]
    | succ i =>
      have h1 : i < l.length := by simpa using h
      have := ih i h1
      simp only [stencilBase, List.take_succ_cons, List.sum_cons, List.getD_cons_succ] at this ⊢
      omega

theorem stencilBase_length (sizes : List Nat) : stencilBase sizes sizes.length = sizes.sum := by
  simp [stencilBase]

theorem stencilBase_mono (sizes : List Nat) (i n : Nat) (h : i + n ≤ sizes.length) :
    stencilBase sizes i ≤ stencilBase sizes (i + n) := by
  induction n with
  | zero => exact le_refl _
  | succ n ih =>
    have := stencilBase_succ sizes (i + n) (by omega)
    have := ih (by omega)
    have e : i + (n + 1) = i + n + 1 := by omega
    rw [e]; omega

theorem stencilBase_succ_le_sum (sizes : List Nat) (i : Nat) (h : i < sizes.length) :
    stencilBase sizes i + sizes.getD i 0 ≤ sizes.sum := by
  rw [← stencilBase_succ sizes i h, ← stencilBase_length sizes]
  have := stencilBase_mono sizes (i + 1) (sizes.length - (i + 1)) (by omega)
  have e : i + 1 + (sizes.length - (i + 1)) = sizes.length := by omega
  rw [e] at this; exact this

/-! ## The loops of the position pass -/

theorem write_same {R : Type} (m : Mem R) (a : Nat) (v : R) : m.write a v a = v := by
  simp [Mem.write]

theorem write_other {R : Type} (m : Mem R) (a x : Nat) (v : R) (h : x ≠ a) :
    m.write a v x = m x := by
  simp [Mem.write, h]

theorem memset_inside {R : Type} [Zero R] (m : Mem R) (p n x : Nat) (h : p ≤ x ∧ x < p + n) :
    memset m p n x = 0 := by
  simp [memset, h]

theorem memset_outside {R : Type} [Zero R] (m : Mem R) (p n x : Nat)
    (h : ¬ (p ≤ x ∧ x < p + n)) : memset m p n x = m x := by
  simp only [memset, if_neg h]

/-- The `k` loop always runs to its end; it changes only the `len` cells at `out`, and
when no cell it reads at `cv` is one of them it adds `cv[k] * w` to `out[k]`. -/
theorem accumulate_spec {R : Type} [Semiring R] (cv out : Nat) (w : R) (len : Nat) (m : Mem R) :
    ∃ m1, forLoop (accumulateBody cv out w) len 0 m = .ok m1 ∧
      (∀ x, ¬ (out ≤ x ∧ x < out + len) → m1 x = m x) ∧
      ((∀ k1 < len, ∀ k2 < len, cv + k1 ≠ out + k2) →
        ∀ k < len, m1 (out + k) = m (out + k) + m (cv + k) * w) := by
  have key := forLoop_total (accumulateBody cv out w)
    (fun k mk => (∀ x, ¬ (out ≤ x ∧ x < out + k) → mk x = m x) ∧
      ((∀ k1 < len, ∀ k2 < len, cv + k1 ≠ out + k2) →
        ∀ k3 < k, mk (out + k3) = m (out + k3) + m (cv + k3) * w)) len
    (by
      intro k mk hk hI
      obtain ⟨hfr, hcl⟩ := hI
      refine ⟨_, rfl, ?_, ?_⟩
      · intro x hx
        rw [write_other _ _ _ _ (by omega)]
        exact hfr x (by omega)
      · intro hno k3 hk3
        by_cases e : k3 = k
        · subst e
          rw [write_same, hfr (out + k3) (by omega), hfr (cv + k3)]
          intro hc
          exact hno k3 hk (cv + k3 - out) (by omega) (by omega)
        · rw [write_other _ _ _ _ (by omega)]
          exact hcl hno k3 (by omega))
    len 0 m (by omega) ⟨fun _ _ => rfl, fun _ _ h => absurd h (Nat.not_lt_zero _)⟩
  obtain ⟨m1, h1, h2, h3⟩ := key
  simp only [Nat.zero_add] at h2 h3
  exact ⟨m1, h1, h2, h3⟩

theorem getElem?_eq_some_getD {α : Type} (l : List α) (i : Nat) (d : α) (h : i < l.length) :
    l[i]? = some (l.getD i d) := by
  simp [List.getD, List.getElem?_eq_getElem h]

/-- The `j` loop over `n` contributions from cursor `c0`, when the flattened sequences
hold that many entries: it succeeds, leaves `out` alone, advances the cursor by `n`,
changes only the window at `out`, and, when the control cells it reads are outside the
window, adds the weighted sum of the `n` contributions to every cell of the window. -/
theorem stencilLoop_spec {R : Type} [Semiring R] (indices : List Nat) (weights : List R)
    (ctrl cstride len n c0 out : Nat) (m : Mem R)
    (hi : c0 + n ≤ indices.length) (hw : c0 + n ≤ weights.length) :
    ∃ s1, forLoop (stencilBody indices weights ctrl cstride len) n 0 ⟨out, c0, m⟩ = .ok s1 ∧
      s1.out = out ∧ s1.cursor = c0 + n ∧
      (∀ x, ¬ (out ≤ x ∧ x < out + len) → s1.mem x = m x) ∧
      ((∀ j < n, ∀ k1 < len, ∀ k2 < len,
          ctrl + indices.getD (c0 + j) 0 * cstride + k1 ≠ out + k2) →
        ∀ k < len, s1.mem (out + k) = m (out + k) + ∑ j ∈ Finset.range n,
          m (ctrl + indices.getD (c0 + j) 0 * cstride + k) * weights.getD (c0 + j) 0) := by
  have key := forLoop_total (stencilBody indices weights ctrl cstride len)
    (fun j s => s.out = out ∧ s.cursor = c0 + j ∧
      (∀ x, ¬ (out ≤ x ∧ x < out + len) → s.mem x = m x) ∧
      ((∀ j1 < n, ∀ k1 < len, ∀ k2 < len,
          ctrl + indices.getD (c0 + j1) 0 * cstride + k1 ≠ out + k2) →
        ∀ k < len, s.mem (out + k) = m (out + k) + ∑ j1 ∈ Finset.range j,
          m (ctrl + indices.getD (c0 + j1) 0 * cstride + k) * weights.getD (c0 + j1) 0)) n
    (by
      intro j s hj hI
      obtain ⟨ho, hc, hfr, hcl⟩ := hI
      obtain ⟨m1, hm1, hfr1, hcl1⟩ :=
        accumulate_spec (ctrl + indices.getD (c0 + j) 0 * cstride) out
          (weights.getD (c0 + j) 0) len s.mem
      refine ⟨⟨out, c0 + j + 1, m1⟩, ?_, rfl, by simp only []; omega, ?_, ?_⟩
      · simp only [stencilBody, hc, ho,
          getElem?_eq_some_getD indices (c0 + j) 0 (by omega),
          getElem?_eq_some_getD weights (c0 + j) 0 (by omega), hm1]
      · intro x hx
        simp only []
        rw [hfr1 x hx]; exact hfr x hx
      · intro hno k hk
        simp only []
        rw [hcl1 (hno j hj) k hk, hcl hno k hk, Finset.sum_range_succ, add_assoc]
        congr 2
        rw [hfr]
        intro hc2
        exact hno j hj k hk (ctrl + indices.getD (c0 + j) 0 * cstride + k - out)
          (by omega) (by omega))
    n 0 ⟨out, c0, m⟩ (by omega)
    ⟨rfl, rfl, fun _ _ => rfl, fun _ _ _ => by simp⟩
  obtain ⟨s1, h1, h2, h3, h4, h5⟩ := key
  simp only [Nat.zero_add] at h3 h5
  exact ⟨s1, h1, h2, h3, h4, h5⟩

/-- The `i` loop over a table whose flattened sequences hold `Σ sizes` entries: it
succeeds with the cursor advanced by exactly `Σ sizes`, changes no cell outside the
output windows, and, when the windows do not overlap each other (`len ≤ ostride`) nor
the control cells read, leaves in every window the prefix-sum value of the spec. -/
theorem vertexLoop_spec {R : Type} [Semiring R] (sizes indices : List Nat) (weights : List R)
    (ctrl cstride len ostride out0 : Nat) (m : Mem R)
    (hi : sizes.sum ≤ indices.length) (hw : sizes.sum ≤ weights.length) :
    ∃ s1, forLoop (vertexBody sizes indices weights ctrl cstride len ostride) sizes.length 0
        ⟨out0, 0, m⟩ = .ok s1 ∧
      s1.out = out0 + sizes.length * ostride ∧ s1.cursor = sizes.sum ∧
      (∀ x, (∀ i < sizes.length, ¬ (out0 + i * ostride ≤ x ∧ x < out0 + i * ostride + len)) →
        s1.mem x = m x) ∧
      (len ≤ ostride →
        NoOverlap indices sizes.sum ctrl cstride len out0 ostride len sizes.length →
        ∀ i < sizes.length, ∀ k < len,
          s1.mem (out0 + i * ostride + k) = stencilSum sizes indices weights ctrl cstride m i k) := by
  have key := forLoop_total (vertexBody sizes indices weights ctrl cstride len ostride)
    (fun i s => s.out = out0 + i * ostride ∧ s.cursor = stencilBase sizes i ∧
      (∀ x, (∀ i1 < i, ¬ (out0 + i1 * ostride ≤ x ∧ x < out0 + i1 * ostride + len)) →
        s.mem x = m x) ∧
      (len ≤ ostride →
        NoOverlap indices sizes.sum ctrl cstride len out0 ostride len sizes.length →
        ∀ i1 < i, ∀ k < len,
          s.mem (out0 + i1 * ostride + k) = stencilSum sizes indices weights ctrl cstride m i1 k))
    sizes.length
    (by
      intro i s hlt hI
      obtain ⟨ho, hc, hfr, hcl⟩ := hI
      have hsum := stencilBase_succ_le_sum sizes i hlt
      obtain ⟨s1, hs1, ho1, hc1, hfr1, hcl1⟩ :=
        stencilLoop_spec indices weights ctrl cstride len (sizes.getD i 0)
          (stencilBase sizes i) (out0 + i * ostride) (memset s.mem (out0 + i * ostride) len)
          (by omega) (by omega)
      refine ⟨⟨s1.out + ostride, s1.cursor, s1.mem⟩, ?_, ?_, ?_, ?_, ?_⟩
      · simp only [vertexBody, getElem?_eq_some_getD sizes i 0 hlt, ho, hc, hs1]
      · simp only [ho1, Nat.succ_mul]; omega
      · simp only [hc1, stencilBase_succ sizes i hlt]
      · intro x hx
        simp only []
        rw [hfr1 x (hx i (by omega)), memset_outside _ _ _ _ (hx i (by omega))]
        exact hfr x (fun i1 h1 => hx i1 (by omega))
      · intro hlen hno i1 hi1 k hk
        simp only []
        by_cases e : i1 = i
        · subst e
          rw [hcl1 (fun j hj k1 hk1 k2 hk2 =>
            hno (stencilBase sizes i1 + j) (by omega) k1 hk1 i1 hlt k2 hk2) k hk,
            memset_inside _ _ _ _ (by omega), zero_add]
          unfold stencilSum
          apply Finset.sum_congr rfl
          intro j hj
          have hj1 : j < sizes.getD i1 0 := Finset.mem_range.mp hj
          have hp : stencilBase sizes i1 + j < sizes.sum := by omega
          rw [memset_outside, hfr]
          · intro i2 hi2 hc2
            exact hno _ hp k hk i2 (by omega)
              (ctrl + indices.getD (stencilBase sizes i1 + j) 0 * cstride + k
                - (out0 + i2 * ostride)) (by omega) (by omega)
          · intro hc2
            exact hno _ hp k hk i1 hlt
              (ctrl + indices.getD (stencilBase sizes i1 + j) 0 * cstride + k
                - (out0 + i1 * ostride)) (by omega) (by omega)
        · have hlt1 : i1 < i := by omega
          have hmul : (i1 + 1) * ostride ≤ i * ostride := Nat.mul_le_mul_right _ (by omega)
          rw [Nat.succ_mul] at hmul
          rw [hfr1 _ (by omega), memset_outside _ _ _ _ (by omega)]
          exact hcl hlen hno i1 hlt1 k hk)
    sizes.length 0 ⟨out0, 0, m⟩ (by omega)
    ⟨by simp, by simp [stencilBase_zero], fun _ _ => rfl,
      fun _ _ _ h => absurd h (Nat.not_lt_zero _)⟩
  obtain ⟨s1, h1, h2, h3, h4, h5⟩ := key
  simp only [Nat.zero_add, stencilBase_length] at h2 h3 h4 h5
  exact ⟨s1, h1, h2, h3, h4, h5⟩

/-! ## The position pass as a whole -/

theorem sizes_ne_nil_of_sum_pos (sizes : List Nat) (h : 0 < sizes.sum) : 0 < sizes.length := by
  cases sizes with
  | nil => simp at h
  | cons a l => simp

/-- A successful `_UpdateValues`: with a table whose flattened sequences are non-empty
and hold `Σ sizes` entries, descriptors passing `CanEval` and non-null resolved
pointers, the call returns `nstencils`, changes no cell outside the output windows, and
(for windows that overlap neither each other nor the control cells read) leaves the
prefix-sum value in every cell of every window. -/
theorem updateValues_eval {R : Type} [Semiring R] (t : FarStencilTables R) (bs : BindState)
    (m : Mem R) (hn : 0 < t.GetNumStencils)
    (hne : t.controlIndices ≠ []) (hnw : t.weights ≠ [])
    (hi : t.sizes.sum ≤ t.controlIndices.length) (hw : t.sizes.sum ≤ t.weights.length)
    (hce : bs.controlDataDesc.CanEval bs.outputDataDesc = true)
    (hc : bs.ctrl ≠ 0) (ho : bs.out ≠ 0) :
    ∃ m1, _UpdateValues t bs m = .ok (t.GetNumStencils, m1) ∧
      (∀ x, (∀ i < t.GetNumStencils, ¬ (bs.out + i * bs.outputDataDesc.stride ≤ x ∧
          x < bs.out + i * bs.outputDataDesc.stride + bs.outputDataDesc.length)) →
        m1 x = m x) ∧
      (bs.outputDataDesc.length ≤ bs.outputDataDesc.stride →
        NoOverlap t.controlIndices t.sizes.sum bs.ctrl bs.controlDataDesc.stride
          bs.outputDataDesc.length bs.out bs.outputDataDesc.stride bs.outputDataDesc.length
          t.GetNumStencils →
        ∀ i < t.GetNumStencils, ∀ k < bs.outputDataDesc.length,
          m1 (bs.out + i * bs.outputDataDesc.stride + k)
            = stencilSum t.sizes t.controlIndices t.weights bs.ctrl
                bs.controlDataDesc.stride m i k) := by
  obtain ⟨s1, h1, _, _, h4, h5⟩ := vertexLoop_spec t.sizes t.controlIndices t.weights bs.ctrl
    bs.controlDataDesc.stride bs.outputDataDesc.length bs.outputDataDesc.stride bs.out m hi hw
  refine ⟨s1.mem, ?_, h4, h5⟩
  have hs : t.sizes ≠ [] := by
    intro h; simp [FarStencilTables.GetNumStencils, h] at hn
  have hn0 : t.GetNumStencils ≠ 0 := by omega
  simp only [_UpdateValues, hn0, hce, hc, ho, List.isEmpty_iff, hs, hne, hnw, if_false,
    or_self, Bool.true_eq_false]
  simp only [FarStencilTables.GetNumStencils] at h1 ⊢
  rw [h1]

/-! ## The loops of the derivative pass -/

/-- The `k` loop of the derivative pass always runs to its end; it changes only the
`n` cells at `du` and the `n` cells at `dv`, and when those two ranges and the cells
read at `cv` are pairwise apart it adds `cv[k] * duw` to `du[k]` and `cv[k] * dvw` to
`dv[k]`. -/
theorem accumulateDeriv_spec {R : Type} [Semiring R] (cv du dv : Nat) (duw dvw : R) (n : Nat)
    (m : Mem R) :
    ∃ m1, forLoop (accumulateDerivBody cv du dv duw dvw) n 0 m = .ok m1 ∧
      (∀ x, ¬ (du ≤ x ∧ x < du + n) → ¬ (dv ≤ x ∧ x < dv + n) → m1 x = m x) ∧
      ((∀ k1 < n, ∀ k2 < n, cv + k1 ≠ du + k2 ∧ cv + k1 ≠ dv + k2 ∧ du + k1 ≠ dv + k2) →
        ∀ k < n, m1 (du + k) = m (du + k) + m (cv + k) * duw ∧
          m1 (dv + k) = m (dv + k) + m (cv + k) * dvw) := by
  have key := forLoop_total (accumulateDerivBody cv du dv duw dvw)
    (fun k mk => (∀ x, ¬ (du ≤ x ∧ x < du + k) → ¬ (dv ≤ x ∧ x < dv + k) → mk x = m x) ∧
      ((∀ k1 < n, ∀ k2 < n, cv + k1 ≠ du + k2 ∧ cv + k1 ≠ dv + k2 ∧ du + k1 ≠ dv + k2) →
        ∀ k3 < k, mk (du + k3) = m (du + k3) + m (cv + k3) * duw ∧
          mk (dv + k3) = m (dv + k3) + m (cv + k3) * dvw)) n
    (by
      intro k mk hk hI
      obtain ⟨hfr, hcl⟩ := hI
      refine ⟨_, rfl, ?_, ?_⟩
      · intro x hx1 hx2
        rw [write_other _ _ _ _ (by omega), write_other _ _ _ _ (by omega)]
        exact hfr x (by omega) (by omega)
      · intro hno k3 hk3
        have hcu : ∀ k1 < n, ∀ k2 < n, cv + k1 ≠ du + k2 := fun k1 h1 k2 h2 => (hno k1 h1 k2 h2).1
        have hcv : ∀ k1 < n, ∀ k2 < n, cv + k1 ≠ dv + k2 :=
          fun k1 h1 k2 h2 => (hno k1 h1 k2 h2).2.1
        have huv : ∀ k1 < n, ∀ k2 < n, du + k1 ≠ dv + k2 :=
          fun k1 h1 k2 h2 => (hno k1 h1 k2 h2).2.2
        have hcvk : mk (cv + k) = m (cv + k) := by
          apply hfr
          · intro hc; exact hcu k hk (cv + k - du) (by omega) (by omega)
          · intro hc; exact hcv k hk (cv + k - dv) (by omega) (by omega)
        by_cases e : k3 = k
        · subst e
          constructor
          · rw [write_other _ _ _ _ (huv k3 hk k3 hk), write_same, hcvk]
            rw [hfr (du + k3) (by omega)]
            intro hc; exact huv k3 hk (du + k3 - dv) (by omega) (by omega)
          · rw [write_same, write_other _ _ _ _ (Ne.symm (huv k3 hk k3 hk)),
              write_other _ _ _ _ (hcu k3 hk k3 hk), hcvk]
            rw [hfr (dv + k3) _ (by omega)]
            intro hc; exact huv (dv + k3 - du) (by omega) k3 hk (by omega)
        · have hlt : k3 < k := by omega
          obtain ⟨h1, h2⟩ := hcl hno k3 hlt
          constructor
          · rw [write_other _ _ _ _ (huv k3 (by omega) k hk), write_other _ _ _ _ (by omega)]
            exact h1
          · rw [write_other _ _ _ _ (by omega),
              write_other _ _ _ _ (Ne.symm (huv k hk k3 (by omega)))]
            exact h2)
    n 0 m (by omega) ⟨fun _ _ _ => rfl, fun _ _ h => absurd h (Nat.not_lt_zero _)⟩
  obtain ⟨m1, h1, h2, h3⟩ := key
  simp only [Nat.zero_add] at h2 h3
  exact ⟨m1, h1, h2, h3⟩

/-- The `j` loop of the derivative pass over `n` contributions from cursor `c0`, when
the flattened sequences hold that many entries: it succeeds, leaves `du` and `dv`
alone, advances the cursor by `n`, changes only the `dulen` cells at `du` and the
`dulen` cells at `dv`, and, when these are apart from each other and from the control
cells read, adds the two weighted sums to them. -/
theorem derivStencilLoop_spec {R : Type} [Semiring R] (indices : List Nat)
    (duWeights dvWeights : List R) (ctrl cstride dulen n c0 du dv : Nat) (m : Mem R)
    (hi : c0 + n ≤ indices.length) (hu : c0 + n ≤ duWeights.length)
    (hv : c0 + n ≤ dvWeights.length) :
    ∃ s1, forLoop (derivStencilBody indices duWeights dvWeights ctrl cstride dulen) n 0
        ⟨du, dv, c0, m⟩ = .ok s1 ∧
      s1.du = du ∧ s1.dv = dv ∧ s1.cursor = c0 + n ∧
      (∀ x, ¬ (du ≤ x ∧ x < du + dulen) → ¬ (dv ≤ x ∧ x < dv + dulen) → s1.mem x = m x) ∧
      ((∀ j < n, ∀ k1 < dulen, ∀ k2 < dulen,
          ctrl + indices.getD (c0 + j) 0 * cstride + k1 ≠ du + k2 ∧
          ctrl + indices.getD (c0 + j) 0 * cstride + k1 ≠ dv + k2) →
        (∀ k1 < dulen, ∀ k2 < dulen, du + k1 ≠ dv + k2) →
        ∀ k < dulen,
          s1.mem (du + k) = m (du + k) + ∑ j ∈ Finset.range n,
            m (ctrl + indices.getD (c0 + j) 0 * cstride + k) * duWeights.getD (c0 + j) 0 ∧
          s1.mem (dv + k) = m (dv + k) + ∑ j ∈ Finset.range n,
            m (ctrl + indices.getD (c0 + j) 0 * cstride + k) * dvWeights.getD (c0 + j) 0) := by
  have key := forLoop_total (derivStencilBody indices duWeights dvWeights ctrl cstride dulen)
    (fun j s => s.du = du ∧ s.dv = dv ∧ s.cursor = c0 + j ∧
      (∀ x, ¬ (du ≤ x ∧ x < du + dulen) → ¬ (dv ≤ x ∧ x < dv + dulen) → s.mem x = m x) ∧
      ((∀ j1 < n, ∀ k1 < dulen, ∀ k2 < dulen,
          ctrl + indices.getD (c0 + j1) 0 * cstride + k1 ≠ du + k2 ∧
          ctrl + indices.getD (c0 + j1) 0 * cstride + k1 ≠ dv + k2) →
        (∀ k1 < dulen, ∀ k2 < dulen, du + k1 ≠ dv + k2) →
        ∀ k < dulen,
          s.mem (du + k) = m (du + k) + ∑ j1 ∈ Finset.range j,
            m (ctrl + indices.getD (c0 + j1) 0 * cstride + k) * duWeights.getD (c0 + j1) 0 ∧
          s.mem (dv + k) = m (dv + k) + ∑ j1 ∈ Finset.range j,
            m (ctrl + indices.getD (c0 + j1) 0 * cstride + k) * dvWeights.getD (c0 + j1) 0)) n
    (by
      intro j s hj hI
      obtain ⟨hdu, hdv, hc, hfr, hcl⟩ := hI
      obtain ⟨m1, hm1, hfr1, hcl1⟩ :=
        accumulateDeriv_spec (ctrl + indices.getD (c0 + j) 0 * cstride) du dv
          (duWeights.getD (c0 + j) 0) (dvWeights.getD (c0 + j) 0) dulen s.mem
      refine ⟨⟨du, dv, c0 + j + 1, m1⟩, ?_, rfl, rfl, by simp only []; omega, ?_, ?_⟩
      · simp only [derivStencilBody, hc, hdu, hdv,
          getElem?_eq_some_getD indices (c0 + j) 0 (by omega),
          getElem?_eq_some_getD duWeights (c0 + j) 0 (by omega),
          getElem?_eq_some_getD dvWeights (c0 + j) 0 (by omega), hm1]
      · intro x hx1 hx2
        simp only []
        rw [hfr1 x hx1 hx2]; exact hfr x hx1 hx2
      · intro hno huv k hk
        simp only []
        obtain ⟨a1, a2⟩ := hcl1 (fun k1 h1 k2 h2 =>
          ⟨(hno j hj k1 h1 k2 h2).1, (hno j hj k1 h1 k2 h2).2, huv k1 h1 k2 h2⟩) k hk
        obtain ⟨b1, b2⟩ := hcl hno huv k hk
        have hrd : s.mem (ctrl + indices.getD (c0 + j) 0 * cstride + k)
            = m (ctrl + indices.getD (c0 + j) 0 * cstride + k) := by
          apply hfr
          · intro hc2
            exact (hno j hj k hk (ctrl + indices.getD (c0 + j) 0 * cstride + k - du)
              (by omega)).1 (by omega)
          · intro hc2
            exact (hno j hj k hk (ctrl + indices.getD (c0 + j) 0 * cstride + k - dv)
              (by omega)).2 (by omega)
        constructor
        · rw [a1, b1, Finset.sum_range_succ, add_assoc, hrd]
        · rw [a2, b2, Finset.sum_range_succ, add_assoc, hrd])
    n 0 ⟨du, dv, c0, m⟩ (by omega)
    ⟨rfl, rfl, rfl, fun _ _ _ => rfl, fun _ _ _ _ => by simp⟩
  obtain ⟨s1, h1, h2, h3, h4, h5, h6⟩ := key
  simp only [Nat.zero_add] at h4 h6
  exact ⟨s1, h1, h2, h3, h4, h5, h6⟩

/-- The `i` loop of the derivative pass over a table whose flattened sequences hold
`Σ sizes` entries.  It succeeds with the cursor advanced by `Σ sizes` and changes no
cell outside the du windows (`dulen` cells) and the dv ranges it touches
(`max dulen dvlen` cells: `dvlen` are cleared, `dulen` are accumulated).  When the du
windows, the touched dv ranges and the control cells read are apart, every du cell
holds the prefix-sum value for `duWeights`; a dv cell `k` holds the prefix-sum value for
`dvWeights` only for `k < dulen` and starts from zero only for `k < dvlen`. -/
theorem derivVertexLoop_spec {R : Type} [Semiring R] (sizes indices : List Nat)
    (duWeights dvWeights : List R) (ctrl cstride dulen dvlen dustride dvstride du0 dv0 : Nat)
    (m : Mem R) (hi : sizes.sum ≤ indices.length) (hu : sizes.sum ≤ duWeights.length)
    (hv : sizes.sum ≤ dvWeights.length) :
    ∃ s1, forLoop (derivVertexBody sizes indices duWeights dvWeights ctrl cstride dulen dvlen
        dustride dvstride) sizes.length 0 ⟨du0, dv0, 0, m⟩ = .ok s1 ∧
      s1.cursor = sizes.sum ∧
      (∀ x, (∀ i < sizes.length,
          ¬ (du0 + i * dustride ≤ x ∧ x < du0 + i * dustride + dulen) ∧
          ¬ (dv0 + i * dvstride ≤ x ∧ x < dv0 + i * dvstride + max dulen dvlen)) →
        s1.mem x = m x) ∧
      (dulen ≤ dustride →
        NoOverlap indices sizes.sum ctrl cstride dulen du0 dustride dulen sizes.length →
        NoOverlap indices sizes.sum ctrl cstride dulen dv0 dvstride (max dulen dvlen)
          sizes.length →
        WindowsApart du0 dustride dulen dv0 dvstride (max dulen dvlen) sizes.length →
        (∀ i < sizes.length, ∀ k < dulen, s1.mem (du0 + i * dustride + k)
          = stencilSum sizes indices duWeights ctrl cstride m i k) ∧
        (max dulen dvlen ≤ dvstride →
          ∀ i < sizes.length, ∀ k < max dulen dvlen, s1.mem (dv0 + i * dvstride + k)
            = (if k < dvlen then 0 else m (dv0 + i * dvstride + k))
              + (if k < dulen then stencilSum sizes indices dvWeights ctrl cstride m i k
                  else 0))) := by
  have key := forLoop_total (derivVertexBody sizes indices duWeights dvWeights ctrl cstride
      dulen dvlen dustride dvstride)
    (fun i s => s.du = du0 + i * dustride ∧ s.dv = dv0 + i * dvstride ∧
      s.cursor = stencilBase sizes i ∧
      (∀ x, (∀ i1 < i,
          ¬ (du0 + i1 * dustride ≤ x ∧ x < du0 + i1 * dustride + dulen) ∧
          ¬ (dv0 + i1 * dvstride ≤ x ∧ x < dv0 + i1 * dvstride + max dulen dvlen)) →
        s.mem x = m x) ∧
      (dulen ≤ dustride →
        NoOverlap indices sizes.sum ctrl cstride dulen du0 dustride dulen sizes.length →
        NoOverlap indices sizes.sum ctrl cstride dulen dv0 dvstride (max dulen dvlen)
          sizes.length →
        WindowsApart du0 dustride dulen dv0 dvstride (max dulen dvlen) sizes.length →
        (∀ i1 < i, ∀ k < dulen, s.mem (du0 + i1 * dustride + k)
          = stencilSum sizes indices duWeights ctrl cstride m i1 k) ∧
        (max dulen dvlen ≤ dvstride →
          ∀ i1 < i, ∀ k < max dulen dvlen, s.mem (dv0 + i1 * dvstride + k)
            = (if k < dvlen then 0 else m (dv0 + i1 * dvstride + k))
              + (if k < dulen then stencilSum sizes indices dvWeights ctrl cstride m i1 k
                  else 0))))
    sizes.length
    (by
      intro i s hlt hI
      obtain ⟨hdu, hdv, hc, hfr, hcl⟩ := hI
      have hsum := stencilBase_succ_le_sum sizes i hlt
      obtain ⟨s1, hs1, hdu1, hdv1, hc1, hfr1, hcl1⟩ :=
        derivStencilLoop_spec indices duWeights dvWeights ctrl cstride dulen (sizes.getD i 0)
          (stencilBase sizes i) (du0 + i * dustride) (dv0 + i * dvstride)
          (memset (memset s.mem (du0 + i * dustride) dulen) (dv0 + i * dvstride) dvlen)
          (by omega) (by omega) (by omega)
      -- outside the two ranges of this round the heap is the one before the round
      have hA : ∀ x, ¬ (du0 + i * dustride ≤ x ∧ x < du0 + i * dustride + dulen) →
          ¬ (dv0 + i * dvstride ≤ x ∧ x < dv0 + i * dvstride + max dulen dvlen) →
          s1.mem x = s.mem x := by
        intro x hx1 hx2
        rw [hfr1 x hx1 (by omega), memset_outside _ _ _ _ (by omega),
          memset_outside _ _ _ _ hx1]
      refine ⟨⟨s1.du + dustride, s1.dv + dvstride, s1.cursor, s1.mem⟩, ?_, ?_, ?_, ?_, ?_, ?_⟩
      · simp only [derivVertexBody, getElem?_eq_some_getD sizes i 0 hlt, hdu, hdv, hc, hs1]
      · simp only [hdu1, Nat.succ_mul]; omega
      · simp only [hdv1, Nat.succ_mul]; omega
      · simp only [hc1, stencilBase_succ sizes i hlt]
      · intro x hx
        simp only []
        rw [hA x (hx i (by omega)).1 (hx i (by omega)).2]
        exact hfr x (fun i1 h1 => hx i1 (by omega))
      · intro hlen hnou hnov hap
        simp only []
        obtain ⟨hclu, hclv⟩ := hcl hlen hnou hnov hap
        -- the control cells read in this round are those of the initial heap
        have hread : ∀ j < sizes.getD i 0, ∀ k < dulen,
            memset (memset s.mem (du0 + i * dustride) dulen) (dv0 + i * dvstride) dvlen
              (ctrl + indices.getD (stencilBase sizes i + j) 0 * cstride + k)
            = m (ctrl + indices.getD (stencilBase sizes i + j) 0 * cstride + k) := by
          intro j hj k hk
          have hp : stencilBase sizes i + j < sizes.sum := by omega
          rw [memset_outside, memset_outside, hfr]
          · intro i2 hi2
            constructor
            · intro hc2
              exact hnou _ hp k hk i2 (by omega)
                (ctrl + indices.getD (stencilBase sizes i + j) 0 * cstride + k
                  - (du0 + i2 * dustride)) (by omega) (by omega)
            · intro hc2
              exact hnov _ hp k hk i2 (by omega)
                (ctrl + indices.getD (stencilBase sizes i + j) 0 * cstride + k
                  - (dv0 + i2 * dvstride)) (by omega) (by omega)
          · intro hc2
            exact hnou _ hp k hk i hlt
              (ctrl + indices.getD (stencilBase sizes i + j) 0 * cstride + k
                - (du0 + i * dustride)) (by omega) (by omega)
          · intro hc2
            exact hnov _ hp k hk i hlt
              (ctrl + indices.getD (stencilBase sizes i + j) 0 * cstride + k
                - (dv0 + i * dvstride)) (by omega) (by omega)
        have hsums := hcl1
          (fun j hj k1 hk1 k2 hk2 =>
            ⟨hnou (stencilBase sizes i + j) (by omega) k1 hk1 i hlt k2 hk2,
              hnov (stencilBase sizes i + j) (by omega) k1 hk1 i hlt k2 (by omega)⟩)
          (fun k1 hk1 k2 hk2 => hap i hlt k1 hk1 i hlt k2 (by omega))
        constructor
        · intro i1 hi1 k hk
          by_cases e : i1 = i
          · subst e
            rw [(hsums k hk).1, memset_outside, memset_inside _ _ _ _ (by omega), zero_add]
            · unfold stencilSum
              apply Finset.sum_congr rfl
              intro j hj
              rw [hread j (Finset.mem_range.mp hj) k hk]
            · intro hc2
              exact hap i1 hlt k hk i1 hlt (du0 + i1 * dustride + k - (dv0 + i1 * dvstride))
                (by omega) (by omega)
          · have hlt1 : i1 < i := by omega
            have hmul : (i1 + 1) * dustride ≤ i * dustride :=
              Nat.mul_le_mul_right _ (by omega)
            rw [Nat.succ_mul] at hmul
            rw [hA _ (by omega)]
            · exact hclu i1 hlt1 k hk
            · intro hc2
              exact hap i1 (by omega) k hk i hlt
                (du0 + i1 * dustride + k - (dv0 + i * dvstride)) (by omega) (by omega)
        · intro hvlen i1 hi1 k hk
          by_cases e : i1 = i
          · subst e
            have hinit : s.mem (dv0 + i1 * dvstride + k) = m (dv0 + i1 * dvstride + k) := by
              apply hfr
              intro i2 hi2
              have hmul : (i2 + 1) * dvstride ≤ i1 * dvstride :=
                Nat.mul_le_mul_right _ (by omega)
              rw [Nat.succ_mul] at hmul
              constructor
              · intro hc2
                exact hap i2 (by omega)
                  (dv0 + i1 * dvstride + k - (du0 + i2 * dustride)) (by omega) i1 hlt k hk
                  (by omega)
              · omega
            have hnotdu : ¬ (du0 + i1 * dustride ≤ dv0 + i1 * dvstride + k ∧
                dv0 + i1 * dvstride + k < du0 + i1 * dustride + dulen) := by
              intro hc2
              exact hap i1 hlt (dv0 + i1 * dvstride + k - (du0 + i1 * dustride)) (by omega)
                i1 hlt k hk (by omega)
            by_cases hkd : k < dulen
            · rw [(hsums k hkd).2, if_pos hkd]
              congr 1
              · by_cases hkv : k < dvlen
                · rw [memset_inside _ _ _ _ (by omega), if_pos hkv]
                · rw [memset_outside _ _ _ _ (by omega), memset_outside _ _ _ _ hnotdu,
                    if_neg hkv, hinit]
              · unfold stencilSum
                apply Finset.sum_congr rfl
                intro j hj
                rw [hread j (Finset.mem_range.mp hj) k hkd]
            · have hkv : k < dvlen := by omega
              rw [hfr1 _ hnotdu (by omega), memset_inside _ _ _ _ (by omega), if_pos hkv,
                if_neg hkd, add_zero]
          · have hlt1 : i1 < i := by omega
            have hmul : (i1 + 1) * dvstride ≤ i * dvstride :=
              Nat.mul_le_mul_right _ (by omega)
            rw [Nat.succ_mul] at hmul
            rw [hA _ _ (by omega)]
            · exact hclv hvlen i1 hlt1 k hk
            · intro hc2
              exact hap i hlt (dv0 + i1 * dvstride + k - (du0 + i * dustride)) (by omega)
                i1 (by omega) k hk (by omega))
    sizes.length 0 ⟨du0, dv0, 0, m⟩ (by omega)
    ⟨by simp, by simp, by simp [stencilBase_zero], fun _ _ => rfl,
      fun _ _ _ _ => ⟨fun _ h => absurd h (Nat.not_lt_zero _),
        fun _ _ h => absurd h (Nat.not_lt_zero _)⟩⟩
  obtain ⟨s1, h1, _, _, h4, h5, h6⟩ := key
  simp only [Nat.zero_add, stencilBase_length] at h4 h5 h6
  exact ⟨s1, h1, h4, h5, h6⟩

/-- A successful `_UpdateDerivs`: with a table whose flattened sequences are non-empty
and hold `Σ sizes` entries, both descriptors passing `CanEval` and non-null resolved
pointers, the call returns `nstencils`; the heap it leaves is described as in
`derivVertexLoop_spec`. -/
theorem updateDerivs_eval {R : Type} [Semiring R] (t : FarStencilTables R) (bs : BindState)
    (m : Mem R) (hn : 0 < t.GetNumStencils)
    (hne : t.controlIndices ≠ []) (hnu : t.duWeights ≠ []) (hnv : t.dvWeights ≠ [])
    (hi : t.sizes.sum ≤ t.controlIndices.length) (hu : t.sizes.sum ≤ t.duWeights.length)
    (hv : t.sizes.sum ≤ t.dvWeights.length)
    (hcu : bs.controlDataDesc.CanEval bs.outputDuDesc = true)
    (hcv : bs.controlDataDesc.CanEval bs.outputDvDesc = true)
    (hc : bs.ctrl ≠ 0) (hdu : bs.du ≠ 0) (hdv : bs.dv ≠ 0) :
    ∃ m1, _UpdateDerivs t bs m = .ok (t.GetNumStencils, m1) ∧
      (∀ x, (∀ i < t.GetNumStencils,
          ¬ (bs.du + i * bs.outputDuDesc.stride ≤ x ∧
            x < bs.du + i * bs.outputDuDesc.stride + bs.outputDuDesc.length) ∧
          ¬ (bs.dv + i * bs.outputDvDesc.stride ≤ x ∧
            x < bs.dv + i * bs.outputDvDesc.stride
              + max bs.outputDuDesc.length bs.outputDvDesc.length)) →
        m1 x = m x) ∧
      (bs.outputDuDesc.length ≤ bs.outputDuDesc.stride →
        NoOverlap t.controlIndices t.sizes.sum bs.ctrl bs.controlDataDesc.stride
          bs.outputDuDesc.length bs.du bs.outputDuDesc.stride bs.outputDuDesc.length
          t.GetNumStencils →
        NoOverlap t.controlIndices t.sizes.sum bs.ctrl bs.controlDataDesc.stride
          bs.outputDuDesc.length bs.dv bs.outputDvDesc.stride
          (max bs.outputDuDesc.length bs.outputDvDesc.length) t.GetNumStencils →
        WindowsApart bs.du bs.outputDuDesc.stride bs.outputDuDesc.length bs.dv
          bs.outputDvDesc.stride (max bs.outputDuDesc.length bs.outputDvDesc.length)
          t.GetNumStencils →
        (∀ i < t.GetNumStencils, ∀ k < bs.outputDuDesc.length,
          m1 (bs.du + i * bs.outputDuDesc.stride + k)
            = stencilSum t.sizes t.controlIndices t.duWeights bs.ctrl
                bs.controlDataDesc.stride m i k) ∧
        (max bs.outputDuDesc.length bs.outputDvDesc.length ≤ bs.outputDvDesc.stride →
          ∀ i < t.GetNumStencils, ∀ k < max bs.outputDuDesc.length bs.outputDvDesc.length,
            m1 (bs.dv + i * bs.outputDvDesc.stride + k)
              = (if k < bs.outputDvDesc.length then 0
                  else m (bs.dv + i * bs.outputDvDesc.stride + k))
                + (if k < bs.outputDuDesc.length then
                    stencilSum t.sizes t.controlIndices t.dvWeights bs.ctrl
                      bs.controlDataDesc.stride m i k
                  else 0))) := by
  obtain ⟨s1, h1, _, h4, h5⟩ := derivVertexLoop_spec t.sizes t.controlIndices t.duWeights
    t.dvWeights bs.ctrl bs.controlDataDesc.stride bs.outputDuDesc.length
    bs.outputDvDesc.length bs.outputDuDesc.stride bs.outputDvDesc.stride bs.du bs.dv m hi hu hv
  refine ⟨s1.mem, ?_, h4, h5⟩
  have hs : t.sizes ≠ [] := by
    intro h; simp [FarStencilTables.GetNumStencils, h] at hn
  have hn0 : t.GetNumStencils ≠ 0 := by omega
  simp only [_UpdateDerivs, hn0, hcu, hcv, hc, hdu, hdv, List.isEmpty_iff, hs, hne, hnu, hnv,
    if_false, or_self, Bool.true_eq_false, Bool.and_self]
  simp only [FarStencilTables.GetNumStencils] at h1 ⊢
  rw [h1]

/-! ## Frame of the position pass, whatever the table -/

/-- Whenever the `j` loop succeeds it has left `out` alone, advanced the cursor by the
number of rounds and changed no cell outside the window at `out`. -/
theorem stencilLoop_frame {R : Type} [Semiring R] (indices : List Nat) (weights : List R)
    (ctrl cstride len n : Nat) (s s1 : ValueState R)
    (h : forLoop (stencilBody indices weights ctrl cstride len) n 0 s = .ok s1) :
    s1.out = s.out ∧ s1.cursor = s.cursor + n ∧
      ∀ x, ¬ (s.out ≤ x ∧ x < s.out + len) → s1.mem x = s.mem x := by
  have key := forLoop_partial (stencilBody indices weights ctrl cstride len)
    (fun j st => st.out = s.out ∧ st.cursor = s.cursor + j ∧
      ∀ x, ¬ (s.out ≤ x ∧ x < s.out + len) → st.mem x = s.mem x) n
    (by
      intro j st st1 _ hI hb
      obtain ⟨ho, hc, hfr⟩ := hI
      unfold stencilBody at hb
      split at hb
      · rename_i idx w _ _
        obtain ⟨m1, hm1, hfr1, _⟩ := accumulate_spec (ctrl + idx * cstride) st.out w len st.mem
        rw [hm1] at hb
        simp only [Except.ok.injEq] at hb
        subst hb
        refine ⟨ho, by simp only []; omega, ?_⟩
        intro x hx
        simp only []
        rw [hfr1 x (by rw [ho]; exact hx)]
        exact hfr x hx
      · cases hb)
    n 0 s s1 (by omega) ⟨rfl, rfl, fun _ _ => rfl⟩ h
  simpa using key

/-- Whenever the `i` loop succeeds it has changed no cell outside the output windows. -/
theorem vertexLoop_frame {R : Type} [Semiring R] (sizes indices : List Nat) (weights : List R)
    (ctrl cstride len ostride n : Nat) (s s1 : ValueState R)
    (h : forLoop (vertexBody sizes indices weights ctrl cstride len ostride) n 0 s = .ok s1) :
    ∀ x, (∀ i < n, ¬ (s.out + i * ostride ≤ x ∧ x < s.out + i * ostride + len)) →
      s1.mem x = s.mem x := by
  have key := forLoop_partial (vertexBody sizes indices weights ctrl cstride len ostride)
    (fun i st => st.out = s.out + i * ostride ∧
      ∀ x, (∀ i1 < i, ¬ (s.out + i1 * ostride ≤ x ∧ x < s.out + i1 * ostride + len)) →
        st.mem x = s.mem x) n
    (by
      intro i st st1 _ hI hb
      obtain ⟨ho, hfr⟩ := hI
      unfold vertexBody at hb
      split at hb
      · cases hb
      · rename_i sz _
        split at hb
        · rename_i s2 hl
          obtain ⟨ho2, _, hfr2⟩ := stencilLoop_frame indices weights ctrl cstride len sz _ s2 hl
          simp only [Except.ok.injEq] at hb
          subst hb
          simp only [] at ho2 hfr2
          refine ⟨by simp only [ho2, ho, Nat.succ_mul]; omega, ?_⟩
          intro x hx
          simp only []
          have hxi := hx i (by omega)
          rw [← ho] at hxi
          rw [hfr2 x hxi, memset_outside _ _ _ _ hxi]
          exact hfr x (fun i1 h1 => hx i1 (by omega))
        · cases hb)
    n 0 s s1 (by omega) ⟨by simp, fun _ _ => rfl⟩ h
  intro x hx
  exact key.2 x (by simpa using hx)

/-- Whenever `_UpdateValues` returns, it has changed no cell outside the `nstencils`
output windows. -/
theorem updateValues_frame {R : Type} [Semiring R] (t : FarStencilTables R) (bs : BindState)
    (m m1 : Mem R) (r : Nat) (h : _UpdateValues t bs m = .ok (r, m1)) :
    ∀ x, (∀ i < t.GetNumStencils, ¬ (bs.out + i * bs.outputDataDesc.stride ≤ x ∧
        x < bs.out + i * bs.outputDataDesc.stride + bs.outputDataDesc.length)) →
      m1 x = m x := by
  intro x hx
  unfold _UpdateValues at h
  split at h
  · simp only [Except.ok.injEq, Prod.mk.injEq] at h; rw [← h.2]
  · split at h
    · simp only [Except.ok.injEq, Prod.mk.injEq] at h; rw [← h.2]
    · split at h
      · simp only [Except.ok.injEq, Prod.mk.injEq] at h; rw [← h.2]
      · split at h
        · cases h
        · split at h
          · rename_i s2 hl
            simp only [Except.ok.injEq, Prod.mk.injEq] at h
            rw [← h.2]
            exact vertexLoop_frame _ _ _ _ _ _ _ _ _ s2 hl x hx
          · cases h

/-! ## Two runs of the position pass on heaps that agree on the cells read -/

theorem getD_of_getElem? {α : Type} (l : List α) (i : Nat) (a d : α) (h : l[i]? = some a) :
    l.getD i d = a := by
  simp [h]

theorem lt_length_of_getElem? {α : Type} (l : List α) (i : Nat) (a : α) (h : l[i]? = some a) :
    i < l.length := by
  by_contra hc
  rw [List.getElem?_eq_none (by omega)] at h
  cases h

/-- The `k` loop keeps two heaps in agreement on a set `T` that holds the cells it reads
and writes. -/
theorem accumulate_agree {R : Type} [Semiring R] (cv out : Nat) (w : R) (len : Nat)
    (T : Nat → Prop) (m m2 : Mem R) (hT : ∀ k < len, T (cv + k) ∧ T (out + k))
    (hag : ∀ x, T x → m x = m2 x) :
    ∃ m1 m3, forLoop (accumulateBody cv out w) len 0 m = .ok m1 ∧
      forLoop (accumulateBody cv out w) len 0 m2 = .ok m3 ∧ ∀ x, T x → m1 x = m3 x := by
  have key := forLoop_rel (accumulateBody cv out w) (accumulateBody cv out w)
    (fun _ a b => ∀ x, T x → a x = b x) len
    (by
      intro k a b hk hQ
      show ∀ x, T x → _ = _
      intro x hx
      by_cases e : x = out + k
      · subst e
        rw [write_same, write_same, hQ _ (hT k hk).1, hQ _ (hT k hk).2]
      · rw [write_other _ _ _ _ e, write_other _ _ _ _ e]
        exact hQ x hx)
    len 0 m m2 (by omega) hag
  obtain ⟨m1, h1, _⟩ := accumulate_spec cv out w len m
  obtain ⟨m3, h3, _⟩ := accumulate_spec cv out w len m2
  rw [h1, h3] at key
  exact ⟨m1, m3, h1, h3, key⟩

/-- The `j` loop run from the same pointer and cursor on two heaps that agree on a set
`T` holding the window and the control cells read: both runs fail alike, or both
succeed with the same pointer and cursor and heaps that agree on `T`. -/
theorem stencilLoop_agree {R : Type} [Semiring R] (indices : List Nat) (weights : List R)
    (ctrl cstride len n c0 out : Nat) (T : Nat → Prop) (m m2 : Mem R)
    (hTw : ∀ k < len, T (out + k))
    (hTr : ∀ j < n, ∀ k < len, T (ctrl + indices.getD (c0 + j) 0 * cstride + k))
    (hag : ∀ x, T x → m x = m2 x) :
    RelExcept (fun a b => a.out = out ∧ b.out = out ∧ a.cursor = c0 + n ∧ b.cursor = c0 + n ∧
        ∀ x, T x → a.mem x = b.mem x)
      (forLoop (stencilBody indices weights ctrl cstride len) n 0 ⟨out, c0, m⟩)
      (forLoop (stencilBody indices weights ctrl cstride len) n 0 ⟨out, c0, m2⟩) := by
  have key := forLoop_rel (stencilBody indices weights ctrl cstride len)
    (stencilBody indices weights ctrl cstride len)
    (fun j a b => a.out = out ∧ b.out = out ∧ a.cursor = c0 + j ∧ b.cursor = c0 + j ∧
        ∀ x, T x → a.mem x = b.mem x) n
    (by
      intro j a b hj hQ
      obtain ⟨ha, hb, hca, hcb, hQ⟩ := hQ
      unfold stencilBody
      rw [hca, hcb, ha, hb]
      cases hidx : indices[c0 + j]? with
      | none => exact rfl
      | some idx =>
        cases hw : weights[c0 + j]? with
        | none => exact rfl
        | some w =>
          have hg := getD_of_getElem? indices (c0 + j) idx 0 hidx
          obtain ⟨m1, m3, h1, h3, hag1⟩ := accumulate_agree (ctrl + idx * cstride) out w len T
            a.mem b.mem (fun k hk => ⟨by rw [← hg]; exact hTr j hj k hk, hTw k hk⟩) hQ
          simp only [h1, h3]
          exact ⟨rfl, rfl, by simp only []; omega, by simp only []; omega, hag1⟩)
    n 0 ⟨out, c0, m⟩ ⟨out, c0, m2⟩ (by omega) ⟨rfl, rfl, rfl, rfl, hag⟩
  simpa using key

/-- The `i` loop run on two heaps that agree on a set `S` holding the control cells
read: both runs fail alike, or both succeed with heaps that agree on `S` and on every
output window. -/
theorem vertexLoop_agree {R : Type} [Semiring R] (sizes indices : List Nat) (weights : List R)
    (ctrl cstride len ostride n out0 : Nat) (S : Nat → Prop) (m m2 : Mem R)
    (hSr : ∀ p < sizes.sum, ∀ k < len, S (ctrl + indices.getD p 0 * cstride + k))
    (hag : ∀ x, S x → m x = m2 x) :
    RelExcept (fun a b => ∀ x, S x ∨ InWindows out0 ostride len n x → a.mem x = b.mem x)
      (forLoop (vertexBody sizes indices weights ctrl cstride len ostride) n 0 ⟨out0, 0, m⟩)
      (forLoop (vertexBody sizes indices weights ctrl cstride len ostride) n 0
        ⟨out0, 0, m2⟩) := by
  have key := forLoop_rel (vertexBody sizes indices weights ctrl cstride len ostride)
    (vertexBody sizes indices weights ctrl cstride len ostride)
    (fun i a b => a.out = out0 + i * ostride ∧ b.out = out0 + i * ostride ∧
        a.cursor = stencilBase sizes i ∧ b.cursor = stencilBase sizes i ∧
        ∀ x, S x ∨ InWindows out0 ostride len i x → a.mem x = b.mem x) n
    (by
      intro i a b hi hQ
      obtain ⟨ha, hb, hca, hcb, hQ⟩ := hQ
      unfold vertexBody
      cases hsz : sizes[i]? with
      | none => exact rfl
      | some sz =>
        have hlt := lt_length_of_getElem? sizes i sz hsz
        have hg := getD_of_getElem? sizes i sz 0 hsz
        have hsum := stencilBase_succ_le_sum sizes i hlt
        have hrel := stencilLoop_agree indices weights ctrl cstride len sz
          (stencilBase sizes i) (out0 + i * ostride)
          (fun x => S x ∨ InWindows out0 ostride len (i + 1) x)
          (memset a.mem (out0 + i * ostride) len) (memset b.mem (out0 + i * ostride) len)
          (fun k hk => Or.inr ⟨i, by omega, by omega, by omega⟩)
          (fun j hj k hk => Or.inl (hSr _ (by omega) k hk))
          (by
            intro x hx
            by_cases hin : out0 + i * ostride ≤ x ∧ x < out0 + i * ostride + len
            · rw [memset_inside _ _ _ _ hin, memset_inside _ _ _ _ hin]
            · rw [memset_outside _ _ _ _ hin, memset_outside _ _ _ _ hin]
              apply hQ
              rcases hx with hx | ⟨i1, h1, h2⟩
              · exact Or.inl hx
              · refine Or.inr ⟨i1, ?_, h2⟩
                by_contra hc
                have e : i1 = i := by omega
                subst e
                exact hin h2)
        simp only [ha, hb, hca, hcb]
        cases h1 : forLoop (stencilBody indices weights ctrl cstride len) sz 0
            ⟨out0 + i * ostride, stencilBase sizes i, memset a.mem (out0 + i * ostride) len⟩ with
        | error e1 =>
          cases h2 : forLoop (stencilBody indices weights ctrl cstride len) sz 0
              ⟨out0 + i * ostride, stencilBase sizes i,
                memset b.mem (out0 + i * ostride) len⟩ with
          | error e2 => rw [h1, h2] at hrel; exact hrel
          | ok b1 => rw [h1, h2] at hrel; exact hrel.elim
        | ok a1 =>
          cases h2 : forLoop (stencilBody indices weights ctrl cstride len) sz 0
              ⟨out0 + i * ostride, stencilBase sizes i,
                memset b.mem (out0 + i * ostride) len⟩ with
          | error e2 => rw [h1, h2] at hrel; exact hrel.elim
          | ok b1 =>
            rw [h1, h2] at hrel
            obtain ⟨r1, r2, r3, r4, r5⟩ := hrel
            refine ⟨by simp only [r1, Nat.succ_mul]; omega,
              by simp only [r2, Nat.succ_mul]; omega, ?_, ?_, r5⟩
            · simp only [r3, stencilBase_succ sizes i hlt, hg]
            · simp only [r4, stencilBase_succ sizes i hlt, hg])
    n 0 ⟨out0, 0, m⟩ ⟨out0, 0, m2⟩ (by omega)
    ⟨by simp, by simp, by simp [stencilBase_zero], by simp [stencilBase_zero], by
      intro x hx
      rcases hx with hx | ⟨i1, h1, _⟩
      · exact hag x hx
      · omega⟩
  cases h1 : forLoop (vertexBody sizes indices weights ctrl cstride len ostride) n 0
      ⟨out0, 0, m⟩ with
  | error e1 =>
    cases h2 : forLoop (vertexBody sizes indices weights ctrl cstride len ostride) n 0
        ⟨out0, 0, m2⟩ with
    | error e2 => rw [h1, h2] at key; exact key
    | ok b1 => rw [h1, h2] at key; exact key.elim
  | ok a1 =>
    cases h2 : forLoop (vertexBody sizes indices weights ctrl cstride len ostride) n 0
        ⟨out0, 0, m2⟩ with
    | error e2 => rw [h1, h2] at key; exact key.elim
    | ok b1 =>
      rw [h1, h2] at key
      obtain ⟨_, _, _, _, r5⟩ := key
      simp only [Nat.zero_add] at r5
      exact r5

/-! ## Frame of the derivative pass, whatever the table -/

/-- Two runs of `_UpdateValues` on heaps that agree on the control cells read have the
same outcome on those cells and on the output windows. -/
theorem updateValues_agree {R : Type} [Semiring R] (t : FarStencilTables R) (bs : BindState)
    (m m2 : Mem R)
    (hag : ∀ x, ControlCells t.controlIndices t.sizes.sum bs.ctrl bs.controlDataDesc.stride
      bs.outputDataDesc.length x → m x = m2 x) :
    SameOn (fun x => ControlCells t.controlIndices t.sizes.sum bs.ctrl
        bs.controlDataDesc.stride bs.outputDataDesc.length x
        ∨ InWindows bs.out bs.outputDataDesc.stride bs.outputDataDesc.length
          t.GetNumStencils x)
      (_UpdateValues t bs m) (_UpdateValues t bs m2) := by
  unfold SameOn _UpdateValues
  by_cases c1 : t.GetNumStencils = 0
  · simp only [if_pos c1]
    exact ⟨rfl, fun h => absurd rfl h⟩
  · simp only [if_neg c1]
    by_cases c2 : bs.controlDataDesc.CanEval bs.outputDataDesc = false
    · simp only [if_pos c2]
      exact ⟨rfl, fun h => absurd rfl h⟩
    · simp only [if_neg c2]
      by_cases c3 : bs.ctrl = 0 ∨ bs.out = 0
      · simp only [if_pos c3]
        exact ⟨rfl, fun h => absurd rfl h⟩
      · simp only [if_neg c3]
        by_cases c4 : t.sizes.isEmpty ∨ t.controlIndices.isEmpty ∨ t.weights.isEmpty
        · simp only [if_pos c4]
          exact rfl
        · simp only [if_neg c4]
          have hrel := vertexLoop_agree t.sizes t.controlIndices t.weights bs.ctrl
            bs.controlDataDesc.stride bs.outputDataDesc.length bs.outputDataDesc.stride
            t.GetNumStencils bs.out
            (ControlCells t.controlIndices t.sizes.sum bs.ctrl bs.controlDataDesc.stride
              bs.outputDataDesc.length) m m2
            (fun p hp k hk => ⟨p, hp, k, hk, rfl⟩) hag
          cases h1 : forLoop (vertexBody t.sizes t.controlIndices t.weights bs.ctrl
              bs.controlDataDesc.stride bs.outputDataDesc.length bs.outputDataDesc.stride)
              t.GetNumStencils 0 ⟨bs.out, 0, m⟩ with
          | error e1 =>
            cases h2 : forLoop (vertexBody t.sizes t.controlIndices t.weights bs.ctrl
                bs.controlDataDesc.stride bs.outputDataDesc.length bs.outputDataDesc.stride)
                t.GetNumStencils 0 ⟨bs.out, 0, m2⟩ with
            | error e2 => rw [h1, h2] at hrel; exact hrel
            | ok b1 => rw [h1, h2] at hrel; exact hrel.elim
          | ok a1 =>
            cases h2 : forLoop (vertexBody t.sizes t.controlIndices t.weights bs.ctrl
                bs.controlDataDesc.stride bs.outputDataDesc.length bs.outputDataDesc.stride)
                t.GetNumStencils 0 ⟨bs.out, 0, m2⟩ with
            | error e2 => rw [h1, h2] at hrel; exact hrel.elim
            | ok b1 =>
              rw [h1, h2] at hrel
              exact ⟨rfl, fun _ => hrel⟩

/-- The guard of both passes tests the resolved pointers: when one of them is null the
call returns 0 and leaves the heap unchanged. -/
theorem update_null_resolved_noop {R : Type} [Semiring R] (t : FarStencilTables R)
    (bs : BindState) (m : Mem R) :
    (bs.ctrl = 0 ∨ bs.out = 0 → _UpdateValues t bs m = .ok (0, m)) ∧
    (bs.ctrl = 0 ∨ bs.du = 0 ∨ bs.dv = 0 → _UpdateDerivs t bs m = .ok (0, m)) := by
  constructor
  · intro h
    unfold _UpdateValues
    split
    · rfl
    · split
      · rfl
      · rfl
  · intro h
    unfold _UpdateDerivs
    split
    · rfl
    · split
      · rfl
      · rfl

theorem getD_mem {α : Type} (l : List α) (i : Nat) (d : α) (h : i < l.length) :
    l.getD i d ∈ l := by
  rw [List.getD_eq_getElem l d h]
  exact List.getElem_mem h

theorem stencilBase_of_all_one (sizes : List Nat) (h1 : ∀ s ∈ sizes, s = 1) (i : Nat)
    (h : i ≤ sizes.length) : stencilBase sizes i = i := by
  induction i with
  | zero => exact stencilBase_zero sizes
  | succ i ih =>
    rw [stencilBase_succ sizes i (by omega), ih (by omega),
      h1 _ (getD_mem sizes i 0 (by omega))]

theorem sum_of_all_one (sizes : List Nat) (h1 : ∀ s ∈ sizes, s = 1) :
    sizes.sum = sizes.length := by
  rw [← stencilBase_length, stencilBase_of_all_one sizes h1 _ (le_refl _)]

theorem not_inWindows_iff (out ostride len n x : Nat) :
    ¬ InWindows out ostride len n x ↔
      ∀ i < n, ¬ (out + i * ostride ≤ x ∧ x < out + i * ostride + len) := by
  unfold InWindows
  constructor
  · intro h i hi hc
    exact h ⟨i, hi, hc⟩
  · rintro h ⟨i, hi, hc⟩
    exact h i hi hc

theorem controlCells_not_inWindows (indices : List Nat)
    (total ctrl cstride rlen out ostride wlen n x : Nat)
    (hno : NoOverlap indices total ctrl cstride rlen out ostride wlen n)
    (hx : ControlCells indices total ctrl cstride rlen x) :
    ¬ InWindows out ostride wlen n x := by
  rintro ⟨i, hi, h1, h2⟩
  obtain ⟨p, hp, k, hk, e⟩ := hx
  subst e
  exact hno p hp k hk i hi (ctrl + indices.getD p 0 * cstride + k - (out + i * ostride))
    (by omega) (by omega)

/-- Buffers that occupy disjoint address ranges do not overlap in the sense of
`NoOverlap`: when every control index read is below `numControlVertices`, each
descriptor keeps `offset + length` within its stride, and the control buffer
`[controlData, controlData + numControlVertices*stride)` lies entirely before or after
the output buffer `[outputData, outputData + nstencils*stride)`, no control cell read is
a cell of an output window. -/
theorem noOverlap_of_disjoint_buffers {R : Type} (t : FarStencilTables R) (bs : BindState)
    (numControlVertices : Nat)
    (hidx : ∀ p < t.sizes.sum, t.controlIndices.getD p 0 < numControlVertices)
    (hc : bs.controlDataDesc.offset + bs.outputDataDesc.length ≤ bs.controlDataDesc.stride)
    (ho : bs.outputDataDesc.offset + bs.outputDataDesc.length ≤ bs.outputDataDesc.stride)
    (hdisj : bs.controlData + numControlVertices * bs.controlDataDesc.stride ≤ bs.outputData
      ∨ bs.outputData + t.GetNumStencils * bs.outputDataDesc.stride ≤ bs.controlData) :
    NoOverlap t.controlIndices t.sizes.sum bs.ctrl bs.controlDataDesc.stride
      bs.outputDataDesc.length bs.out bs.outputDataDesc.stride bs.outputDataDesc.length
      t.GetNumStencils := by
  intro p hp k1 hk1 i hi k2 hk2
  have h1 : (t.controlIndices.getD p 0 + 1) * bs.controlDataDesc.stride
      ≤ numControlVertices * bs.controlDataDesc.stride :=
    Nat.mul_le_mul_right _ (hidx p hp)
  have h2 : (i + 1) * bs.outputDataDesc.stride
      ≤ t.GetNumStencils * bs.outputDataDesc.stride :=
    Nat.mul_le_mul_right _ hi
  rw [Nat.succ_mul] at h1 h2
  simp only [BindState.ctrl, BindState.out]
  omega

/-! ## Claims -/

/-- C1 (as amended): for every stencil table with non-empty flattened sequences and
`Σ sizes == len(controlIndices) == len(weights)`, every descriptor pair passing
`CanEval` with `outDesc.stride >= outDesc.length`, non-null bound pointers and output
windows that do not overlap the control cells read, `_UpdateValues` returns `nstencils`
and every cell `out[outDesc.offset + i*outDesc.stride + k]` holds the prefix-sum value
`Σ_{j < sizes[i]} ctrl[... controlIndices[base(i)+j]*stride + k] * weights[base(i)+j]`;
the control cells read keep their values. -/
theorem updateValues_eq_prefix_sum {R : Type} [Semiring R] (t : FarStencilTables R)
    (bs : BindState) (m : Mem R)
    (hne : t.controlIndices ≠ [])
    (hi : t.sizes.sum = t.controlIndices.length) (hw : t.sizes.sum = t.weights.length)
    (hce : bs.controlDataDesc.CanEval bs.outputDataDesc = true)
    (hst : bs.outputDataDesc.length ≤ bs.outputDataDesc.stride)
    (hc : bs.controlData ≠ 0) (ho : bs.outputData ≠ 0)
    (hno : NoOverlap t.controlIndices t.sizes.sum bs.ctrl bs.controlDataDesc.stride
      bs.outputDataDesc.length bs.out bs.outputDataDesc.stride bs.outputDataDesc.length
      t.GetNumStencils) :
    ∃ m1, _UpdateValues t bs m = .ok (t.GetNumStencils, m1) ∧
      (∀ i < t.GetNumStencils, ∀ k < bs.outputDataDesc.length,
        m1 (bs.outputData + bs.outputDataDesc.offset + i * bs.outputDataDesc.stride + k)
          = stencilSum t.sizes t.controlIndices t.weights
              (bs.controlData + bs.controlDataDesc.offset) bs.controlDataDesc.stride m i k) ∧
      (∀ p < t.sizes.sum, ∀ k < bs.outputDataDesc.length,
        m1 (bs.controlData + bs.controlDataDesc.offset
            + t.controlIndices.getD p 0 * bs.controlDataDesc.stride + k)
          = m (bs.controlData + bs.controlDataDesc.offset
            + t.controlIndices.getD p 0 * bs.controlDataDesc.stride + k)) := by
  have hpos : 0 < t.sizes.sum := by
    rw [hi]; exact List.length_pos.mpr hne
  have hnw : t.weights ≠ [] := by
    intro h; rw [h] at hw; simp at hw; omega
  obtain ⟨m1, h1, h2, h3⟩ := updateValues_eval t bs m (sizes_ne_nil_of_sum_pos _ hpos) hne hnw
    (by omega) (by omega) hce (by simp only [BindState.ctrl]; omega)
    (by simp only [BindState.out]; omega)
  refine ⟨m1, h1, h3 hst hno, ?_⟩
  intro p hp k hk
  apply h2
  intro i hlt hc2
  exact hno p hp k hk i hlt
    (bs.ctrl + t.controlIndices.getD p 0 * bs.controlDataDesc.stride + k
      - (bs.out + i * bs.outputDataDesc.stride))
    (by simp only [BindState.ctrl, BindState.out] at hc2 ⊢; omega)
    (by simp only [BindState.ctrl, BindState.out] at hc2 ⊢; omega)

/-- Witness of C1: the two-stencil table on packed buffers. -/
theorem updateValues_eq_prefix_sum_witness :
    ∃ m1, _UpdateValues twoStencilTable packedBind sampleMem = .ok (2, m1) ∧
      (∀ i < 2, ∀ k < 3, m1 (200 + 0 + i * 3 + k)
        = stencilSum [2, 1] [0, 1, 2] [2, 3, 5] (100 + 0) 3 sampleMem i k) ∧
      (∀ p < 3, ∀ k < 3, m1 (100 + 0 + [0, 1, 2].getD p 0 * 3 + k)
        = sampleMem (100 + 0 + [0, 1, 2].getD p 0 * 3 + k)) :=
  updateValues_eq_prefix_sum twoStencilTable packedBind sampleMem (by decide) (by decide)
    (by decide) (by decide) (by decide) (by decide) (by decide)
    (by unfold NoOverlap; decide)

/-- C1 as stated fails: the table with one empty stencil satisfies
`nstencils > 0` and `Σ sizes == len(controlIndices) == len(weights)`, the descriptors
pass `CanEval`, the buffers do not overlap, and `_UpdateValues` throws
`std::out_of_range` at `GetControlIndices().at(0)` instead of writing the empty sum. -/
theorem updateValues_prefix_sum_fails_on_empty_table :
    0 < emptyStencilTable.GetNumStencils ∧
    emptyStencilTable.sizes.sum = emptyStencilTable.controlIndices.length ∧
    emptyStencilTable.sizes.sum = emptyStencilTable.weights.length ∧
    packedBind.controlDataDesc.CanEval packedBind.outputDataDesc = true ∧
    packedBind.outputDataDesc.length ≤ packedBind.outputDataDesc.stride ∧
    NoOverlap emptyStencilTable.controlIndices emptyStencilTable.sizes.sum packedBind.ctrl
      packedBind.controlDataDesc.stride packedBind.outputDataDesc.length packedBind.out
      packedBind.outputDataDesc.stride packedBind.outputDataDesc.length
      emptyStencilTable.GetNumStencils ∧
    _UpdateValues emptyStencilTable packedBind sampleMem = .error .outOfRange ∧
    ¬ ∃ m1, _UpdateValues emptyStencilTable packedBind sampleMem
        = .ok (emptyStencilTable.GetNumStencils, m1) ∧
      ∀ i < emptyStencilTable.GetNumStencils, ∀ k < packedBind.outputDataDesc.length,
        m1 (packedBind.outputData + packedBind.outputDataDesc.offset
            + i * packedBind.outputDataDesc.stride + k)
          = stencilSum emptyStencilTable.sizes emptyStencilTable.controlIndices
              emptyStencilTable.weights (packedBind.controlData + packedBind.controlDataDesc.offset)
              packedBind.controlDataDesc.stride sampleMem i k := by
  refine ⟨by decide, by decide, by decide, by decide, by decide,
    by unfold NoOverlap; decide, rfl, ?_⟩
  rintro ⟨m1, h, _⟩
  have e : _UpdateValues emptyStencilTable packedBind sampleMem = .error .outOfRange := rfl
  rw [e] at h
  cases h

/-- C2: for a table with `nstencils == 0` and any bind state, `_UpdateValues` and
`_UpdateDerivs` both return 0 and leave the whole heap (so every cell of the position,
du and dv output buffers) unchanged. -/
theorem update_no_stencils_noop {R : Type} [Semiring R] (t : FarStencilTables R)
    (bs : BindState) (m : Mem R) (h : t.GetNumStencils = 0) :
    _UpdateValues t bs m = .ok (0, m) ∧ _UpdateDerivs t bs m = .ok (0, m) := by
  simp [_UpdateValues, _UpdateDerivs, h]

/-- Witness of C2: the table without stencils on bound, compatible buffers. -/
theorem update_no_stencils_noop_witness :
    noStencilTable.GetNumStencils = 0 ∧
    _UpdateValues noStencilTable packedBind sampleMem = .ok (0, sampleMem) ∧
    _UpdateDerivs noStencilTable packedBind sampleMem = .ok (0, sampleMem) :=
  ⟨by decide, update_no_stencils_noop noStencilTable packedBind sampleMem (by decide)⟩

/-- C3: incompatible descriptors are a silent no-op.  For every table (in particular
every table with `nstencils > 0`), `_UpdateValues` returns 0 and leaves the heap
unchanged when `controlDesc.CanEval(outputDesc)` is false, and `_UpdateDerivs` returns 0
and leaves the heap unchanged when `CanEval` fails for the du descriptor or for the dv
descriptor. -/
theorem update_incompatible_noop {R : Type} [Semiring R] (t : FarStencilTables R)
    (bs : BindState) (m : Mem R) :
    (bs.controlDataDesc.CanEval bs.outputDataDesc = false → _UpdateValues t bs m = .ok (0, m)) ∧
    (bs.controlDataDesc.CanEval bs.outputDuDesc = false
        ∨ bs.controlDataDesc.CanEval bs.outputDvDesc = false →
      _UpdateDerivs t bs m = .ok (0, m)) := by
  constructor
  · intro h
    simp [_UpdateValues, h]
  · intro h
    have h2 : (bs.controlDataDesc.CanEval bs.outputDuDesc
        && bs.controlDataDesc.CanEval bs.outputDvDesc) = false := by
      rcases h with h | h <;> simp [h]
    simp [_UpdateDerivs, h2]

/-- Witness of C3: two stencils, an empty position descriptor and an empty dv
descriptor next to a valid du descriptor. -/
theorem update_incompatible_noop_witness :
    0 < twoStencilTable.GetNumStencils ∧
    emptyOutputBind.controlDataDesc.CanEval emptyOutputBind.outputDuDesc = true ∧
    _UpdateValues twoStencilTable emptyOutputBind sampleMem = .ok (0, sampleMem) ∧
    _UpdateDerivs twoStencilTable emptyOutputBind sampleMem = .ok (0, sampleMem) :=
  ⟨by decide, by decide,
    (update_incompatible_noop twoStencilTable emptyOutputBind sampleMem).1 (by decide),
    (update_incompatible_noop twoStencilTable emptyOutputBind sampleMem).2
      (Or.inr (by decide))⟩

/-- C4 (code evaluated at the failing inputs): with a null `controlData` and the
control descriptor `(offset 3, length 3, stride 6)`, `_UpdateValues` does not return 0:
the guard tests `controlData + offset`, which is not null, so the pass runs, reads the
cells `3..` through the null-based pointer, writes the output and returns `nstencils`.
Likewise `_UpdateDerivs` with a null `outputUDeriv` and du offset 3 returns `nstencils`
and writes the cells `3..` through the null-based du pointer. -/
theorem update_null_pointer_with_offset_runs :
    0 < twoStencilTable.GetNumStencils ∧
    nullControlBind.controlData = 0 ∧
    nullControlBind.controlDataDesc.CanEval nullControlBind.outputDataDesc = true ∧
    observe (_UpdateValues twoStencilTable nullControlBind sampleMem)
      [200, 201, 202, 203, 204, 205] = some (2, [33, 38, 43, 75, 80, 85]) ∧
    nullDuBind.outputUDeriv = 0 ∧
    nullDuBind.controlDataDesc.CanEval nullDuBind.outputDuDesc = true ∧
    nullDuBind.controlDataDesc.CanEval nullDuBind.outputDvDesc = true ∧
    observe (_UpdateDerivs twoStencilTable nullDuBind sampleMem)
      [3, 4, 5, 9, 10, 11] = some (2, [-3, -3, -3, 106, 107, 108]) := by
  refine ⟨by decide, rfl, by decide, by decide, rfl, by decide, by decide, by decide⟩

/-- C5 (as amended): for every table with `nstencils > 0` whose flattened sequences are
non-empty and hold at least `Σ sizes` entries, descriptors passing `CanEval` and
non-null bound pointers, `_UpdateValues` returns exactly `nstencils`, and so does
`_UpdateDerivs` under the corresponding du/dv conditions; whenever either pass returns,
the returned value is 0 or `nstencils`. -/
theorem update_return_value {R : Type} [Semiring R] (t : FarStencilTables R)
    (bs : BindState) (m : Mem R) :
    (0 < t.GetNumStencils → t.controlIndices ≠ [] → t.weights ≠ [] →
      t.sizes.sum ≤ t.controlIndices.length → t.sizes.sum ≤ t.weights.length →
      bs.controlDataDesc.CanEval bs.outputDataDesc = true →
      bs.controlData ≠ 0 → bs.outputData ≠ 0 →
      ∃ m1, _UpdateValues t bs m = .ok (t.GetNumStencils, m1)) ∧
    (0 < t.GetNumStencils → t.controlIndices ≠ [] → t.duWeights ≠ [] → t.dvWeights ≠ [] →
      t.sizes.sum ≤ t.controlIndices.length → t.sizes.sum ≤ t.duWeights.length →
      t.sizes.sum ≤ t.dvWeights.length →
      bs.controlDataDesc.CanEval bs.outputDuDesc = true →
      bs.controlDataDesc.CanEval bs.outputDvDesc = true →
      bs.controlData ≠ 0 → bs.outputUDeriv ≠ 0 → bs.outputVDeriv ≠ 0 →
      ∃ m1, _UpdateDerivs t bs m = .ok (t.GetNumStencils, m1)) ∧
    (∀ r m1, _UpdateValues t bs m = .ok (r, m1) → r = 0 ∨ r = t.GetNumStencils) ∧
    (∀ r m1, _UpdateDerivs t bs m = .ok (r, m1) → r = 0 ∨ r = t.GetNumStencils) := by
  refine ⟨?_, ?_, ?_, ?_⟩
  · intro hn hne hnw hi hw hce hc ho
    obtain ⟨m1, h1, _⟩ := updateValues_eval t bs m hn hne hnw hi hw hce
      (by simp only [BindState.ctrl]; omega) (by simp only [BindState.out]; omega)
    exact ⟨m1, h1⟩
  · intro hn hne hnu hnv hi hu hv hcu hcv hc hdu hdv
    obtain ⟨m1, h1, _⟩ := updateDerivs_eval t bs m hn hne hnu hnv hi hu hv hcu hcv
      (by simp only [BindState.ctrl]; omega) (by simp only [BindState.du]; omega)
      (by simp only [BindState.dv]; omega)
    exact ⟨m1, h1⟩
  · intro r m1 h
    unfold _UpdateValues at h
    split at h
    · simp only [Except.ok.injEq, Prod.mk.injEq] at h; exact Or.inl h.1.symm
    · split at h
      · simp only [Except.ok.injEq, Prod.mk.injEq] at h; exact Or.inl h.1.symm
      · split at h
        · simp only [Except.ok.injEq, Prod.mk.injEq] at h; exact Or.inl h.1.symm
        · split at h
          · cases h
          · split at h
            · simp only [Except.ok.injEq, Prod.mk.injEq] at h; exact Or.inr h.1.symm
            · cases h
  · intro r m1 h
    unfold _UpdateDerivs at h
    split at h
    · simp only [Except.ok.injEq, Prod.mk.injEq] at h; exact Or.inl h.1.symm
    · split at h
      · simp only [Except.ok.injEq, Prod.mk.injEq] at h; exact Or.inl h.1.symm
      · split at h
        · simp only [Except.ok.injEq, Prod.mk.injEq] at h; exact Or.inl h.1.symm
        · split at h
          · cases h
          · split at h
            · simp only [Except.ok.injEq, Prod.mk.injEq] at h; exact Or.inr h.1.symm
            · cases h

/-- Witness of C5: the two-stencil table on packed, bound buffers returns 2 from both
passes. -/
theorem update_return_value_witness :
    (∃ m1, _UpdateValues twoStencilTable packedBind sampleMem = .ok (2, m1)) ∧
    (∃ m1, _UpdateDerivs twoStencilTable packedBind sampleMem = .ok (2, m1)) :=
  ⟨(update_return_value twoStencilTable packedBind sampleMem).1 (by decide) (by decide)
      (by decide) (by decide) (by decide) (by decide) (by decide) (by decide),
    (update_return_value twoStencilTable packedBind sampleMem).2.1 (by decide) (by decide)
      (by decide) (by decide) (by decide) (by decide) (by decide) (by decide) (by decide)
      (by decide) (by decide) (by decide)⟩

/-- C5 as stated fails: for the table with one empty stencil (`nstencils = 1 > 0`),
descriptors passing `CanEval` and non-null pointers, neither pass returns `nstencils`:
both throw `std::out_of_range` at `GetControlIndices().at(0)`. -/
theorem update_return_value_fails_on_empty_table :
    0 < emptyStencilTable.GetNumStencils ∧
    packedBind.controlDataDesc.CanEval packedBind.outputDataDesc = true ∧
    packedBind.controlDataDesc.CanEval packedBind.outputDuDesc = true ∧
    packedBind.controlDataDesc.CanEval packedBind.outputDvDesc = true ∧
    packedBind.controlData ≠ 0 ∧ packedBind.outputData ≠ 0 ∧
    packedBind.outputUDeriv ≠ 0 ∧ packedBind.outputVDeriv ≠ 0 ∧
    _UpdateValues emptyStencilTable packedBind sampleMem = .error .outOfRange ∧
    _UpdateDerivs emptyStencilTable packedBind sampleMem = .error .outOfRange ∧
    (¬ ∃ m1, _UpdateValues emptyStencilTable packedBind sampleMem
      = .ok (emptyStencilTable.GetNumStencils, m1)) ∧
    (¬ ∃ m1, _UpdateDerivs emptyStencilTable packedBind sampleMem
      = .ok (emptyStencilTable.GetNumStencils, m1)) := by
  have e1 : _UpdateValues emptyStencilTable packedBind sampleMem = .error .outOfRange := rfl
  have e2 : _UpdateDerivs emptyStencilTable packedBind sampleMem = .error .outOfRange := rfl
  refine ⟨by decide, by decide, by decide, by decide, by decide, by decide, by decide,
    by decide, e1, e2, ?_, ?_⟩
  · rintro ⟨m1, h⟩
    rw [e1] at h
    cases h
  · rintro ⟨m1, h⟩
    rw [e2] at h
    cases h

/-- C7 (as amended): identity stencils reproduce the control data.  For a table in which every
stencil has size 1 and every weight is 1 (with `Σ sizes == len(controlIndices) ==
len(weights)`), descriptors passing `CanEval` with `stride >= length`, non-null bound
pointers and output windows that do not overlap the control cells read, the call
returns `nstencils` and `out[i][k] == ctrl[controlIndices[i]][k]` for every output
vertex `i` and every `k < outDesc.length`. -/
theorem updateValues_identity_stencils {R : Type} [Semiring R]
    (t : FarStencilTables R) (bs : BindState) (m : Mem R)
    (hs : ∀ s ∈ t.sizes, s = 1) (hwt : ∀ w ∈ t.weights, w = 1)
    (hi : t.sizes.sum = t.controlIndices.length) (hw : t.sizes.sum = t.weights.length)
    (hce : bs.controlDataDesc.CanEval bs.outputDataDesc = true)
    (hst : bs.outputDataDesc.length ≤ bs.outputDataDesc.stride)
    (hc : bs.controlData ≠ 0) (ho : bs.outputData ≠ 0)
    (hno : NoOverlap t.controlIndices t.sizes.sum bs.ctrl bs.controlDataDesc.stride
      bs.outputDataDesc.length bs.out bs.outputDataDesc.stride bs.outputDataDesc.length
      t.GetNumStencils) :
    ∃ m1, _UpdateValues t bs m = .ok (t.GetNumStencils, m1) ∧
      ∀ i < t.GetNumStencils, ∀ k < bs.outputDataDesc.length,
        m1 (bs.outputData + bs.outputDataDesc.offset + i * bs.outputDataDesc.stride + k)
          = m (bs.controlData + bs.controlDataDesc.offset
              + t.controlIndices.getD i 0 * bs.controlDataDesc.stride + k) := by
  have hlen := sum_of_all_one t.sizes hs
  rcases Nat.eq_zero_or_pos t.GetNumStencils with h0 | hpos
  · refine ⟨m, ?_, ?_⟩
    · simp [_UpdateValues, h0]
    · intro i hlt; omega
  · have hpos1 : 0 < t.sizes.length := hpos
    have hne : t.controlIndices ≠ [] := by
      intro h; rw [h] at hi; simp at hi; omega
    have hnw : t.weights ≠ [] := by
      intro h; rw [h] at hw; simp at hw; omega
    obtain ⟨m1, h1, _, h3⟩ := updateValues_eval t bs m hpos hne hnw
      (by omega) (by omega) hce (by simp only [BindState.ctrl]; omega)
      (by simp only [BindState.out]; omega)
    refine ⟨m1, h1, ?_⟩
    intro i hlt k hk
    have hlt1 : i < t.sizes.length := hlt
    have := h3 hst hno i hlt k hk
    simp only [BindState.out] at this
    rw [this]
    unfold stencilSum
    rw [hs _ (getD_mem t.sizes i 0 hlt1), stencilBase_of_all_one t.sizes hs i (by omega),
      Finset.sum_range_one, Nat.add_zero,
      hwt _ (getD_mem t.weights i 0 (by omega)), mul_one]
    rfl

/-- Witness of C7: for the single quad with `controlIndices = [0,1,2,3]` the four
output positions are the four control positions. -/
theorem updateValues_identity_stencils_witness :
    ∃ m1, _UpdateValues quadTable packedBind sampleMem = .ok (4, m1) ∧
      ∀ i < 4, ∀ k < 3, m1 (200 + 0 + i * 3 + k)
        = sampleMem (100 + 0 + [0, 1, 2, 3].getD i 0 * 3 + k) :=
  updateValues_identity_stencils quadTable packedBind sampleMem (by decide) (by decide)
    (by decide) (by decide) (by decide) (by decide) (by decide) (by decide)
    (by unfold NoOverlap; decide)

/-- C7 as stated fails when the output buffer is bound on the control buffer.  For the
single quad with `controlIndices = [0,1,2,3]`, every size 1 and every weight 1,
compatible descriptors `(0, 1, 1)` and control positions `(100, 101, 102, 103)`, `memset`
clears each control cell before it is read and the four output positions are
`(0, 0, 0, 0)`.  For the table with `controlIndices = [1,2,0]` the output is
`(101, 102, 101)`: the last output vertex differs from the control vertex 0 as it was
before the call (100), and the first differs from the control vertex 1 as it is after
the call (102). -/
theorem updateValues_identity_fails_in_place :
    (∀ s ∈ quadTable.sizes, s = 1) ∧ (∀ w ∈ quadTable.weights, w = 1) ∧
    quadTable.controlIndices = [0, 1, 2, 3] ∧
    (∀ s ∈ rotateTable.sizes, s = 1) ∧ (∀ w ∈ rotateTable.weights, w = 1) ∧
    aliasedBind.controlDataDesc.CanEval aliasedBind.outputDataDesc = true ∧
    aliasedBind.controlData ≠ 0 ∧ aliasedBind.outputData = aliasedBind.controlData ∧
    [sampleMem 100, sampleMem 101, sampleMem 102, sampleMem 103] = [100, 101, 102, 103] ∧
    observe (_UpdateValues quadTable aliasedBind sampleMem) [100, 101, 102, 103]
      = some (4, [0, 0, 0, 0]) ∧
    (¬ ∃ m1, _UpdateValues quadTable aliasedBind sampleMem = .ok (4, m1) ∧
        ∀ i < 4, ∀ k < 1, m1 (100 + 0 + i * 1 + k)
          = sampleMem (100 + 0 + [0, 1, 2, 3].getD i 0 * 1 + k)) ∧
    observe (_UpdateValues rotateTable aliasedBind sampleMem) [100, 101, 102]
      = some (3, [101, 102, 101]) ∧
    (¬ ∃ m1, _UpdateValues rotateTable aliasedBind sampleMem = .ok (3, m1) ∧
        ∀ i < 3, ∀ k < 1, m1 (100 + 0 + i * 1 + k)
          = sampleMem (100 + 0 + [1, 2, 0].getD i 0 * 1 + k)) ∧
    (¬ ∃ m1, _UpdateValues rotateTable aliasedBind sampleMem = .ok (3, m1) ∧
        ∀ i < 3, ∀ k < 1, m1 (100 + 0 + i * 1 + k)
          = m1 (100 + 0 + [1, 2, 0].getD i 0 * 1 + k)) := by
  have hq : observe (_UpdateValues quadTable aliasedBind sampleMem) [100, 101, 102, 103]
      = some (4, [0, 0, 0, 0]) := by decide
  have hr : observe (_UpdateValues rotateTable aliasedBind sampleMem) [100, 101, 102]
      = some (3, [101, 102, 101]) := by decide
  refine ⟨by decide, by decide, rfl, by decide, by decide, by decide, by decide, by decide,
    by decide, hq, ?_, hr, ?_, ?_⟩
  · rintro ⟨m1, h, hall⟩
    rw [h] at hq
    simp only [observe, List.map, Option.some.injEq, Prod.mk.injEq, List.cons.injEq,
      and_true, true_and] at hq
    have h0 : m1 100 = sampleMem 100 := hall 0 (by decide) 0 (by decide)
    have e : sampleMem 100 = 100 := rfl
    omega
  · rintro ⟨m1, h, hall⟩
    rw [h] at hr
    simp only [observe, List.map, Option.some.injEq, Prod.mk.injEq, List.cons.injEq,
      and_true, true_and] at hr
    have h2 : m1 102 = sampleMem 100 := hall 2 (by decide) 0 (by decide)
    have e : sampleMem 100 = 100 := rfl
    omega
  · rintro ⟨m1, h, hall⟩
    rw [h] at hr
    simp only [observe, List.map, Option.some.injEq, Prod.mk.injEq, List.cons.injEq,
      and_true, true_and] at hr
    have h0 : m1 100 = m1 101 := hall 0 (by decide) 0 (by decide)
    omega

/-- C9 (as amended): for every table with non-empty flattened sequences and
`Σ sizes == len(controlIndices) == len(duWeights) == len(dvWeights)`, du and dv
descriptors passing `CanEval` with `duDesc.stride >= duDesc.length`, non-null bound
pointers, and non-overlapping buffers (neither the du windows nor the cells written
through the dv pointer overlap the control cells read, and the du windows do not overlap
the cells written through the dv pointer), `_UpdateDerivs` returns `nstencils` and
`du[i][k] == Σ_{j < sizes[i]} ctrl[controlIndices[base(i)+j]][k] * duWeights[base(i)+j]`
for every output vertex `i` and `k < duDesc.length`; `_UpdateValues` with
`weights := duWeights` and the output slot `:=` the du slot leaves the same values. -/
theorem updateDerivs_du_eq_sum {R : Type} [Semiring R] (t : FarStencilTables R)
    (bs : BindState) (m : Mem R)
    (hne : t.controlIndices ≠ [])
    (hi : t.sizes.sum = t.controlIndices.length) (hu : t.sizes.sum = t.duWeights.length)
    (hv : t.sizes.sum = t.dvWeights.length)
    (hcu : bs.controlDataDesc.CanEval bs.outputDuDesc = true)
    (hcv : bs.controlDataDesc.CanEval bs.outputDvDesc = true)
    (hst : bs.outputDuDesc.length ≤ bs.outputDuDesc.stride)
    (hc : bs.controlData ≠ 0) (hdu : bs.outputUDeriv ≠ 0) (hdv : bs.outputVDeriv ≠ 0)
    (hnou : NoOverlap t.controlIndices t.sizes.sum bs.ctrl bs.controlDataDesc.stride
      bs.outputDuDesc.length bs.du bs.outputDuDesc.stride bs.outputDuDesc.length
      t.GetNumStencils)
    (hnov : NoOverlap t.controlIndices t.sizes.sum bs.ctrl bs.controlDataDesc.stride
      bs.outputDuDesc.length bs.dv bs.outputDvDesc.stride
      (max bs.outputDuDesc.length bs.outputDvDesc.length) t.GetNumStencils)
    (hap : WindowsApart bs.du bs.outputDuDesc.stride bs.outputDuDesc.length bs.dv
      bs.outputDvDesc.stride (max bs.outputDuDesc.length bs.outputDvDesc.length)
      t.GetNumStencils) :
    ∃ m1, _UpdateDerivs t bs m = .ok (t.GetNumStencils, m1) ∧
      (∀ i < t.GetNumStencils, ∀ k < bs.outputDuDesc.length,
        m1 (bs.outputUDeriv + bs.outputDuDesc.offset + i * bs.outputDuDesc.stride + k)
          = stencilSum t.sizes t.controlIndices t.duWeights
              (bs.controlData + bs.controlDataDesc.offset) bs.controlDataDesc.stride m i k) ∧
      ∃ m2, _UpdateValues (duAsWeights t) (duAsOutput bs) m = .ok (t.GetNumStencils, m2) ∧
        ∀ i < t.GetNumStencils, ∀ k < bs.outputDuDesc.length,
          m2 (bs.outputUDeriv + bs.outputDuDesc.offset + i * bs.outputDuDesc.stride + k)
            = m1 (bs.outputUDeriv + bs.outputDuDesc.offset
                + i * bs.outputDuDesc.stride + k) := by
  have hpos : 0 < t.sizes.sum := by
    rw [hi]; exact List.length_pos.mpr hne
  have hnu : t.duWeights ≠ [] := by
    intro h; rw [h] at hu; simp at hu; omega
  have hnv : t.dvWeights ≠ [] := by
    intro h; rw [h] at hv; simp at hv; omega
  have hn := sizes_ne_nil_of_sum_pos _ hpos
  have hc1 : bs.ctrl ≠ 0 := by simp only [BindState.ctrl]; omega
  have hdu1 : bs.du ≠ 0 := by simp only [BindState.du]; omega
  have hdv1 : bs.dv ≠ 0 := by simp only [BindState.dv]; omega
  obtain ⟨m1, h1, _, h3⟩ := updateDerivs_eval t bs m hn hne hnu hnv
    (by omega) (by omega) (by omega) hcu hcv hc1 hdu1 hdv1
  obtain ⟨m2, g1, _, g3⟩ := updateValues_eval (duAsWeights t) (duAsOutput bs) m hn hne hnu
    (le_of_eq hi) (le_of_eq hu) hcu hc1 hdu1
  have hdu_cells := (h3 hst hnou hnov hap).1
  have hval_cells := g3 hst hnou
  refine ⟨m1, h1, ?_, m2, g1, ?_⟩
  · intro i hlt k hk
    exact hdu_cells i hlt k hk
  · intro i hlt k hk
    have a := hval_cells i hlt k hk
    have b := hdu_cells i hlt k hk
    simp only [BindState.du, BindState.ctrl] at b
    rw [b]
    exact a

/-- Witness of C9: one stencil, `controlIndices = [0,1]`, `duWeights = [1,-1]` and the
control points `(0,0,0)`, `(1,0,0)` give `du = (-1,0,0)`. -/
theorem updateDerivs_du_eq_sum_witness :
    (∃ m1, _UpdateDerivs derivTable packedBind twoPointMem = .ok (1, m1) ∧
      (∀ i < 1, ∀ k < 3, m1 (300 + 0 + i * 3 + k)
        = stencilSum [2] [0, 1] [1, -1] (100 + 0) 3 twoPointMem i k) ∧
      ∃ m2, _UpdateValues (duAsWeights derivTable) (duAsOutput packedBind) twoPointMem
          = .ok (1, m2) ∧
        ∀ i < 1, ∀ k < 3, m2 (300 + 0 + i * 3 + k) = m1 (300 + 0 + i * 3 + k)) ∧
    observe (_UpdateDerivs derivTable packedBind twoPointMem) [300, 301, 302]
      = some (1, [-1, 0, 0]) :=
  ⟨updateDerivs_du_eq_sum derivTable packedBind twoPointMem (by decide) (by decide)
    (by decide) (by decide) (by decide) (by decide) (by decide) (by decide) (by decide)
    (by decide) (by unfold NoOverlap; decide) (by unfold NoOverlap; decide)
    (by unfold WindowsApart; decide), by decide⟩

/-- C9 as stated fails: the table with one empty stencil is valid
(`Σ sizes == len(controlIndices) == len(duWeights) == len(dvWeights) == 0`), the
descriptors pass `CanEval`, and `_UpdateDerivs` throws `std::out_of_range` at
`GetControlIndices().at(0)` instead of writing the empty sum to `du`. -/
theorem updateDerivs_du_fails_on_empty_table :
    emptyStencilTable.sizes.sum = emptyStencilTable.controlIndices.length ∧
    emptyStencilTable.sizes.sum = emptyStencilTable.duWeights.length ∧
    emptyStencilTable.sizes.sum = emptyStencilTable.dvWeights.length ∧
    packedBind.controlDataDesc.CanEval packedBind.outputDuDesc = true ∧
    packedBind.controlDataDesc.CanEval packedBind.outputDvDesc = true ∧
    _UpdateDerivs emptyStencilTable packedBind sampleMem = .error .outOfRange ∧
    ¬ ∃ m1, _UpdateDerivs emptyStencilTable packedBind sampleMem
        = .ok (emptyStencilTable.GetNumStencils, m1) ∧
      ∀ i < emptyStencilTable.GetNumStencils, ∀ k < packedBind.outputDuDesc.length,
        m1 (packedBind.outputUDeriv + packedBind.outputDuDesc.offset
            + i * packedBind.outputDuDesc.stride + k)
          = stencilSum emptyStencilTable.sizes emptyStencilTable.controlIndices
              emptyStencilTable.duWeights
              (packedBind.controlData + packedBind.controlDataDesc.offset)
              packedBind.controlDataDesc.stride sampleMem i k := by
  have e : _UpdateDerivs emptyStencilTable packedBind sampleMem = .error .outOfRange := rfl
  refine ⟨by decide, by decide, by decide, by decide, by decide, e, ?_⟩
  rintro ⟨m1, h, _⟩
  rw [e] at h
  cases h

/-- C10 (code evaluated at the failing input): with `duDesc.length = 2` and
`dvDesc.length = 3`, both passing `CanEval`, `_UpdateDerivs` leaves 0 in component 2 of
every dv vertex, where the claimed sums are 105 and 216: the `k` loop that accumulates
into `dv` is bounded by `duDesc.length`. -/
theorem updateDerivs_dv_short_by_du_length :
    mixedLengthBind.controlDataDesc.CanEval mixedLengthBind.outputDuDesc = true ∧
    mixedLengthBind.controlDataDesc.CanEval mixedLengthBind.outputDvDesc = true ∧
    mixedLengthBind.outputDvDesc.length ≠ mixedLengthBind.outputDuDesc.length ∧
    observe (_UpdateDerivs twoStencilTable mixedLengthBind sampleMem)
      [400, 401, 402, 403, 404, 405] = some (2, [103, 104, 0, 212, 214, 0]) ∧
    (List.range 3).map (stencilSum twoStencilTable.sizes twoStencilTable.controlIndices
      twoStencilTable.dvWeights mixedLengthBind.ctrl mixedLengthBind.controlDataDesc.stride
      sampleMem 0) = [103, 104, 105] ∧
    (List.range 3).map (stencilSum twoStencilTable.sizes twoStencilTable.controlIndices
      twoStencilTable.dvWeights mixedLengthBind.ctrl mixedLengthBind.controlDataDesc.stride
      sampleMem 1) = [212, 214, 216] := by
  refine ⟨by decide, by decide, by decide, by decide, by decide, by decide⟩

/-! ## Claims C11 to C20 -/

/-- The `i` loop over a table whose flattened sequences hold `Σ sizes` entries leaves
zero in every cell of the window of every stencil without contribution, when the
windows do not overlap each other (`len ≤ ostride`); nothing is asked of the control
cells. -/
theorem vertexLoop_empty_zero {R : Type} [Semiring R] (sizes indices : List Nat)
    (weights : List R) (ctrl cstride len ostride out0 : Nat) (m : Mem R)
    (hi : sizes.sum ≤ indices.length) (hw : sizes.sum ≤ weights.length)
    (hlen : len ≤ ostride) :
    ∃ s1, forLoop (vertexBody sizes indices weights ctrl cstride len ostride) sizes.length 0
        ⟨out0, 0, m⟩ = .ok s1 ∧
      ∀ i < sizes.length, sizes.getD i 0 = 0 → ∀ k < len,
        s1.mem (out0 + i * ostride + k) = 0 := by
  have key := forLoop_total (vertexBody sizes indices weights ctrl cstride len ostride)
    (fun i s => s.out = out0 + i * ostride ∧ s.cursor = stencilBase sizes i ∧
      ∀ i1 < i, sizes.getD i1 0 = 0 → ∀ k < len, s.mem (out0 + i1 * ostride + k) = 0)
    sizes.length
    (by
      intro i s hlt hI
      obtain ⟨ho, hc, hz⟩ := hI
      have hsum := stencilBase_succ_le_sum sizes i hlt
      obtain ⟨s1, hs1, ho1, hc1, hfr1, hcl1⟩ :=
        stencilLoop_spec indices weights ctrl cstride len (sizes.getD i 0)
          (stencilBase sizes i) (out0 + i * ostride) (memset s.mem (out0 + i * ostride) len)
          (by omega) (by omega)
      refine ⟨⟨s1.out + ostride, s1.cursor, s1.mem⟩, ?_, ?_, ?_, ?_⟩
      · simp only [vertexBody, getElem?_eq_some_getD sizes i 0 hlt, ho, hc, hs1]
      · simp only [ho1, Nat.succ_mul]; omega
      · simp only [hc1, stencilBase_succ sizes i hlt]
      · intro i1 hi1 hsz k hk
        simp only []
        by_cases e : i1 = i
        · subst e
          rw [hcl1 (fun j hj => by omega) k hk, memset_inside _ _ _ _ (by omega), hsz]
          simp
        · have hlt1 : i1 < i := by omega
          have hmul : (i1 + 1) * ostride ≤ i * ostride := Nat.mul_le_mul_right _ (by omega)
          rw [Nat.succ_mul] at hmul
          rw [hfr1 _ (by omega), memset_outside _ _ _ _ (by omega)]
          exact hz i1 hlt1 hsz k hk)
    sizes.length 0 ⟨out0, 0, m⟩ (by omega)
    ⟨by simp, by simp [stencilBase_zero], fun _ h => absurd h (Nat.not_lt_zero _)⟩
  obtain ⟨s1, h1, _, _, h4⟩ := key
  simp only [Nat.zero_add] at h4
  exact ⟨s1, h1, h4⟩

/-- C11 (as amended): an empty stencil yields zero.  For every stencil table whose
flattened `controlIndices` and `weights` are non-empty and hold at least `Σ sizes`
entries (so `nstencils > 0` and not every stencil is empty), descriptors passing
`CanEval` with `outDesc.stride >= outDesc.length` and non-null bound pointers,
`_UpdateValues` returns `nstencils` and every output vertex `i` with `sizes[i] == 0` has
all of its `outDesc.length` output elements equal to 0. -/
theorem updateValues_empty_stencil_zero {R : Type} [Semiring R] (t : FarStencilTables R)
    (bs : BindState) (m : Mem R)
    (hne : t.controlIndices ≠ []) (hnw : t.weights ≠ [])
    (hi : t.sizes.sum ≤ t.controlIndices.length) (hw : t.sizes.sum ≤ t.weights.length)
    (hce : bs.controlDataDesc.CanEval bs.outputDataDesc = true)
    (hst : bs.outputDataDesc.length ≤ bs.outputDataDesc.stride)
    (hc : bs.controlData ≠ 0) (ho : bs.outputData ≠ 0)
    (i : Nat) (hlt : i < t.GetNumStencils) (hsz : t.sizes.getD i 0 = 0) :
    ∃ m1, _UpdateValues t bs m = .ok (t.GetNumStencils, m1) ∧
      ∀ k < bs.outputDataDesc.length,
        m1 (bs.outputData + bs.outputDataDesc.offset + i * bs.outputDataDesc.stride + k)
          = 0 := by
  obtain ⟨s1, h1, h2⟩ := vertexLoop_empty_zero t.sizes t.controlIndices t.weights bs.ctrl
    bs.controlDataDesc.stride bs.outputDataDesc.length bs.outputDataDesc.stride bs.out m
    hi hw hst
  have hn0 : t.GetNumStencils ≠ 0 := by omega
  have hs : t.sizes ≠ [] := by
    intro h; simp [FarStencilTables.GetNumStencils, h] at hn0
  have hc1 : bs.ctrl ≠ 0 := by simp only [BindState.ctrl]; omega
  have ho1 : bs.out ≠ 0 := by simp only [BindState.out]; omega
  refine ⟨s1.mem, ?_, ?_⟩
  · simp only [_UpdateValues, hn0, hce, hc1, ho1, List.isEmpty_iff, hs, hne, hnw, if_false,
      or_self, Bool.true_eq_false]
    simp only [FarStencilTables.GetNumStencils] at h1 ⊢
    rw [h1]
  · intro k hk
    have := h2 i hlt hsz k hk
    simp only [BindState.out] at this
    exact this

/-- Witness of C11: in the table with sizes `[2, 0, 1]` the middle output vertex is
`(0, 0, 0)` and the call returns 3. -/
theorem updateValues_empty_stencil_zero_witness :
    (∃ m1, _UpdateValues gapTable packedBind sampleMem = .ok (3, m1) ∧
      ∀ k < 3, m1 (200 + 0 + 1 * 3 + k) = 0) ∧
    observe (_UpdateValues gapTable packedBind sampleMem)
      [200, 201, 202, 203, 204, 205, 206, 207, 208]
      = some (3, [203, 205, 207, 0, 0, 0, 106, 107, 108]) :=
  ⟨updateValues_empty_stencil_zero gapTable packedBind sampleMem (by decide) (by decide)
    (by decide) (by decide) (by decide) (by decide) (by decide) (by decide) 1 (by decide)
    (by decide), by decide⟩

/-- C11 as stated fails for the table whose stencils are all empty: with `sizes = [0]`
and empty `controlIndices` and `weights`, compatible descriptors and non-null bound
pointers, `_UpdateValues` throws `std::out_of_range` at `GetControlIndices().at(0)`; it
neither returns `nstencils` nor clears the output vertex (cell 200 still holds 200). -/
theorem updateValues_all_empty_table_throws :
    0 < emptyStencilTable.GetNumStencils ∧
    emptyStencilTable.sizes.getD 0 0 = 0 ∧
    emptyStencilTable.controlIndices = [] ∧ emptyStencilTable.weights = [] ∧
    packedBind.controlDataDesc.CanEval packedBind.outputDataDesc = true ∧
    packedBind.controlData ≠ 0 ∧ packedBind.outputData ≠ 0 ∧
    _UpdateValues emptyStencilTable packedBind sampleMem = .error .outOfRange ∧
    ¬ ∃ m1, _UpdateValues emptyStencilTable packedBind sampleMem
        = .ok (emptyStencilTable.GetNumStencils, m1) ∧
      ∀ k < packedBind.outputDataDesc.length,
        m1 (packedBind.outputData + packedBind.outputDataDesc.offset
          + 0 * packedBind.outputDataDesc.stride + k) = 0 := by
  have e : _UpdateValues emptyStencilTable packedBind sampleMem = .error .outOfRange := rfl
  refine ⟨by decide, by decide, rfl, rfl, by decide, by decide, by decide, e, ?_⟩
  rintro ⟨m1, h, _⟩
  rw [e] at h
  cases h

/-- C12: Unbind postcondition.  After `Unbind` the four bound pointers are null, the four
descriptors are the empty descriptor `(0, 0, 0)`, the stencil table is the one before,
`controlDesc.CanEval(d)` is false for each of the three output descriptors, and a
second `Unbind` changes nothing. -/
theorem unbind_postcondition {R : Type} (ctx : OsdCpuEvalStencilsContext R) :
    ctx.Unbind.GetControlData = 0 ∧ ctx.Unbind.GetOutputData = 0 ∧
    ctx.Unbind.GetOutputUDerivData = 0 ∧ ctx.Unbind.GetOutputVDerivData = 0 ∧
    ctx.Unbind.GetControlDataDescriptor = ⟨0, 0, 0⟩ ∧
    ctx.Unbind.GetOutputDataDescriptor = ⟨0, 0, 0⟩ ∧
    ctx.Unbind.GetDuDataDescriptor = ⟨0, 0, 0⟩ ∧
    ctx.Unbind.GetDvDataDescriptor = ⟨0, 0, 0⟩ ∧
    ctx.Unbind.GetStencilTables = ctx.GetStencilTables ∧
    ctx.Unbind.GetControlDataDescriptor.CanEval ctx.Unbind.GetOutputDataDescriptor = false ∧
    ctx.Unbind.GetControlDataDescriptor.CanEval ctx.Unbind.GetDuDataDescriptor = false ∧
    ctx.Unbind.GetControlDataDescriptor.CanEval ctx.Unbind.GetDvDataDescriptor = false ∧
    ctx.Unbind.Unbind = ctx.Unbind := by
  refine ⟨rfl, rfl, rfl, rfl, rfl, rfl, rfl, rfl, rfl, rfl, rfl, rfl, rfl⟩

/-- C14: zero-length descriptors never evaluate.  When the control descriptor or the
output descriptor has `length == 0`, `control.CanEval(output)` is false, and for every
stencil table `_UpdateValues` returns 0 and leaves the heap unchanged. -/
theorem canEval_false_of_zero_length {R : Type} [Semiring R] (t : FarStencilTables R)
    (bs : BindState) (m : Mem R)
    (h : bs.controlDataDesc.length = 0 ∨ bs.outputDataDesc.length = 0) :
    bs.controlDataDesc.CanEval bs.outputDataDesc = false ∧
    _UpdateValues t bs m = .ok (0, m) := by
  have hce : bs.controlDataDesc.CanEval bs.outputDataDesc = false := by
    unfold OsdVertexBufferDescriptor.CanEval
    rcases h with h | h <;> simp [h]
  refine ⟨hce, ?_⟩
  simp [_UpdateValues, hce]

/-- Witness of C14: an empty control descriptor, and an empty output descriptor. -/
theorem canEval_false_of_zero_length_witness :
    (emptyControlBind.controlDataDesc.CanEval emptyControlBind.outputDataDesc = false ∧
      _UpdateValues twoStencilTable emptyControlBind sampleMem = .ok (0, sampleMem)) ∧
    (emptyOutputBind.controlDataDesc.CanEval emptyOutputBind.outputDataDesc = false ∧
      _UpdateValues twoStencilTable emptyOutputBind sampleMem = .ok (0, sampleMem)) :=
  ⟨canEval_false_of_zero_length twoStencilTable emptyControlBind sampleMem
      (Or.inl (by decide)),
    canEval_false_of_zero_length twoStencilTable emptyOutputBind sampleMem
      (Or.inr (by decide))⟩

/-- C18: binding assigns exactly one slot.  `BindControlData(desc, buf)` makes
`GetControlData` the CPU pointer of `buf` (null when `buf` is null) and
`GetControlDataDescriptor` equal to `desc` also when `buf` is null, and leaves the
output, du and dv pointers and descriptors as they were; `BindOutputData` changes only
the output slot; `BindOutputDerivData` changes only the du and dv slots; and no `Bind*`
or `Unbind` changes the value of `GetStencilTables`. -/
theorem bind_assigns_one_slot {R : Type} (ctx : OsdCpuEvalStencilsContext R)
    (desc desc2 : OsdVertexBufferDescriptor) (buf buf2 : Option OsdCpuVertexBuffer) :
    ((ctx.BindControlData desc buf).GetControlData = bindPointer buf ∧
      (ctx.BindControlData desc none).GetControlData = 0 ∧
      (∀ b : OsdCpuVertexBuffer,
        (ctx.BindControlData desc (some b)).GetControlData = b.BindCpuBuffer) ∧
      (ctx.BindControlData desc buf).GetControlDataDescriptor = desc ∧
      (ctx.BindControlData desc buf).GetOutputData = ctx.GetOutputData ∧
      (ctx.BindControlData desc buf).GetOutputUDerivData = ctx.GetOutputUDerivData ∧
      (ctx.BindControlData desc buf).GetOutputVDerivData = ctx.GetOutputVDerivData ∧
      (ctx.BindControlData desc buf).GetOutputDataDescriptor = ctx.GetOutputDataDescriptor ∧
      (ctx.BindControlData desc buf).GetDuDataDescriptor = ctx.GetDuDataDescriptor ∧
      (ctx.BindControlData desc buf).GetDvDataDescriptor = ctx.GetDvDataDescriptor) ∧
    ((ctx.BindOutputData desc buf).GetOutputData = bindPointer buf ∧
      (ctx.BindOutputData desc buf).GetOutputDataDescriptor = desc ∧
      (ctx.BindOutputData desc buf).GetControlData = ctx.GetControlData ∧
      (ctx.BindOutputData desc buf).GetOutputUDerivData = ctx.GetOutputUDerivData ∧
      (ctx.BindOutputData desc buf).GetOutputVDerivData = ctx.GetOutputVDerivData ∧
      (ctx.BindOutputData desc buf).GetControlDataDescriptor = ctx.GetControlDataDescriptor ∧
      (ctx.BindOutputData desc buf).GetDuDataDescriptor = ctx.GetDuDataDescriptor ∧
      (ctx.BindOutputData desc buf).GetDvDataDescriptor = ctx.GetDvDataDescriptor) ∧
    ((ctx.BindOutputDerivData desc buf desc2 buf2).GetOutputUDerivData = bindPointer buf ∧
      (ctx.BindOutputDerivData desc buf desc2 buf2).GetOutputVDerivData = bindPointer buf2 ∧
      (ctx.BindOutputDerivData desc buf desc2 buf2).GetDuDataDescriptor = desc ∧
      (ctx.BindOutputDerivData desc buf desc2 buf2).GetDvDataDescriptor = desc2 ∧
      (ctx.BindOutputDerivData desc buf desc2 buf2).GetControlData = ctx.GetControlData ∧
      (ctx.BindOutputDerivData desc buf desc2 buf2).GetOutputData = ctx.GetOutputData ∧
      (ctx.BindOutputDerivData desc buf desc2 buf2).GetControlDataDescriptor
        = ctx.GetControlDataDescriptor ∧
      (ctx.BindOutputDerivData desc buf desc2 buf2).GetOutputDataDescriptor
        = ctx.GetOutputDataDescriptor) ∧
    ((ctx.BindControlData desc buf).GetStencilTables = ctx.GetStencilTables ∧
      (ctx.BindOutputData desc buf).GetStencilTables = ctx.GetStencilTables ∧
      (ctx.BindOutputDerivData desc buf desc2 buf2).GetStencilTables = ctx.GetStencilTables ∧
      ctx.Unbind.GetStencilTables = ctx.GetStencilTables) := by
  refine ⟨⟨rfl, rfl, fun _ => rfl, rfl, rfl, rfl, rfl, rfl, rfl, rfl⟩,
    ⟨rfl, rfl, rfl, rfl, rfl, rfl, rfl, rfl⟩, ⟨rfl, rfl, rfl, rfl, rfl, rfl, rfl, rfl⟩,
    ⟨rfl, rfl, rfl, rfl⟩⟩

theorem pushBackLoop_eq {α : Type} (a : Nat → α) (n i : Nat) (v : List α) :
    pushBackLoop a n i v = v ++ (List.range' i n).map a := by
  induction n generalizing i v with
  | zero => simp [pushBackLoop]
  | succ n ih => simp [pushBackLoop, ih, List.range'_succ]

theorem pushBackLoop_zero_eq {α : Type} (a : Nat → α) (n : Nat) (v : List α) :
    pushBackLoop a n 0 v = v ++ (List.range n).map a := by
  rw [pushBackLoop_eq, List.range_eq_range']

/-- C13: `AddFace` appends exactly one face.  For every topology and every face with
`numVertsInFace >= 0`, after `AddFace(numVertsInFace, verts)` `nverts` is the old
`nverts` followed by `numVertsInFace`, `indices` is the old `indices` followed by
`verts[0 .. numVertsInFace)` in order, every other member (`name`, `numVertices`,
`refinementLevel`, the attribute names and data, `tagData`) is unchanged, and
`Σ nverts == len(indices)` is preserved. -/
theorem addFace_appends_one_face {R : Type} (topo : OsdUtilSubdivTopology R)
    (numVertsInFace : Int) (verts : Nat → Int) (h : 0 ≤ numVertsInFace) :
    (topo.AddFace numVertsInFace verts).nverts = topo.nverts ++ [numVertsInFace] ∧
    (topo.AddFace numVertsInFace verts).indices
      = topo.indices ++ (List.range numVertsInFace.toNat).map verts ∧
    ((topo.AddFace numVertsInFace verts).indices.length : Int)
      = topo.indices.length + numVertsInFace ∧
    (topo.AddFace numVertsInFace verts).name = topo.name ∧
    (topo.AddFace numVertsInFace verts).numVertices = topo.numVertices ∧
    (topo.AddFace numVertsInFace verts).refinementLevel = topo.refinementLevel ∧
    (topo.AddFace numVertsInFace verts).vvNames = topo.vvNames ∧
    (topo.AddFace numVertsInFace verts).fvNames = topo.fvNames ∧
    (topo.AddFace numVertsInFace verts).fvData = topo.fvData ∧
    (topo.AddFace numVertsInFace verts).tagData = topo.tagData ∧
    (topo.nverts.sum = (topo.indices.length : Int) →
      (topo.AddFace numVertsInFace verts).nverts.sum
        = ((topo.AddFace numVertsInFace verts).indices.length : Int)) := by
  have hidx : (topo.AddFace numVertsInFace verts).indices
      = topo.indices ++ (List.range numVertsInFace.toNat).map verts :=
    pushBackLoop_zero_eq verts numVertsInFace.toNat topo.indices
  have hlen : ((topo.AddFace numVertsInFace verts).indices.length : Int)
      = topo.indices.length + numVertsInFace := by
    rw [hidx]
    simp only [List.length_append, List.length_map, List.length_range, Nat.cast_add]
    rw [Int.toNat_of_nonneg h]
  refine ⟨rfl, hidx, hlen, rfl, rfl, rfl, rfl, rfl, rfl, rfl, ?_⟩
  intro hinv
  rw [hlen]
  show (topo.nverts ++ [numVertsInFace]).sum = _
  simp only [List.sum_append, List.sum_cons, List.sum_nil, add_zero]
  rw [hinv]

/-- Witness of C13: adding a triangle `(0, 1, 2)` to the quad topology. -/
theorem addFace_appends_one_face_witness :
    (quadTopology.AddFace 3 countingArray).nverts = [4, 3] ∧
    (quadTopology.AddFace 3 countingArray).indices = [0, 1, 2, 3, 0, 1, 2] ∧
    (quadTopology.AddFace 3 countingArray).nverts.sum
      = ((quadTopology.AddFace 3 countingArray).indices.length : Int) :=
  ⟨(addFace_appends_one_face quadTopology 3 countingArray (by decide)).1,
    (addFace_appends_one_face quadTopology 3 countingArray (by decide)).2.1,
    (addFace_appends_one_face quadTopology 3 countingArray (by decide)).2.2.2.2.2.2.2.2.2.2
      (by decide)⟩

/-- C15: `AddCrease` argument contract.  The call succeeds when `numSharpness == 1` or
`numSharpness == numIndices`; it then appends one `CREASE` tag, the triple
`(numIndices, numSharpness, 0)` to `numArgs`, the `numIndices` values
`indices[0 .. numIndices)` to `intArgs` and the `numSharpness` values
`sharpness[0 .. numSharpness)` to `floatArgs`, and leaves `stringArgs` alone.  Otherwise
it returns false and `tags`, `numArgs`, `intArgs`, `floatArgs` and `stringArgs` are
unchanged.  With `numIndices = 4`: `numSharpness = 1` records `numArgs = (4,1,0)`, and
`numSharpness = 2` fails and appends nothing. -/
theorem addCrease_contract {R : Type} (td : OsdUtilTagData R) (indices : Nat → Int)
    (numIndices : Nat) (sharpness : Nat → R) (numSharpness : Nat) :
    (numSharpness = 1 ∨ numSharpness = numIndices →
      (td.AddCrease indices numIndices sharpness numSharpness).1 = true ∧
      (td.AddCrease indices numIndices sharpness numSharpness).2.tags
        = td.tags ++ [TagType.CREASE] ∧
      (td.AddCrease indices numIndices sharpness numSharpness).2.numArgs
        = td.numArgs ++ [(numIndices : Int), (numSharpness : Int), 0] ∧
      (td.AddCrease indices numIndices sharpness numSharpness).2.intArgs
        = td.intArgs ++ (List.range numIndices).map indices ∧
      (td.AddCrease indices numIndices sharpness numSharpness).2.floatArgs
        = td.floatArgs ++ (List.range numSharpness).map sharpness ∧
      (td.AddCrease indices numIndices sharpness numSharpness).2.intArgs.length
        = td.intArgs.length + numIndices ∧
      (td.AddCrease indices numIndices sharpness numSharpness).2.floatArgs.length
        = td.floatArgs.length + numSharpness ∧
      (td.AddCrease indices numIndices sharpness numSharpness).2.stringArgs
        = td.stringArgs) ∧
    (¬ (numSharpness = 1 ∨ numSharpness = numIndices) →
      td.AddCrease indices numIndices sharpness numSharpness = (false, td)) ∧
    ((td.AddCrease indices 4 sharpness 1).1 = true ∧
      (td.AddCrease indices 4 sharpness 1).2.numArgs = td.numArgs ++ [4, 1, 0]) ∧
    td.AddCrease indices 4 sharpness 2 = (false, td) := by
  refine ⟨?_, ?_, ⟨rfl, rfl⟩, rfl⟩
  · intro h
    have hi : (td.AddCrease indices numIndices sharpness numSharpness).2.intArgs
        = td.intArgs ++ (List.range numIndices).map indices := by
      simp only [OsdUtilTagData.AddCrease, if_pos h]
      exact pushBackLoop_zero_eq indices numIndices td.intArgs
    have hf : (td.AddCrease indices numIndices sharpness numSharpness).2.floatArgs
        = td.floatArgs ++ (List.range numSharpness).map sharpness := by
      simp only [OsdUtilTagData.AddCrease, if_pos h]
      exact pushBackLoop_zero_eq sharpness numSharpness td.floatArgs
    refine ⟨?_, ?_, ?_, hi, hf, ?_, ?_, ?_⟩
    · simp only [OsdUtilTagData.AddCrease, if_pos h]
    · simp only [OsdUtilTagData.AddCrease, if_pos h]
    · simp only [OsdUtilTagData.AddCrease, if_pos h]
    · rw [hi]; simp
    · rw [hf]; simp
    · simp only [OsdUtilTagData.AddCrease, if_pos h]
  · intro h
    simp only [OsdUtilTagData.AddCrease, if_neg h]

/-- Witness of C15: on the empty tag data, four indices with one sharpness are recorded
as `numArgs = (4,1,0)`, and four indices with two sharpness values are refused. -/
theorem addCrease_contract_witness :
    (((emptyTopology.tagData.AddCrease countingArray 4 sharpnessArray 1).1 = true ∧
      (emptyTopology.tagData.AddCrease countingArray 4 sharpnessArray 1).2.tags
        = [TagType.CREASE] ∧
      (emptyTopology.tagData.AddCrease countingArray 4 sharpnessArray 1).2.numArgs
        = [4, 1, 0] ∧
      (emptyTopology.tagData.AddCrease countingArray 4 sharpnessArray 1).2.intArgs
        = [0, 1, 2, 3] ∧
      (emptyTopology.tagData.AddCrease countingArray 4 sharpnessArray 1).2.floatArgs = [2]) ∧
    emptyTopology.tagData.AddCrease countingArray 4 sharpnessArray 2
      = (false, emptyTopology.tagData)) :=
  ⟨⟨((addCrease_contract emptyTopology.tagData countingArray 4 sharpnessArray 1).1
        (Or.inl rfl)).1,
      ((addCrease_contract emptyTopology.tagData countingArray 4 sharpnessArray 1).1
        (Or.inl rfl)).2.1,
      ((addCrease_contract emptyTopology.tagData countingArray 4 sharpnessArray 1).1
        (Or.inl rfl)).2.2.1,
      ((addCrease_contract emptyTopology.tagData countingArray 4 sharpnessArray 1).1
        (Or.inl rfl)).2.2.2.1,
      ((addCrease_contract emptyTopology.tagData countingArray 4 sharpnessArray 1).1
        (Or.inl rfl)).2.2.2.2.1⟩,
    (addCrease_contract emptyTopology.tagData countingArray 4 sharpnessArray 2).2.1
      (by decide)⟩

/-- C16: `Initialize` and `IsValid` agree.  For every input with
`Σ nverts == indicesLen` and every index in `[0, numVertices)`, `Initialize` returns
true, stores the arrays, and a following `IsValid` returns true; and for every topology
in which some entry of `indices` is `>= numVertices`, `IsValid` returns false with a
non-empty message (it returns only the flag and the message: the topology is not
changed). -/
theorem initialize_isValid_agree {R : Type} (topo : OsdUtilSubdivTopology R)
    (numVertices : Int) (nverts indices : List Int) (levels : Int) :
    (nverts.sum = (indices.length : Int) →
      (∀ x ∈ indices, 0 ≤ x ∧ x < numVertices) →
      (topo.Initialize numVertices nverts indices levels).1 = true ∧
      (topo.Initialize numVertices nverts indices levels).2.2.numVertices = numVertices ∧
      (topo.Initialize numVertices nverts indices levels).2.2.nverts = nverts ∧
      (topo.Initialize numVertices nverts indices levels).2.2.indices = indices ∧
      (topo.Initialize numVertices nverts indices levels).2.2.refinementLevel = levels ∧
      (topo.Initialize numVertices nverts indices levels).2.2.IsValid.1 = true) ∧
    ((∃ x ∈ topo.indices, topo.numVertices ≤ x) →
      topo.IsValid.1 = false ∧ topo.IsValid.2 ≠ "") := by
  constructor
  · intro hsum hrange
    have hinit : topo.Initialize numVertices nverts indices levels
        = (true, "", ⟨topo.name, numVertices, levels, indices, nverts,
            topo.vvNames, topo.fvNames, topo.fvData, topo.tagData⟩) := by
      simp only [OsdUtilSubdivTopology.Initialize, hsum, ne_eq, not_true_eq_false, if_false]
    rw [hinit]
    refine ⟨rfl, rfl, rfl, rfl, rfl, ?_⟩
    have hall : indices.all (fun x => decide (0 ≤ x ∧ x < numVertices)) = true := by
      rw [List.all_eq_true]
      intro x hx
      exact decide_eq_true (hrange x hx)
    simp only [OsdUtilSubdivTopology.IsValid, hall, hsum, ne_eq, not_true_eq_false,
      Bool.true_eq_false, if_false]
  · rintro ⟨x, hx, hbad⟩
    have hall : topo.indices.all (fun x => decide (0 ≤ x ∧ x < topo.numVertices)) = false := by
      cases h : topo.indices.all (fun x => decide (0 ≤ x ∧ x < topo.numVertices)) with
      | false => rfl
      | true =>
        rw [List.all_eq_true] at h
        have := of_decide_eq_true (h x hx)
        omega
    simp only [OsdUtilSubdivTopology.IsValid, hall, if_true]
    exact ⟨trivial, by decide⟩

/-- Witness of C16: the quad is accepted by `Initialize` and then valid; with its last
index replaced by `numVertices` it is invalid with a message. -/
theorem initialize_isValid_agree_witness :
    ((emptyTopology.Initialize 4 [4] [0, 1, 2, 3] 1).1 = true ∧
      (emptyTopology.Initialize 4 [4] [0, 1, 2, 3] 1).2.2.numVertices = 4 ∧
      (emptyTopology.Initialize 4 [4] [0, 1, 2, 3] 1).2.2.nverts = [4] ∧
      (emptyTopology.Initialize 4 [4] [0, 1, 2, 3] 1).2.2.indices = [0, 1, 2, 3] ∧
      (emptyTopology.Initialize 4 [4] [0, 1, 2, 3] 1).2.2.refinementLevel = 1 ∧
      (emptyTopology.Initialize 4 [4] [0, 1, 2, 3] 1).2.2.IsValid.1 = true) ∧
    (tamperedTopology.IsValid.1 = false ∧ tamperedTopology.IsValid.2 ≠ "") :=
  ⟨(initialize_isValid_agree emptyTopology 4 [4] [0, 1, 2, 3] 1).1 (by decide) (by decide),
    (initialize_isValid_agree tamperedTopology 4 [4] [0, 1, 2, 3] 1).2
      ⟨4, by decide, by decide⟩⟩

/-- C19 (as amended): write frame of the position pass.  For every `_UpdateValues` call
that returns, every cell that is not at a position
`outDesc.offset + i*outDesc.stride + k` with `i` in `[0,nstencils)` and `k` in
`[0,outDesc.length)` of the output buffer keeps its value: in particular the cells
before `outDesc.offset`, the cells in the gap between length and stride of each vertex,
the cells past the last stencil (for `stride >= length`), and every control cell that
is not in an output window, hence all control cells read when the output windows do not
overlap them.  (The stencil table is passed by value and is not part of the result.) -/
theorem updateValues_write_frame {R : Type} [Semiring R] (t : FarStencilTables R)
    (bs : BindState) (m m1 : Mem R) (r : Nat) (h : _UpdateValues t bs m = .ok (r, m1)) :
    (∀ x, ¬ InWindows (bs.outputData + bs.outputDataDesc.offset) bs.outputDataDesc.stride
        bs.outputDataDesc.length t.GetNumStencils x → m1 x = m x) ∧
    (∀ x, x < bs.outputData + bs.outputDataDesc.offset → m1 x = m x) ∧
    (∀ i < t.GetNumStencils, ∀ k, bs.outputDataDesc.length ≤ k → k < bs.outputDataDesc.stride →
      m1 (bs.outputData + bs.outputDataDesc.offset + i * bs.outputDataDesc.stride + k)
        = m (bs.outputData + bs.outputDataDesc.offset + i * bs.outputDataDesc.stride + k)) ∧
    (bs.outputDataDesc.length ≤ bs.outputDataDesc.stride →
      ∀ x, bs.outputData + bs.outputDataDesc.offset
          + t.GetNumStencils * bs.outputDataDesc.stride ≤ x → m1 x = m x) ∧
    (NoOverlap t.controlIndices t.sizes.sum bs.ctrl bs.controlDataDesc.stride
        bs.outputDataDesc.length bs.out bs.outputDataDesc.stride bs.outputDataDesc.length
        t.GetNumStencils →
      ∀ x, ControlCells t.controlIndices t.sizes.sum bs.ctrl bs.controlDataDesc.stride
        bs.outputDataDesc.length x → m1 x = m x) := by
  have hfr : ∀ x, ¬ InWindows bs.out bs.outputDataDesc.stride bs.outputDataDesc.length
      t.GetNumStencils x → m1 x = m x := fun x hx =>
    updateValues_frame t bs m m1 r h x ((not_inWindows_iff _ _ _ _ _).mp hx)
  refine ⟨hfr, ?_, ?_, ?_, ?_⟩
  · intro x hx
    apply hfr
    rintro ⟨i, _, h1, _⟩
    simp only [BindState.out] at h1
    omega
  · intro i hi k hk1 hk2
    apply hfr
    rintro ⟨i1, _, h1, h2⟩
    simp only [BindState.out] at h1 h2
    rcases Nat.lt_trichotomy i1 i with hlt | heq | hgt
    · have hmul : (i1 + 1) * bs.outputDataDesc.stride ≤ i * bs.outputDataDesc.stride :=
        Nat.mul_le_mul_right _ (by omega)
      rw [Nat.succ_mul] at hmul
      omega
    · subst heq; omega
    · have hmul : (i + 1) * bs.outputDataDesc.stride ≤ i1 * bs.outputDataDesc.stride :=
        Nat.mul_le_mul_right _ (by omega)
      rw [Nat.succ_mul] at hmul
      omega
  · intro hlen x hx
    apply hfr
    rintro ⟨i1, hi1, h1, h2⟩
    simp only [BindState.out] at h1 h2
    have hmul : (i1 + 1) * bs.outputDataDesc.stride
        ≤ t.GetNumStencils * bs.outputDataDesc.stride :=
      Nat.mul_le_mul_right _ (by omega)
    rw [Nat.succ_mul] at hmul
    omega
  · intro hno x hx
    exact hfr x (controlCells_not_inWindows _ _ _ _ _ _ _ _ _ _ hno hx)

/-- Witness of C19: a successful call on the interleaved output layout
`(offset 1, length 2, stride 4)`; only the cells 201, 202, 205 and 206 change. -/
theorem updateValues_write_frame_witness :
    observe (_UpdateValues twoStencilTable interleavedBind sampleMem)
      [200, 201, 202, 203, 204, 205, 206, 207, 208]
      = some (2, [200, 514, 519, 203, 204, 535, 540, 207, 208]) ∧
    (∀ x, x < 200 + 1 →
      heapAfter (_UpdateValues twoStencilTable interleavedBind sampleMem) x = sampleMem x) ∧
    (∀ i < 2, ∀ k, 2 ≤ k → k < 4 →
      heapAfter (_UpdateValues twoStencilTable interleavedBind sampleMem) (200 + 1 + i * 4 + k)
        = sampleMem (200 + 1 + i * 4 + k)) ∧
    (∀ x, 200 + 1 + 2 * 4 ≤ x →
      heapAfter (_UpdateValues twoStencilTable interleavedBind sampleMem) x = sampleMem x) :=
  ⟨by decide,
    (updateValues_write_frame twoStencilTable interleavedBind sampleMem
      (heapAfter (_UpdateValues twoStencilTable interleavedBind sampleMem)) 2 rfl).2.1,
    (updateValues_write_frame twoStencilTable interleavedBind sampleMem
      (heapAfter (_UpdateValues twoStencilTable interleavedBind sampleMem)) 2 rfl).2.2.1,
    (updateValues_write_frame twoStencilTable interleavedBind sampleMem
      (heapAfter (_UpdateValues twoStencilTable interleavedBind sampleMem)) 2 rfl).2.2.2.1
      (by decide)⟩

/-- C19 as stated fails for the clause on the control buffer: the call on a bind state
whose output buffer is the control buffer is successful (it returns `nstencils = 2`)
and changes the control cells 100 and 101 from `(100, 101)` to `(202, 404)`. -/
theorem updateValues_modifies_aliased_control :
    ControlCells swapTable.controlIndices swapTable.sizes.sum aliasedBind.ctrl
      aliasedBind.controlDataDesc.stride aliasedBind.outputDataDesc.length 100 ∧
    ControlCells swapTable.controlIndices swapTable.sizes.sum aliasedBind.ctrl
      aliasedBind.controlDataDesc.stride aliasedBind.outputDataDesc.length 101 ∧
    [sampleMem 100, sampleMem 101] = [100, 101] ∧
    observe (_UpdateValues swapTable aliasedBind sampleMem) [100, 101]
      = some (swapTable.GetNumStencils, [202, 404]) := by
  refine ⟨⟨1, by decide, 0, by decide, by decide⟩, ⟨0, by decide, 0, by decide, by decide⟩,
    by decide, by decide⟩

/-- C20 (code evaluated at the failing input): with separate buffers, a du descriptor of
length 3 and a dv descriptor `(offset 0, length 2, stride 3)`, both passing `CanEval`,
the successful `_UpdateDerivs` call changes the cells 402 and 405 of the dv buffer,
which are outside the dv windows `400..401` and `403..404`: the `k` loop accumulates
into `dv[k]` for `k < duDesc.length`. -/
theorem updateDerivs_writes_past_dv_window :
    shortDvBind.controlDataDesc.CanEval shortDvBind.outputDuDesc = true ∧
    shortDvBind.controlDataDesc.CanEval shortDvBind.outputDvDesc = true ∧
    (∀ x, InWindows (shortDvBind.outputVDeriv + shortDvBind.outputDvDesc.offset)
        shortDvBind.outputDvDesc.stride shortDvBind.outputDvDesc.length
        twoStencilTable.GetNumStencils x ↔ x = 400 ∨ x = 401 ∨ x = 403 ∨ x = 404) ∧
    [sampleMem 402, sampleMem 405] = [402, 405] ∧
    observe (_UpdateDerivs twoStencilTable shortDvBind sampleMem) [402, 405]
      = some (twoStencilTable.GetNumStencils, [507, 621]) := by
  refine ⟨by decide, by decide, ?_, by decide, by decide⟩
  intro x
  constructor
  · rintro ⟨i, hi, h1, h2⟩
    have hi2 : i < 2 := hi
    have e1 : shortDvBind.outputVDeriv + shortDvBind.outputDvDesc.offset = 400 := rfl
    have e2 : shortDvBind.outputDvDesc.stride = 3 := rfl
    have e3 : shortDvBind.outputDvDesc.length = 2 := rfl
    rw [e1, e2] at h1 h2
    rw [e3] at h2
    omega
  · intro hx
    have e1 : shortDvBind.outputVDeriv + shortDvBind.outputDvDesc.offset = 400 := rfl
    have e2 : shortDvBind.outputDvDesc.stride = 3 := rfl
    have e3 : shortDvBind.outputDvDesc.length = 2 := rfl
    have e4 : twoStencilTable.GetNumStencils = 2 := rfl
    unfold InWindows
    rw [e1, e2, e3, e4]
    rcases hx with hx | hx | hx | hx
    · exact ⟨0, by omega, by omega, by omega⟩
    · exact ⟨0, by omega, by omega, by omega⟩
    · exact ⟨1, by omega, by omega, by omega⟩
    · exact ⟨1, by omega, by omega, by omega⟩

/-- A loop whose rounds commute with a map of the state commutes with it. -/
theorem forLoop_map {σ τ ε : Type} (f : σ → τ) (b1 : Nat → σ → Except ε σ)
    (b2 : Nat → τ → Except ε τ) (h : ∀ i s, b2 i (f s) = Except.map f (b1 i s)) :
    ∀ n i s, forLoop b2 n i (f s) = Except.map f (forLoop b1 n i s) := by
  intro n
  induction n with
  | zero => intro i s; rfl
  | succ n ih =>
    intro i s
    simp only [forLoop, h i s]
    cases b1 i s with
    | error e => rfl
    | ok s1 => exact ih (i + 1) s1

/-- An `int` value in `[0, 2^31)` is its exact value. -/
theorem wrapInt32_of_lt (x : Int) (h0 : 0 ≤ x) (h : x < 2147483648) : wrapInt32 x = x := by
  unfold wrapInt32
  omega

/-- When the product `idx * cstride` fits in an `int`, `cv` is the cell
`ctrl + idx * cstride`. -/
theorem controlVertex_of_lt (ctrl idx cstride : Nat) (h : idx * cstride < 2147483648) :
    controlVertex ctrl idx cstride = ((ctrl + idx * cstride : Nat) : Int) := by
  unfold controlVertex
  have e : ((idx * cstride : Nat) : Int) = (idx : Int) * (cstride : Int) := Nat.cast_mul _ _
  rw [← e, wrapInt32_of_lt _ (Int.natCast_nonneg _) (by omega)]
  omega

/-- A read at the address of a cell is the read of the cell. -/
theorem readAt_natCast {R : Type} (m : Mem R) (c k : Nat) :
    Mem.readAt m (((c : Nat) : Int) + (k : Int)) = m (c + k) := by
  unfold Mem.readAt
  have e : ((c : Int) + (k : Int)).toNat = c + k := by omega
  rw [e]

/-- The traced `k` round at the address of a cell is `accumulateBody` on the heap. -/
theorem tracedAccumulateBody_erase {R : Type} [Semiring R] (c out : Nat) (w : R) (k : Nat)
    (s : Mem R × List Access) :
    accumulateBody c out w k s.1
      = Except.map Prod.fst (tracedAccumulateBody ((c : Nat) : Int) out w k s) := by
  unfold accumulateBody tracedAccumulateBody
  rw [readAt_natCast]
  rfl

/-- The traced `j` round is `stencilBody` on the state without the record, when the
products of the control indices with the stride fit in an `int`. -/
theorem tracedStencilBody_erase {R : Type} [Semiring R] (indices : List Nat)
    (weights : List R) (ctrl cstride len j : Nat) (s : TracedState R)
    (hprod : ∀ c ∈ indices, c * cstride < 2147483648) :
    stencilBody indices weights ctrl cstride len j s.erase
      = Except.map TracedState.erase (tracedStencilBody indices weights ctrl cstride len j s) := by
  unfold stencilBody tracedStencilBody
  simp only [TracedState.erase]
  cases hidx : indices[s.cursor]? with
  | none => rfl
  | some idx =>
    cases weights[s.cursor]? with
    | none => rfl
    | some w =>
      have hlt := lt_length_of_getElem? indices s.cursor idx hidx
      have hmem : idx ∈ indices := by
        rw [← getD_of_getElem? indices s.cursor idx 0 hidx]
        exact getD_mem indices s.cursor 0 hlt
      have hk := forLoop_map Prod.fst
        (tracedAccumulateBody ((ctrl + idx * cstride : Nat) : Int) s.out w)
        (accumulateBody (ctrl + idx * cstride) s.out w)
        (fun k st => tracedAccumulateBody_erase _ _ _ k st) len 0 (s.mem, s.log)
      simp only [] at hk ⊢
      rw [hk, controlVertex_of_lt ctrl idx cstride (hprod idx hmem)]
      cases forLoop (tracedAccumulateBody ((ctrl + idx * cstride : Nat) : Int) s.out w) len 0
          (s.mem, s.log) with
      | error e => rfl
      | ok r => rfl

/-- The traced `i` round is `vertexBody` on the state without the record, when the
products of the control indices with the stride fit in an `int`. -/
theorem tracedVertexBody_erase {R : Type} [Semiring R] (sizes indices : List Nat)
    (weights : List R) (ctrl cstride len ostride i : Nat) (s : TracedState R)
    (hprod : ∀ c ∈ indices, c * cstride < 2147483648) :
    vertexBody sizes indices weights ctrl cstride len ostride i s.erase
      = Except.map TracedState.erase
          (tracedVertexBody sizes indices weights ctrl cstride len ostride i s) := by
  unfold vertexBody tracedVertexBody
  cases sizes[i]? with
  | none => rfl
  | some n =>
    have hj := forLoop_map TracedState.erase
      (tracedStencilBody indices weights ctrl cstride len)
      (stencilBody indices weights ctrl cstride len)
      (fun j s0 => tracedStencilBody_erase indices weights ctrl cstride len j s0 hprod) n 0
      ⟨s.out, s.cursor, memset s.mem s.out len, s.log ++ memsetAccesses s.out len⟩
    simp only [TracedState.erase] at hj ⊢
    rw [hj]
    cases forLoop (tracedStencilBody indices weights ctrl cstride len) n 0
        ⟨s.out, s.cursor, memset s.mem s.out len, s.log ++ memsetAccesses s.out len⟩ with
    | error e => rfl
    | ok s1 => rfl

/-- The traced pass is `_UpdateValues` with a record added, when the products of the
control indices with the control stride fit in an `int`: forgetting the cursor and the
record of its outcome gives the outcome of `_UpdateValues`. -/
theorem tracedUpdateValues_erase {R : Type} [Semiring R] (t : FarStencilTables R)
    (bs : BindState) (m : Mem R)
    (hprod : ∀ c ∈ t.controlIndices, c * bs.controlDataDesc.stride < 2147483648) :
    _UpdateValues t bs m
      = Except.map (fun r => (r.ret, r.mem)) (tracedUpdateValues t bs m) := by
  unfold _UpdateValues tracedUpdateValues
  split
  · rfl
  · split
    · rfl
    · split
      · rfl
      · split
        · rfl
        · have hi := forLoop_map TracedState.erase
            (tracedVertexBody t.sizes t.controlIndices t.weights bs.ctrl
              bs.controlDataDesc.stride bs.outputDataDesc.length bs.outputDataDesc.stride)
            (vertexBody t.sizes t.controlIndices t.weights bs.ctrl
              bs.controlDataDesc.stride bs.outputDataDesc.length bs.outputDataDesc.stride)
            (fun i s0 => tracedVertexBody_erase _ _ _ _ _ _ _ i s0 hprod) t.GetNumStencils 0
            ⟨bs.out, 0, m, []⟩
          simp only [TracedState.erase] at hi
          rw [hi]
          cases forLoop (tracedVertexBody t.sizes t.controlIndices t.weights bs.ctrl
              bs.controlDataDesc.stride bs.outputDataDesc.length bs.outputDataDesc.stride)
              t.GetNumStencils 0 ⟨bs.out, 0, m, []⟩ with
          | error e => rfl
          | ok s1 => rfl

/-- The traced `k` loop runs to its end and appends its accesses in order: for each
component the read of `out[k]`, the read of `cv[k]` and the write of `out[k]`. -/
theorem tracedAccumulate_log {R : Type} [Semiring R] (cv : Int) (out : Nat) (w : R)
    (len : Nat) (s : Mem R × List Access) :
    ∃ s1, forLoop (tracedAccumulateBody cv out w) len 0 s = .ok s1 ∧
      s1.2 = s.2 ++ accumulateAccesses cv out len := by
  have key := forLoop_total (tracedAccumulateBody cv out w)
    (fun k st => st.2 = s.2 ++ accumulateAccesses cv out k) len
    (by
      intro k st hk hI
      refine ⟨_, rfl, ?_⟩
      simp only [hI, accumulateAccesses, List.range_succ, List.flatMap_append,
        List.flatMap_cons, List.flatMap_nil, List.append_nil, List.append_assoc])
    len 0 s (by omega) (by simp [accumulateAccesses])
  obtain ⟨s1, h1, h2⟩ := key
  simp only [Nat.zero_add] at h2
  exact ⟨s1, h1, h2⟩

/-- The traced `j` loop over `n` contributions from cursor `c0`, when the flattened
sequences hold that many entries: it succeeds with the cursor advanced by `n` and
appends the accesses of these contributions in order. -/
theorem tracedStencilLoop_log {R : Type} [Semiring R] (indices : List Nat) (weights : List R)
    (ctrl cstride len n c0 out : Nat) (m : Mem R) (log : List Access)
    (hi : c0 + n ≤ indices.length) (hw : c0 + n ≤ weights.length) :
    ∃ s1, forLoop (tracedStencilBody indices weights ctrl cstride len) n 0 ⟨out, c0, m, log⟩
        = .ok s1 ∧
      s1.out = out ∧ s1.cursor = c0 + n ∧
      s1.log = log ++ stencilAccesses indices ctrl cstride len out c0 n := by
  have key := forLoop_total (tracedStencilBody indices weights ctrl cstride len)
    (fun j st => st.out = out ∧ st.cursor = c0 + j ∧
      st.log = log ++ stencilAccesses indices ctrl cstride len out c0 j) n
    (by
      intro j st hj hI
      obtain ⟨ho, hc, hl⟩ := hI
      obtain ⟨r, hr1, hr2⟩ := tracedAccumulate_log
        (controlVertex ctrl (indices.getD (c0 + j) 0) cstride) out
        (weights.getD (c0 + j) 0) len (st.mem, st.log)
      refine ⟨⟨out, c0 + j + 1, r.1, r.2⟩, ?_, rfl, by simp only []; omega, ?_⟩
      · simp only [tracedStencilBody, hc, ho,
          getElem?_eq_some_getD indices (c0 + j) 0 (by omega),
          getElem?_eq_some_getD weights (c0 + j) 0 (by omega), hr1]
      · simp only [hr2, hl, stencilAccesses, List.range_succ, List.flatMap_append,
          List.flatMap_cons, List.flatMap_nil, List.append_nil, List.append_assoc])
    n 0 ⟨out, c0, m, log⟩ (by omega) ⟨rfl, rfl, by simp [stencilAccesses]⟩
  obtain ⟨s1, h1, h2, h3, h4⟩ := key
  simp only [Nat.zero_add] at h3 h4
  exact ⟨s1, h1, h2, h3, h4⟩

/-- The traced `i` loop over a table whose flattened sequences hold `Σ sizes` entries:
it succeeds with the cursor advanced by exactly `Σ sizes`, and its record is the list
`positionAccesses`. -/
theorem tracedVertexLoop_log {R : Type} [Semiring R] (sizes indices : List Nat)
    (weights : List R) (ctrl cstride len ostride out0 : Nat) (m : Mem R)
    (hi : sizes.sum ≤ indices.length) (hw : sizes.sum ≤ weights.length) :
    ∃ s1, forLoop (tracedVertexBody sizes indices weights ctrl cstride len ostride)
        sizes.length 0 ⟨out0, 0, m, []⟩ = .ok s1 ∧
      s1.cursor = sizes.sum ∧
      s1.log = positionAccesses sizes indices ctrl cstride len out0 ostride sizes.length := by
  have key := forLoop_total (tracedVertexBody sizes indices weights ctrl cstride len ostride)
    (fun i st => st.out = out0 + i * ostride ∧ st.cursor = stencilBase sizes i ∧
      st.log = positionAccesses sizes indices ctrl cstride len out0 ostride i) sizes.length
    (by
      intro i st hlt hI
      obtain ⟨ho, hc, hl⟩ := hI
      have hsum := stencilBase_succ_le_sum sizes i hlt
      obtain ⟨s1, hs1, ho1, hc1, hl1⟩ := tracedStencilLoop_log indices weights ctrl cstride len
        (sizes.getD i 0) (stencilBase sizes i) (out0 + i * ostride)
        (memset st.mem (out0 + i * ostride) len)
        (st.log ++ memsetAccesses (out0 + i * ostride) len)
        (by omega) (by omega)
      refine ⟨⟨s1.out + ostride, s1.cursor, s1.mem, s1.log⟩, ?_, ?_, ?_, ?_⟩
      · simp only [tracedVertexBody, getElem?_eq_some_getD sizes i 0 hlt, ho, hc, hs1]
      · simp only [ho1, Nat.succ_mul]; omega
      · simp only [hc1, stencilBase_succ sizes i hlt]
      · simp only [hl1, hl, positionAccesses, List.range_succ, List.flatMap_append,
          List.flatMap_cons, List.flatMap_nil, List.append_nil, List.append_assoc])
    sizes.length 0 ⟨out0, 0, m, []⟩ (by omega)
    ⟨by simp, by simp [stencilBase_zero], by simp [positionAccesses]⟩
  obtain ⟨s1, h1, _, h3, h4⟩ := key
  simp only [Nat.zero_add, stencilBase_length] at h3 h4
  exact ⟨s1, h1, h3, h4⟩

/-- Every access of `positionAccesses` satisfies `P` when the reads of the control cells
of the first `Σ sizes` indices and the accesses to the output windows do. -/
theorem positionAccesses_forall (sizes indices : List Nat)
    (ctrl cstride len out0 ostride : Nat) (P : Access → Prop)
    (hr : ∀ p < sizes.sum, ∀ k < len,
      P (Access.ctrlRead (controlVertex ctrl (indices.getD p 0) cstride + k)))
    (hwr : ∀ i < sizes.length, ∀ k < len,
      P (Access.outRead (out0 + i * ostride + k)) ∧
      P (Access.outWrite (out0 + i * ostride + k))) :
    ∀ a ∈ positionAccesses sizes indices ctrl cstride len out0 ostride sizes.length, P a := by
  intro a ha
  simp only [positionAccesses, List.mem_flatMap, List.mem_range, List.mem_append,
    memsetAccesses, List.mem_map, stencilAccesses, accumulateAccesses, List.mem_cons,
    List.mem_singleton, List.not_mem_nil, or_false] at ha
  obtain ⟨i, hi, h⟩ := ha
  rcases h with ⟨k, hk, rfl⟩ | ⟨j, hj, k, hk, h⟩
  · exact (hwr i hi k hk).2
  · have hsum := stencilBase_succ_le_sum sizes i hi
    rcases h with rfl | rfl | rfl
    · exact (hwr i hi k hk).1
    · exact hr _ (by omega) k hk
    · exact (hwr i hi k hk).2

/-- C17 (as amended): index safety of the position pass.  For every stencil table with
`Σ sizes == len(controlIndices) == len(weights)` and every control index below
`numControlVertices`, every descriptor pair with `offset + length <= stride` and
`outDesc.length <= ctrlDesc.length`, a control buffer of at least
`numControlVertices*ctrlDesc.stride` cells, an output buffer of at least
`nstencils*outDesc.stride` cells, and every product `index*ctrlDesc.stride` of a control
index with the control stride fitting in an `int` (being below `2^31`):
the traced pass is `_UpdateValues` with the accesses recorded and the product
`(*index)*ctrlDesc.stride` taken in 32 bits; it never reads a table past its end (its
only failure is the checked `GetControlIndices().at(0)` on a table whose flattened
sequences are empty, raised before any access); every read through the control pointer
is a read of a cell of the control buffer and every read and write through the output
pointer touches a cell of the output buffer; when the loop has run, the shared
index/weight cursor has advanced by exactly `Σ sizes` and the accesses made are those of
`positionAccesses`, in that order, each `cv` being the cell `ctrl + index*stride`; and
the loop does run to its end for a non-empty table, compatible descriptors and non-null
bound pointers. -/
theorem updateValues_index_safety {R : Type} [Semiring R] (t : FarStencilTables R)
    (bs : BindState) (m : Mem R) (numControlVertices ctrlSize outSize : Nat)
    (hi : t.sizes.sum = t.controlIndices.length) (hw : t.sizes.sum = t.weights.length)
    (hidx : ∀ c ∈ t.controlIndices, c < numControlVertices)
    (hc : bs.controlDataDesc.offset + bs.controlDataDesc.length ≤ bs.controlDataDesc.stride)
    (ho : bs.outputDataDesc.offset + bs.outputDataDesc.length ≤ bs.outputDataDesc.stride)
    (hlen : bs.outputDataDesc.length ≤ bs.controlDataDesc.length)
    (hcs : numControlVertices * bs.controlDataDesc.stride ≤ ctrlSize)
    (hos : t.GetNumStencils * bs.outputDataDesc.stride ≤ outSize)
    (hprod : ∀ c ∈ t.controlIndices, c * bs.controlDataDesc.stride < 2147483648) :
    _UpdateValues t bs m = Except.map (fun r => (r.ret, r.mem)) (tracedUpdateValues t bs m) ∧
    (∀ e, tracedUpdateValues t bs m = .error e →
      e = EvalError.outOfRange ∧ t.controlIndices = []) ∧
    (∀ r, tracedUpdateValues t bs m = .ok r →
      (∀ a ∈ r.log, a.InBounds bs.controlData ctrlSize bs.outputData outSize) ∧
      (r.ret ≠ 0 → r.cursor = t.sizes.sum ∧
        r.log = positionAccesses t.sizes t.controlIndices bs.ctrl bs.controlDataDesc.stride
          bs.outputDataDesc.length bs.out bs.outputDataDesc.stride t.GetNumStencils)) ∧
    (∀ c ∈ t.controlIndices, controlVertex bs.ctrl c bs.controlDataDesc.stride
      = ((bs.ctrl + c * bs.controlDataDesc.stride : Nat) : Int)) ∧
    (0 < t.GetNumStencils → t.controlIndices ≠ [] →
      bs.controlDataDesc.CanEval bs.outputDataDesc = true →
      bs.controlData ≠ 0 → bs.outputData ≠ 0 →
      ∃ r, tracedUpdateValues t bs m = .ok r ∧ r.ret = t.GetNumStencils ∧
        r.cursor = t.sizes.sum ∧
        r.log = positionAccesses t.sizes t.controlIndices bs.ctrl bs.controlDataDesc.stride
          bs.outputDataDesc.length bs.out bs.outputDataDesc.stride t.GetNumStencils) := by
  obtain ⟨s1, hloop, hcur, hlogeq⟩ := tracedVertexLoop_log t.sizes t.controlIndices t.weights
    bs.ctrl bs.controlDataDesc.stride bs.outputDataDesc.length bs.outputDataDesc.stride bs.out
    m (le_of_eq hi) (le_of_eq hw)
  have hlog : ∀ a ∈ s1.log, a.InBounds bs.controlData ctrlSize bs.outputData outSize := by
    rw [hlogeq]
    apply positionAccesses_forall
    · intro p hp k hk
      have hin := getD_mem t.controlIndices p 0 (by omega)
      have hmem := hidx _ hin
      have hmul : (t.controlIndices.getD p 0 + 1) * bs.controlDataDesc.stride
          ≤ numControlVertices * bs.controlDataDesc.stride :=
        Nat.mul_le_mul_right _ hmem
      rw [Nat.succ_mul] at hmul
      rw [controlVertex_of_lt _ _ _ (hprod _ hin)]
      have hb : bs.controlData ≤ bs.ctrl
            + t.controlIndices.getD p 0 * bs.controlDataDesc.stride + k ∧
          bs.ctrl + t.controlIndices.getD p 0 * bs.controlDataDesc.stride + k
            < bs.controlData + ctrlSize := by
        simp only [BindState.ctrl]
        constructor <;> omega
      show (bs.controlData : Int) ≤ _ ∧ _ < (bs.controlData : Int) + (ctrlSize : Int)
      constructor
      · exact_mod_cast hb.1
      · exact_mod_cast hb.2
    · intro i hlt k hk
      have hlt1 : i < t.GetNumStencils := hlt
      have hmul : (i + 1) * bs.outputDataDesc.stride
          ≤ t.GetNumStencils * bs.outputDataDesc.stride :=
        Nat.mul_le_mul_right _ hlt1
      rw [Nat.succ_mul] at hmul
      have hb : bs.outputData ≤ bs.out + i * bs.outputDataDesc.stride + k ∧
          bs.out + i * bs.outputDataDesc.stride + k < bs.outputData + outSize := by
        simp only [BindState.out]
        constructor <;> omega
      exact ⟨hb, hb⟩
  have hloop1 : forLoop (tracedVertexBody t.sizes t.controlIndices t.weights bs.ctrl
      bs.controlDataDesc.stride bs.outputDataDesc.length bs.outputDataDesc.stride)
      t.GetNumStencils 0 ⟨bs.out, 0, m, []⟩ = .ok s1 := hloop
  have hlogeq1 : s1.log = positionAccesses t.sizes t.controlIndices bs.ctrl
      bs.controlDataDesc.stride bs.outputDataDesc.length bs.out bs.outputDataDesc.stride
      t.GetNumStencils := hlogeq
  refine ⟨tracedUpdateValues_erase t bs m hprod, ?_, ?_,
    fun c hcm => controlVertex_of_lt _ _ _ (hprod c hcm), ?_⟩
  · intro e he
    by_cases hn : t.GetNumStencils = 0
    · rw [tracedUpdateValues, if_pos hn] at he
      cases he
    by_cases hce : bs.controlDataDesc.CanEval bs.outputDataDesc = false
    · rw [tracedUpdateValues, if_neg hn, if_pos hce] at he
      cases he
    by_cases hp : bs.ctrl = 0 ∨ bs.out = 0
    · rw [tracedUpdateValues, if_neg hn, if_neg hce, if_pos hp] at he
      cases he
    by_cases hemp : t.sizes.isEmpty ∨ t.controlIndices.isEmpty ∨ t.weights.isEmpty
    · rw [tracedUpdateValues, if_neg hn, if_neg hce, if_neg hp, if_pos hemp] at he
      simp only [Except.error.injEq] at he
      refine ⟨he.symm, ?_⟩
      simp only [List.isEmpty_iff] at hemp
      rcases hemp with h | h | h
      · exact absurd (by simp [FarStencilTables.GetNumStencils, h]) hn
      · exact h
      · rw [h] at hw
        simp only [List.length_nil] at hw
        exact List.length_eq_zero.mp (by omega)
    · rw [tracedUpdateValues, if_neg hn, if_neg hce, if_neg hp, if_neg hemp] at he
      simp only [hloop1] at he
      cases he
  · intro r hr
    unfold tracedUpdateValues at hr
    split at hr
    · simp only [Except.ok.injEq] at hr
      subst hr
      exact ⟨fun a ha => absurd ha (List.not_mem_nil _), fun h => absurd rfl h⟩
    · split at hr
      · simp only [Except.ok.injEq] at hr
        subst hr
        exact ⟨fun a ha => absurd ha (List.not_mem_nil _), fun h => absurd rfl h⟩
      · split at hr
        · simp only [Except.ok.injEq] at hr
          subst hr
          exact ⟨fun a ha => absurd ha (List.not_mem_nil _), fun h => absurd rfl h⟩
        · split at hr
          · cases hr
          · rw [hloop1] at hr
            simp only [Except.ok.injEq] at hr
            subst hr
            exact ⟨hlog, fun _ => ⟨hcur, hlogeq1⟩⟩
  · intro hn hne hce hcn hon
    have hn0 : t.GetNumStencils ≠ 0 := by omega
    have hs : t.sizes ≠ [] := by
      intro h; simp [FarStencilTables.GetNumStencils, h] at hn0
    have hpos : 0 < t.controlIndices.length := List.length_pos.mpr hne
    have hnw : t.weights ≠ [] := by
      intro h; rw [h] at hw; simp at hw; omega
    have hc1 : bs.ctrl ≠ 0 := by simp only [BindState.ctrl]; omega
    have ho1 : bs.out ≠ 0 := by simp only [BindState.out]; omega
    refine ⟨⟨t.GetNumStencils, s1.mem, s1.cursor, s1.log⟩, ?_, rfl, hcur, hlogeq1⟩
    simp only [tracedUpdateValues, hn0, hce, hc1, ho1, List.isEmpty_iff, hs, hne, hnw,
      if_false, or_self, Bool.true_eq_false]
    rw [hloop1]

/-- Witness of C17: the two-stencil table on the interleaved layout, with three control
vertices of stride 3 in a buffer of 9 cells and two output vertices of stride 4 in a
buffer of 8 cells; the record of its accesses, and that of the smallest call. -/
theorem updateValues_index_safety_witness :
    (_UpdateValues twoStencilTable interleavedBind sampleMem
        = Except.map (fun r => (r.ret, r.mem))
            (tracedUpdateValues twoStencilTable interleavedBind sampleMem) ∧
      (∀ e, tracedUpdateValues twoStencilTable interleavedBind sampleMem = .error e →
        e = EvalError.outOfRange ∧ twoStencilTable.controlIndices = []) ∧
      (∀ r, tracedUpdateValues twoStencilTable interleavedBind sampleMem = .ok r →
        (∀ a ∈ r.log, a.InBounds 100 9 200 8) ∧
        (r.ret ≠ 0 → r.cursor = 3 ∧
          r.log = positionAccesses [2, 1] [0, 1, 2] 101 3 2 201 4 2)) ∧
      (∀ c ∈ twoStencilTable.controlIndices,
        controlVertex 101 c 3 = ((101 + c * 3 : Nat) : Int)) ∧
      (0 < twoStencilTable.GetNumStencils → twoStencilTable.controlIndices ≠ [] →
        interleavedBind.controlDataDesc.CanEval interleavedBind.outputDataDesc = true →
        interleavedBind.controlData ≠ 0 → interleavedBind.outputData ≠ 0 →
        ∃ r, tracedUpdateValues twoStencilTable interleavedBind sampleMem = .ok r ∧
          r.ret = 2 ∧ r.cursor = 3 ∧
          r.log = positionAccesses [2, 1] [0, 1, 2] 101 3 2 201 4 2)) ∧
    observeTrace (tracedUpdateValues twoStencilTable interleavedBind sampleMem)
      = some (2, 3, [Access.outWrite 201, Access.outWrite 202,
          Access.outRead 201, Access.ctrlRead 101, Access.outWrite 201,
          Access.outRead 202, Access.ctrlRead 102, Access.outWrite 202,
          Access.outRead 201, Access.ctrlRead 104, Access.outWrite 201,
          Access.outRead 202, Access.ctrlRead 105, Access.outWrite 202,
          Access.outWrite 205, Access.outWrite 206,
          Access.outRead 205, Access.ctrlRead 107, Access.outWrite 205,
          Access.outRead 206, Access.ctrlRead 108, Access.outWrite 206]) ∧
    observeTrace (tracedUpdateValues unitTable unitBind sampleMem)
      = some (1, 1, [Access.outWrite 200, Access.outRead 200, Access.ctrlRead 100,
          Access.outWrite 200]) :=
  ⟨updateValues_index_safety twoStencilTable interleavedBind sampleMem 3 9 8 (by decide)
    (by decide) (by decide) (by decide) (by decide) (by decide) (by decide) (by decide)
    (by decide), by decide, by decide⟩

/-- C17 as stated fails when `numControlVertices*ctrlDesc.stride` does not fit in an
`int`: one stencil with control index 32768, which is below `numControlVertices = 32769`,
a control descriptor `(offset 0, length 1, stride 65536)` and a control buffer of
`32769 * 65536` cells from cell 100 satisfy every condition of the claim, and the product
`32768 * 65536 = 2^31` taken in 32 bits is `-2^31`, so `cv[0]` is read at the address
`100 - 2^31`, below the control buffer. -/
theorem updateValues_reads_below_control_buffer :
    farIndexTable.sizes.sum = farIndexTable.controlIndices.length ∧
    farIndexTable.sizes.sum = farIndexTable.weights.length ∧
    (∀ c ∈ farIndexTable.controlIndices, c < 32769) ∧
    wideStrideBind.controlDataDesc.offset + wideStrideBind.controlDataDesc.length
      ≤ wideStrideBind.controlDataDesc.stride ∧
    wideStrideBind.outputDataDesc.offset + wideStrideBind.outputDataDesc.length
      ≤ wideStrideBind.outputDataDesc.stride ∧
    wideStrideBind.outputDataDesc.length ≤ wideStrideBind.controlDataDesc.length ∧
    32769 * wideStrideBind.controlDataDesc.stride ≤ 2147549184 ∧
    farIndexTable.GetNumStencils * wideStrideBind.outputDataDesc.stride ≤ 1 ∧
    controlVertex 100 32768 65536 = -2147483548 ∧
    observeTrace (tracedUpdateValues farIndexTable wideStrideBind sampleMem)
      = some (1, 1, [Access.outWrite 3000000000, Access.outRead 3000000000,
          Access.ctrlRead (-2147483548), Access.outWrite 3000000000]) ∧
    ¬ (Access.ctrlRead (-2147483548)).InBounds wideStrideBind.controlData 2147549184
        wideStrideBind.outputData 1 ∧
    ¬ ∀ r, tracedUpdateValues farIndexTable wideStrideBind sampleMem = .ok r →
        ∀ a ∈ r.log, a.InBounds wideStrideBind.controlData 2147549184
          wideStrideBind.outputData 1 := by
  have hobs : observeTrace (tracedUpdateValues farIndexTable wideStrideBind sampleMem)
      = some (1, 1, [Access.outWrite 3000000000, Access.outRead 3000000000,
          Access.ctrlRead (-2147483548), Access.outWrite 3000000000]) := by decide
  have hnot : ¬ (Access.ctrlRead (-2147483548)).InBounds wideStrideBind.controlData
      2147549184 wideStrideBind.outputData 1 := by
    intro h
    have h1 : ((100 : Nat) : Int) ≤ -2147483548 := h.1
    omega
  refine ⟨by decide, by decide, by decide, by decide, by decide, by decide, by decide,
    by decide, by decide, hobs, hnot, ?_⟩
  intro hall
  cases hr : tracedUpdateValues farIndexTable wideStrideBind sampleMem with
  | error e =>
    rw [hr] at hobs
    simp only [observeTrace] at hobs
    cases hobs
  | ok r =>
    rw [hr] at hobs
    simp only [observeTrace, Option.some.injEq, Prod.mk.injEq] at hobs
    exact hnot (hall r hr _ (by rw [hobs.2.2]; simp))

/-! ## Claim C21: the position pass is linear in the heap -/

/-- Homomorphism rule: when a round on a combination of two states is the combination
of the rounds on each, so is the loop. -/
theorem forLoop_combine {σ ε : Type} (c : σ → σ → σ) (body : Nat → σ → Except ε σ)
    (Q : σ → σ → Prop)
    (hstep : ∀ i s1 s2 r1 r2, Q s1 s2 → body i s1 = .ok r1 → body i s2 = .ok r2 →
      body i (c s1 s2) = .ok (c r1 r2) ∧ Q r1 r2) :
    ∀ n i s1 s2 r1 r2, Q s1 s2 → forLoop body n i s1 = .ok r1 →
      forLoop body n i s2 = .ok r2 →
      forLoop body n i (c s1 s2) = .ok (c r1 r2) ∧ Q r1 r2 := by
  intro n
  induction n with
  | zero =>
    intro i s1 s2 r1 r2 hQ h1 h2
    simp only [forLoop, Except.ok.injEq] at h1 h2
    subst h1; subst h2
    exact ⟨rfl, hQ⟩
  | succ n ih =>
    intro i s1 s2 r1 r2 hQ h1 h2
    simp only [forLoop] at h1 h2 ⊢
    cases hb1 : body i s1 with
    | error e => rw [hb1] at h1; cases h1
    | ok t1 =>
      cases hb2 : body i s2 with
      | error e => rw [hb2] at h2; cases h2
      | ok t2 =>
        rw [hb1] at h1
        rw [hb2] at h2
        obtain ⟨hc, hQ1⟩ := hstep i s1 s2 t1 t2 hQ hb1 hb2
        rw [hc]
        exact ih (i + 1) t1 t2 r1 r2 hQ1 h1 h2

/-- The statement `out[k] += cv[k] * w` on a combination of two heaps gives the
combination of its results on each. -/
theorem write_combine {R : Type} [Semiring R] (a b w : R) (m1 m2 : Mem R) (p q : Nat) :
    (Mem.combine a b m1 m2).write p (Mem.combine a b m1 m2 p + Mem.combine a b m1 m2 q * w)
      = Mem.combine a b (m1.write p (m1 p + m1 q * w)) (m2.write p (m2 p + m2 q * w)) := by
  funext x
  simp only [Mem.combine, Mem.write]
  split
  · simp only [add_mul, mul_add, mul_assoc]
    abel
  · rfl

/-- The statement `memset` on a combination of two heaps. -/
theorem memset_combine {R : Type} [Semiring R] (a b : R) (m1 m2 : Mem R) (p n : Nat) :
    memset (Mem.combine a b m1 m2) p n
      = Mem.combine a b (memset m1 p n) (memset m2 p n) := by
  funext x
  simp only [Mem.combine, memset]
  split
  · simp
  · rfl

/-- The `k` loop on a combination of two heaps. -/
theorem accumulate_combine {R : Type} [Semiring R] (a b : R) (cv out : Nat) (w : R)
    (len : Nat) (m1 m2 r1 r2 : Mem R)
    (h1 : forLoop (accumulateBody cv out w) len 0 m1 = .ok r1)
    (h2 : forLoop (accumulateBody cv out w) len 0 m2 = .ok r2) :
    forLoop (accumulateBody cv out w) len 0 (Mem.combine a b m1 m2)
      = .ok (Mem.combine a b r1 r2) :=
  (forLoop_combine (Mem.combine a b) (accumulateBody cv out w) (fun _ _ => True)
    (by
      intro k s1 s2 t1 t2 _ hb1 hb2
      simp only [accumulateBody, Except.ok.injEq] at hb1 hb2 ⊢
      subst hb1; subst hb2
      exact ⟨write_combine a b w s1 s2 (out + k) (cv + k), trivial⟩)
    len 0 m1 m2 r1 r2 trivial h1 h2).1

/-- One round of the `j` loop on a combination of two states at the same pointer and
cursor. -/
theorem stencilBody_combine {R : Type} [Semiring R] (a b : R) (indices : List Nat)
    (weights : List R) (ctrl cstride len j : Nat) (s1 s2 t1 t2 : ValueState R)
    (hQ : s1.out = s2.out ∧ s1.cursor = s2.cursor)
    (h1 : stencilBody indices weights ctrl cstride len j s1 = .ok t1)
    (h2 : stencilBody indices weights ctrl cstride len j s2 = .ok t2) :
    stencilBody indices weights ctrl cstride len j (ValueState.combine a b s1 s2)
        = .ok (ValueState.combine a b t1 t2) ∧
      (t1.out = t2.out ∧ t1.cursor = t2.cursor) := by
  obtain ⟨ho, hc⟩ := hQ
  unfold stencilBody at h1 h2 ⊢
  rw [← ho, ← hc] at h2
  simp only [ValueState.combine]
  cases hidx : indices[s1.cursor]? with
  | none => rw [hidx] at h1; cases h1
  | some idx =>
    cases hw : weights[s1.cursor]? with
    | none => rw [hidx, hw] at h1; cases h1
    | some w =>
      rw [hidx, hw] at h1 h2
      simp only [] at h1 h2 ⊢
      cases hl1 : forLoop (accumulateBody (ctrl + idx * cstride) s1.out w) len 0 s1.mem with
      | error e => rw [hl1] at h1; cases h1
      | ok r1 =>
        cases hl2 : forLoop (accumulateBody (ctrl + idx * cstride) s1.out w) len 0 s2.mem with
        | error e => rw [hl2] at h2; cases h2
        | ok r2 =>
          rw [hl1] at h1
          rw [hl2] at h2
          simp only [Except.ok.injEq] at h1 h2
          subst h1; subst h2
          rw [accumulate_combine a b _ _ w len s1.mem s2.mem r1 r2 hl1 hl2]
          exact ⟨rfl, rfl, rfl⟩

/-- The `j` loop on a combination of two states at the same pointer and cursor. -/
theorem stencilLoop_combine {R : Type} [Semiring R] (a b : R) (indices : List Nat)
    (weights : List R) (ctrl cstride len n : Nat) (s1 s2 t1 t2 : ValueState R)
    (hQ : s1.out = s2.out ∧ s1.cursor = s2.cursor)
    (h1 : forLoop (stencilBody indices weights ctrl cstride len) n 0 s1 = .ok t1)
    (h2 : forLoop (stencilBody indices weights ctrl cstride len) n 0 s2 = .ok t2) :
    forLoop (stencilBody indices weights ctrl cstride len) n 0 (ValueState.combine a b s1 s2)
        = .ok (ValueState.combine a b t1 t2) ∧
      (t1.out = t2.out ∧ t1.cursor = t2.cursor) :=
  forLoop_combine (ValueState.combine a b) (stencilBody indices weights ctrl cstride len)
    (fun x y => x.out = y.out ∧ x.cursor = y.cursor)
    (fun j x y u v hxy hx hy =>
      stencilBody_combine a b indices weights ctrl cstride len j x y u v hxy hx hy)
    n 0 s1 s2 t1 t2 hQ h1 h2

/-- One round of the `i` loop on a combination of two states at the same pointer and
cursor. -/
theorem vertexBody_combine {R : Type} [Semiring R] (a b : R) (sizes indices : List Nat)
    (weights : List R) (ctrl cstride len ostride i : Nat) (s1 s2 t1 t2 : ValueState R)
    (hQ : s1.out = s2.out ∧ s1.cursor = s2.cursor)
    (h1 : vertexBody sizes indices weights ctrl cstride len ostride i s1 = .ok t1)
    (h2 : vertexBody sizes indices weights ctrl cstride len ostride i s2 = .ok t2) :
    vertexBody sizes indices weights ctrl cstride len ostride i (ValueState.combine a b s1 s2)
        = .ok (ValueState.combine a b t1 t2) ∧
      (t1.out = t2.out ∧ t1.cursor = t2.cursor) := by
  obtain ⟨ho, hc⟩ := hQ
  unfold vertexBody at h1 h2 ⊢
  rw [← ho, ← hc] at h2
  cases hsz : sizes[i]? with
  | none => rw [hsz] at h1; cases h1
  | some sz =>
    rw [hsz] at h1 h2
    simp only [] at h1 h2 ⊢
    cases hl1 : forLoop (stencilBody indices weights ctrl cstride len) sz 0
        ⟨s1.out, s1.cursor, memset s1.mem s1.out len⟩ with
    | error e => rw [hl1] at h1; cases h1
    | ok r1 =>
      cases hl2 : forLoop (stencilBody indices weights ctrl cstride len) sz 0
          ⟨s1.out, s1.cursor, memset s2.mem s1.out len⟩ with
      | error e => rw [hl2] at h2; cases h2
      | ok r2 =>
        rw [hl1] at h1
        rw [hl2] at h2
        simp only [Except.ok.injEq] at h1 h2
        subst h1; subst h2
        obtain ⟨hl, hro, hrc⟩ := stencilLoop_combine a b indices weights ctrl cstride len sz
          ⟨s1.out, s1.cursor, memset s1.mem s1.out len⟩
          ⟨s1.out, s1.cursor, memset s2.mem s1.out len⟩ r1 r2 ⟨rfl, rfl⟩ hl1 hl2
        have e : (⟨(ValueState.combine a b s1 s2).out, (ValueState.combine a b s1 s2).cursor,
            memset (ValueState.combine a b s1 s2).mem (ValueState.combine a b s1 s2).out len⟩ :
              ValueState R)
            = ValueState.combine a b ⟨s1.out, s1.cursor, memset s1.mem s1.out len⟩
                ⟨s1.out, s1.cursor, memset s2.mem s1.out len⟩ := by
          simp only [ValueState.combine, memset_combine]
        rw [e, hl]
        refine ⟨rfl, ?_, hrc⟩
        simp only [hro]

/-- The `i` loop on a combination of two states at the same pointer and cursor. -/
theorem vertexLoop_combine {R : Type} [Semiring R] (a b : R) (sizes indices : List Nat)
    (weights : List R) (ctrl cstride len ostride n : Nat) (s1 s2 t1 t2 : ValueState R)
    (hQ : s1.out = s2.out ∧ s1.cursor = s2.cursor)
    (h1 : forLoop (vertexBody sizes indices weights ctrl cstride len ostride) n 0 s1 = .ok t1)
    (h2 : forLoop (vertexBody sizes indices weights ctrl cstride len ostride) n 0 s2 = .ok t2) :
    forLoop (vertexBody sizes indices weights ctrl cstride len ostride) n 0
        (ValueState.combine a b s1 s2) = .ok (ValueState.combine a b t1 t2) :=
  (forLoop_combine (ValueState.combine a b)
    (vertexBody sizes indices weights ctrl cstride len ostride)
    (fun x y => x.out = y.out ∧ x.cursor = y.cursor)
    (fun i x y u v hxy hx hy =>
      vertexBody_combine a b sizes indices weights ctrl cstride len ostride i x y u v hxy hx hy)
    n 0 s1 s2 t1 t2 hQ h1 h2).1

/-- The position pass is linear in the heap: when `_UpdateValues` returns on two heaps,
it returns the same value on their combination `a * m1 + b * m2` and leaves the
combination of the two heaps it left. -/
theorem updateValues_combine {R : Type} [Semiring R] (t : FarStencilTables R) (bs : BindState)
    (a b : R) (m1 m2 r1 r2 : Mem R) (n1 n2 : Nat)
    (h1 : _UpdateValues t bs m1 = .ok (n1, r1)) (h2 : _UpdateValues t bs m2 = .ok (n2, r2)) :
    _UpdateValues t bs (Mem.combine a b m1 m2) = .ok (n1, Mem.combine a b r1 r2) := by
  by_cases c1 : t.GetNumStencils = 0
  · rw [_UpdateValues, if_pos c1] at h1 h2 ⊢
    simp only [Except.ok.injEq, Prod.mk.injEq] at h1 h2
    rw [← h1.1, ← h1.2, ← h2.2]
  by_cases c2 : bs.controlDataDesc.CanEval bs.outputDataDesc = false
  · rw [_UpdateValues, if_neg c1, if_pos c2] at h1 h2 ⊢
    simp only [Except.ok.injEq, Prod.mk.injEq] at h1 h2
    rw [← h1.1, ← h1.2, ← h2.2]
  by_cases c3 : bs.ctrl = 0 ∨ bs.out = 0
  · rw [_UpdateValues, if_neg c1, if_neg c2, if_pos c3] at h1 h2 ⊢
    simp only [Except.ok.injEq, Prod.mk.injEq] at h1 h2
    rw [← h1.1, ← h1.2, ← h2.2]
  by_cases c4 : t.sizes.isEmpty ∨ t.controlIndices.isEmpty ∨ t.weights.isEmpty
  · rw [_UpdateValues, if_neg c1, if_neg c2, if_neg c3, if_pos c4] at h1
    cases h1
  rw [_UpdateValues, if_neg c1, if_neg c2, if_neg c3, if_neg c4] at h1 h2 ⊢
  cases hl1 : forLoop (vertexBody t.sizes t.controlIndices t.weights bs.ctrl
      bs.controlDataDesc.stride bs.outputDataDesc.length bs.outputDataDesc.stride)
      t.GetNumStencils 0 ⟨bs.out, 0, m1⟩ with
  | error e => rw [hl1] at h1; cases h1
  | ok s1 =>
    cases hl2 : forLoop (vertexBody t.sizes t.controlIndices t.weights bs.ctrl
        bs.controlDataDesc.stride bs.outputDataDesc.length bs.outputDataDesc.stride)
        t.GetNumStencils 0 ⟨bs.out, 0, m2⟩ with
    | error e => rw [hl2] at h2; cases h2
    | ok s2 =>
      rw [hl1] at h1
      rw [hl2] at h2
      simp only [Except.ok.injEq, Prod.mk.injEq] at h1 h2
      have hl := vertexLoop_combine a b t.sizes t.controlIndices t.weights bs.ctrl
        bs.controlDataDesc.stride bs.outputDataDesc.length bs.outputDataDesc.stride
        t.GetNumStencils ⟨bs.out, 0, m1⟩ ⟨bs.out, 0, m2⟩ s1 s2 ⟨rfl, rfl⟩ hl1 hl2
      have e : (⟨bs.out, 0, Mem.combine a b m1 m2⟩ : ValueState R)
          = ValueState.combine a b ⟨bs.out, 0, m1⟩ ⟨bs.out, 0, m2⟩ := rfl
      rw [e, hl, ← h1.1, ← h1.2, ← h2.2]
      rfl

/-- C21 (as amended): linearity in the control data.  For every stencil table whose
flattened `controlIndices` and `weights` are non-empty and hold at least `Σ sizes`
entries, descriptors passing `CanEval` and non-null bound pointers, and all heaps `c1`,
`c2`, `c` and every scalar `a`: `_UpdateValues` returns `nstencils` on each of the three
heaps; when every control cell read holds `a * c1 + c2` in `c`, every element of every
output window produced on `c` is `a` times the element produced on `c1` plus the
element produced on `c2`; and when every control cell read holds 0 in `c`, every
element of every output window produced on `c` is 0.  Nothing is assumed on the layout:
the output windows may overlap each other or the control cells. -/
theorem updateValues_linear {R : Type} [Semiring R] (t : FarStencilTables R) (bs : BindState)
    (a : R) (c1 c2 c : Mem R)
    (hne : t.controlIndices ≠ []) (hnw : t.weights ≠ [])
    (hi : t.sizes.sum ≤ t.controlIndices.length) (hw : t.sizes.sum ≤ t.weights.length)
    (hce : bs.controlDataDesc.CanEval bs.outputDataDesc = true)
    (hc : bs.controlData ≠ 0) (ho : bs.outputData ≠ 0) :
    ∃ r r1 r2, _UpdateValues t bs c = .ok (t.GetNumStencils, r) ∧
      _UpdateValues t bs c1 = .ok (t.GetNumStencils, r1) ∧
      _UpdateValues t bs c2 = .ok (t.GetNumStencils, r2) ∧
      ((∀ x, ControlCells t.controlIndices t.sizes.sum bs.ctrl bs.controlDataDesc.stride
          bs.outputDataDesc.length x → c x = a * c1 x + c2 x) →
        ∀ i < t.GetNumStencils, ∀ k < bs.outputDataDesc.length,
          r (bs.outputData + bs.outputDataDesc.offset + i * bs.outputDataDesc.stride + k)
            = a * r1 (bs.outputData + bs.outputDataDesc.offset
                + i * bs.outputDataDesc.stride + k)
              + r2 (bs.outputData + bs.outputDataDesc.offset
                + i * bs.outputDataDesc.stride + k)) ∧
      ((∀ x, ControlCells t.controlIndices t.sizes.sum bs.ctrl bs.controlDataDesc.stride
          bs.outputDataDesc.length x → c x = 0) →
        ∀ i < t.GetNumStencils, ∀ k < bs.outputDataDesc.length,
          r (bs.outputData + bs.outputDataDesc.offset + i * bs.outputDataDesc.stride + k)
            = 0) := by
  have hret : ∀ m : Mem R, ∃ r, _UpdateValues t bs m = .ok (t.GetNumStencils, r) := by
    intro m
    by_cases hn : t.GetNumStencils = 0
    · exact ⟨m, by rw [_UpdateValues, if_pos hn, hn]⟩
    · obtain ⟨r, h, _⟩ := updateValues_eval t bs m (by omega) hne hnw hi hw hce
        (by simp only [BindState.ctrl]; omega) (by simp only [BindState.out]; omega)
      exact ⟨r, h⟩
  obtain ⟨r, hr⟩ := hret c
  obtain ⟨r1, hr1⟩ := hret c1
  obtain ⟨r2, hr2⟩ := hret c2
  refine ⟨r, r1, r2, hr, hr1, hr2, ?_, ?_⟩
  · intro hrel i hlt k hk
    have hcomb := updateValues_combine t bs a 1 c1 c2 r1 r2 _ _ hr1 hr2
    have hsame := updateValues_agree t bs c (Mem.combine a 1 c1 c2)
      (by
        intro x hx
        rw [hrel x hx]
        simp only [Mem.combine, one_mul])
    rw [hr, hcomb] at hsame
    simp only [SameOn, RelExcept] at hsame
    have := hsame.2 (by omega) (bs.out + i * bs.outputDataDesc.stride + k)
      (Or.inr ⟨i, hlt, by omega, by omega⟩)
    simp only [Mem.combine, one_mul, BindState.out] at this
    exact this
  · intro hzero i hlt k hk
    have hcomb := updateValues_combine t bs 0 0 c c r r _ _ hr hr
    have hsame := updateValues_agree t bs c (Mem.combine 0 0 c c)
      (by
        intro x hx
        rw [hzero x hx]
        simp only [Mem.combine, zero_mul, add_zero])
    rw [hr, hcomb] at hsame
    simp only [SameOn, RelExcept] at hsame
    have := hsame.2 (by omega) (bs.out + i * bs.outputDataDesc.stride + k)
      (Or.inr ⟨i, hlt, by omega, by omega⟩)
    simp only [Mem.combine, zero_mul, add_zero, BindState.out] at this
    exact this

/-- Witness of C21: the two-stencil table on the heaps `sampleMem`, `constMem` and
`3 * sampleMem + constMem`, and on a heap whose control cells hold 0. -/
theorem updateValues_linear_witness :
    (∃ r r1 r2, _UpdateValues twoStencilTable packedBind blendMem = .ok (2, r) ∧
      _UpdateValues twoStencilTable packedBind sampleMem = .ok (2, r1) ∧
      _UpdateValues twoStencilTable packedBind constMem = .ok (2, r2) ∧
      ∀ i < 2, ∀ k < 3,
        r (200 + 0 + i * 3 + k) = 3 * r1 (200 + 0 + i * 3 + k) + r2 (200 + 0 + i * 3 + k)) ∧
    (∃ r, _UpdateValues twoStencilTable packedBind zeroControlMem = .ok (2, r) ∧
      ∀ i < 2, ∀ k < 3, r (200 + 0 + i * 3 + k) = 0) ∧
    observe (_UpdateValues twoStencilTable packedBind sampleMem)
      [200, 201, 202, 203, 204, 205] = some (2, [509, 514, 519, 530, 535, 540]) ∧
    observe (_UpdateValues twoStencilTable packedBind constMem)
      [200, 201, 202, 203, 204, 205] = some (2, [35, 40, 45, 35, 40, 45]) ∧
    observe (_UpdateValues twoStencilTable packedBind blendMem)
      [200, 201, 202, 203, 204, 205] = some (2, [1562, 1582, 1602, 1625, 1645, 1665]) ∧
    observe (_UpdateValues twoStencilTable packedBind zeroControlMem)
      [200, 201, 202, 203, 204, 205] = some (2, [0, 0, 0, 0, 0, 0]) := by
  obtain ⟨r, r1, r2, h, h1, h2, hl, _⟩ := updateValues_linear twoStencilTable packedBind 3
    sampleMem constMem blendMem (by decide) (by decide) (by decide) (by decide) (by decide)
    (by decide) (by decide)
  obtain ⟨z, _, _, hz, _, _, _, hz0⟩ := updateValues_linear twoStencilTable packedBind 0
    zeroControlMem zeroControlMem zeroControlMem (by decide) (by decide) (by decide)
    (by decide) (by decide) (by decide) (by decide)
  refine ⟨⟨r, r1, r2, h, h1, h2, hl (fun x _ => rfl)⟩, ⟨z, hz, hz0 ?_⟩, by decide,
    by decide, by decide, by decide⟩
  rintro x ⟨p, hp, k, hk, hx⟩
  have hp3 : p < 3 := hp
  have hk3 : k < 3 := hk
  have hlt : x < 200 := by
    subst hx
    interval_cases p <;> interval_cases k <;> decide
  simp only [zeroControlMem, if_pos hlt]

/-- C21 as stated fails for the table whose stencils are all empty: with `sizes = [0]`
and empty `controlIndices` and `weights`, compatible descriptors, non-null bound
pointers and a control buffer that holds 0 everywhere, `_UpdateValues` throws
`std::out_of_range` at `GetControlIndices().at(0)`, so no output window is produced and
the output vertex keeps `(200, 201, 202)` instead of becoming all-zero; the calls on
`sampleMem`, `constMem` and `3 * sampleMem + constMem` throw as well. -/
theorem updateValues_zero_control_not_cleared :
    0 < emptyStencilTable.GetNumStencils ∧
    packedBind.controlDataDesc.CanEval packedBind.outputDataDesc = true ∧
    packedBind.controlData ≠ 0 ∧ packedBind.outputData ≠ 0 ∧
    (∀ x, x < 200 → zeroControlMem x = 0) ∧
    [zeroControlMem 200, zeroControlMem 201, zeroControlMem 202] = [200, 201, 202] ∧
    _UpdateValues emptyStencilTable packedBind zeroControlMem = .error .outOfRange ∧
    (¬ ∃ n r, _UpdateValues emptyStencilTable packedBind zeroControlMem = .ok (n, r) ∧
      ∀ i < emptyStencilTable.GetNumStencils, ∀ k < packedBind.outputDataDesc.length,
        r (packedBind.outputData + packedBind.outputDataDesc.offset
          + i * packedBind.outputDataDesc.stride + k) = 0) ∧
    _UpdateValues emptyStencilTable packedBind sampleMem = .error .outOfRange ∧
    _UpdateValues emptyStencilTable packedBind constMem = .error .outOfRange ∧
    _UpdateValues emptyStencilTable packedBind blendMem = .error .outOfRange := by
  have e : _UpdateValues emptyStencilTable packedBind zeroControlMem = .error .outOfRange :=
    rfl
  refine ⟨by decide, by decide, by decide, by decide, ?_, by decide, e, ?_, rfl, rfl, rfl⟩
  · intro x hx
    simp only [zeroControlMem, if_pos hx]
  · rintro ⟨n, r, h, _⟩
    rw [e] at h
    cases h

end OpenSubdiv
